import Mathlib

/-!
# Viport backend: the request-authorization core

A shallow embedding of the three components the specification is about:

* the sliding-window limiter (`internal/middleware/rate_limit.go`),
* the token manager (`pkg/auth/jwt.go`),
* the gates of the authorization pipeline (`internal/middleware/auth.go`).

Every function that reads the system clock (`time.Now()`) takes the instants it
reads as explicit arguments, in the order in which the source reads them.
-/

set_option autoImplicit false

namespace Viport

/-! ## Time -/

/-- An instant (`time.Time`), as a number of nanoseconds. -/
abbrev Time := Int

/-- A `time.Duration`: a signed 64-bit number of nanoseconds. -/
abbrev Duration := Int

/-- Largest `time.Duration` (`1<<63 - 1`). -/
def maxDuration : Duration := 9223372036854775807

/-- Smallest `time.Duration` (`-1 << 63`). -/
def minDuration : Duration := -9223372036854775808

/-- One second, `time.Second`. -/
def Second : Duration := 1000000000

/-- The method `t.Sub(u)`: the duration `t - u`, replaced by the largest or smallest
duration when it does not fit one. -/
def Time.Sub (t u : Time) : Duration :=
  if t - u > maxDuration then maxDuration
  else if t - u < minDuration then minDuration
  else t - u

/-! ## Sliding-window limiter (`rate_limit.go`) -/

/-- The type `map[string][]time.Time`: a key is absent (`none`) or bound to a slice. -/
abbrev Requests := String → Option (List Time)

/-- The map assignment `m[key] = v`. -/
def Requests.set (m : Requests) (key : String) (v : List Time) : Requests :=
  fun k => if k = key then some v else m k

/-- The map read `m[key]`: the stored slice, the nil slice for an absent key.
Reading does not insert the key. -/
def Requests.get (m : Requests) (key : String) : List Time :=
  (m key).getD []

/-- The struct `RateLimiter`. -/
structure RateLimiter where
  requests : Requests
  limit : Int
  window : Duration

/-- The constructor `NewRateLimiter`. -/
def NewRateLimiter (limit : Int) (window : Duration) : RateLimiter :=
  { requests := fun _ => none, limit := limit, window := window }

/-- The loop condition of `Allow`: `now.Sub(timestamp) < rl.window`. -/
def RateLimiter.inWindow (rl : RateLimiter) (now timestamp : Time) : Bool :=
  decide (Time.Sub now timestamp < rl.window)

/-- The "Clean old requests" block of `Allow` (lines 30-38): when the key is present, its
entry is replaced by the timestamps that pass the loop condition, in order. -/
def RateLimiter.afterPrune (rl : RateLimiter) (now : Time) (key : String) : RateLimiter :=
  match rl.requests key with
  | some timestamps =>
      { rl with requests := rl.requests.set key (timestamps.filter (rl.inWindow now)) }
  | none => rl

/-- The method `RateLimiter.Allow`, with `now` the instant read by `time.Now()`.
Returns the boolean result and the limiter after the call. -/
def RateLimiter.Allow (rl : RateLimiter) (now : Time) (key : String) : Bool × RateLimiter :=
  -- Clean old requests
  let rl1 := rl.afterPrune now key
  -- Check if limit exceeded
  if ((rl1.requests.get key).length : Int) ≥ rl1.limit then
    (false, rl1)
  else
    -- Add current request
    (true, { rl1 with requests := rl1.requests.set key (rl1.requests.get key ++ [now]) })

/-- The timestamps stored for `key` that are less than `window` old at `now`, in their
stored order. -/
def RateLimiter.pruned (rl : RateLimiter) (now : Time) (key : String) : List Time :=
  (rl.requests.get key).filter (rl.inWindow now)

/-- The limiter states a program can reach: the fresh limiter, and the state after any
call of `Allow` (any key, any clock reading) on a reachable state. -/
inductive RateLimiter.Reachable (limit : Int) (window : Duration) : RateLimiter → Prop
  | fresh : RateLimiter.Reachable limit window (NewRateLimiter limit window)
  | step (rl : RateLimiter) (now : Time) (key : String) :
      RateLimiter.Reachable limit window rl →
      RateLimiter.Reachable limit window (rl.Allow now key).2

/-! ## Token manager: data (`jwt.go`)

Go strings are modelled by Lean strings, so a byte of an ASCII string (a token segment, a
header value) is one character. -/

/-- Modelled from the spec: the struct `jwt.RegisteredClaims` of the signing library,
which `Claims` embeds ("standard temporal fields (issued-at, expires-at, not-before)").
A `*NumericDate` is `none` when nil, else the instant it holds. -/
structure RegisteredClaims where
  Issuer : String := ""
  Subject : String := ""
  Audience : List String := []
  ExpiresAt : Option Time := none
  NotBefore : Option Time := none
  IssuedAt : Option Time := none
  ID : String := ""
  deriving DecidableEq, Repr

/-- The struct `Claims`, which embeds `jwt.RegisteredClaims`. -/
structure Claims where
  UserID : String := ""
  Username : String := ""
  Email : String := ""
  Role : String := ""
  IsCreator : Bool := false
  Registered : RegisteredClaims := {}
  deriving DecidableEq, Repr

/-- The struct `JWTManager`. -/
structure JWTManager where
  secretKey : String
  tokenDuration : Duration

/-- The constructor `NewJWTManager`. -/
def NewJWTManager (secretKey : String) (tokenDuration : Duration) : JWTManager :=
  { secretKey := secretKey, tokenDuration := tokenDuration }

/-- The errors `Verify` and `VerifyRefreshToken` can return: the two of package `auth`
and the ones of the signing library. -/
inductive Error where
  /-- The error `auth.ErrInvalidToken`. -/
  | ErrInvalidToken
  /-- The error `auth.ErrExpiredToken`. -/
  | ErrExpiredToken
  /-- The library error `jwt.ErrTokenMalformed`. -/
  | ErrTokenMalformed
  /-- The library error `jwt.ErrTokenUnverifiable`; `byKeyfunc` when it wraps the
  `auth.ErrInvalidToken` returned by the key function of `Verify`. -/
  | ErrTokenUnverifiable (byKeyfunc : Bool)
  /-- The library error `jwt.ErrTokenSignatureInvalid`. -/
  | ErrTokenSignatureInvalid
  /-- The library error `jwt.ErrTokenInvalidClaims`, which joins `jwt.ErrTokenExpired`
  and `jwt.ErrTokenNotValidYet` as flagged. -/
  | ErrTokenInvalidClaims (expired notValidYet : Bool)
  deriving DecidableEq, Repr

/-- What a call of a Go function of type `(T, error)` does: it returns a value, returns an
error, or panics at run time. -/
inductive Result (α : Type) where
  | ok (v : α)
  | error (e : Error)
  | panic
  deriving DecidableEq, Repr

/-! ## The signing library (`github.com/golang-jwt/jwt/v5`)

The library is imported by `jwt.go` and is not part of the repository. Its parts that
`jwt.go` calls are modelled here, with the functions of the standard library they rest
on (`encoding/base64`, `encoding/json`): the token string with its three segments, the
unpadded URL-safe base64 of the signature segment, the decoding of the payload object
into a claims struct, the HMAC signing methods, and the validation of the time claims.
The text of the first two segments (base64 of JSON) is not modelled: the two segments
are represented by the JSON objects they encode, and member names are matched exactly. -/

/-- A byte. -/
abbrev Byte := Fin 256

/-- Modelled from the spec: the JSON values that can stand in a token's header or
payload; `other` is any value of another kind (a fraction, an object, a mixed array). -/
inductive JSON where
  | null
  | bool (b : Bool)
  | num (n : Int)
  | str (s : String)
  | strs (l : List String)
  | other
  deriving DecidableEq, Repr

/-- Modelled from the spec: a JSON object: its members in the order of the text. -/
abbrev JObject := List (String × JSON)

/-- Modelled from the spec: the signed, self-contained token string, as its three
dot-separated segments. The first two are given by the objects they encode, the third
is the segment as transmitted. -/
structure Token where
  header : JObject
  payload : JObject
  signature : String
  deriving DecidableEq, Repr

/-- Modelled from the spec: the signing methods the library registers. The three HMAC
methods are the ones of type `*jwt.SigningMethodHMAC`; `nonHMAC` stands for every other
registered method. -/
inductive SigningMethod where
  | HS256
  | HS384
  | HS512
  | nonHMAC (alg : String)
  deriving DecidableEq, Repr

/-- Modelled from the spec: the name of a signing method, the `alg` member of the header. -/
def SigningMethod.Alg : SigningMethod → String
  | .HS256 => "HS256"
  | .HS384 => "HS384"
  | .HS512 => "HS512"
  | .nonHMAC alg => alg

/-- Modelled from the spec: the library function `jwt.GetSigningMethod`, the lookup of a
registered method by name. -/
def GetSigningMethod (alg : String) : Option SigningMethod :=
  if alg = "HS256" then some .HS256
  else if alg = "HS384" then some .HS384
  else if alg = "HS512" then some .HS512
  else if alg ∈ ["RS256", "RS384", "RS512", "ES256", "ES384", "ES512",
      "PS256", "PS384", "PS512", "EdDSA", "none"] then some (.nonHMAC alg)
  else none

/-- Modelled from the spec: the symmetric MAC scheme ("serializes and signs with the
process secret using a symmetric MAC scheme"). `sum method key header payload` is the
MAC, under `key`, of the signing string that the two encoded segments form; the
function itself is left open, only the length of an HS256 MAC (32 bytes) is fixed. -/
structure HMAC where
  sum : SigningMethod → String → JObject → JObject → List Byte
  size_HS256 : ∀ key header payload, (sum .HS256 key header payload).length = 32

/-! ### Unpadded URL-safe base64 (`base64.RawURLEncoding`) -/

/-- Modelled from the spec: the alphabet of the URL-safe base64 encoding. -/
def base64Alphabet : List Char :=
  "ABCDEFGHIJKLMNOPQRSTUVWXYZabcdefghijklmnopqrstuvwxyz0123456789-_".data

/-- Modelled from the spec: the character of a 6-bit value. -/
def encodeSextet (n : Nat) : Char :=
  base64Alphabet.getD n 'A'

/-- Modelled from the spec: the 6-bit value of a character of the alphabet, `none` for any
other character (the decode map of the encoding). -/
def decodeSextet (c : Char) : Option Nat :=
  if c ∈ base64Alphabet then some (base64Alphabet.indexOf c) else none

/-- Modelled from the spec: the 6-bit values of a byte sequence: three bytes give four
values, a rest of two bytes gives three, a rest of one byte gives two; there is no
padding. -/
def sextetsOfBytes : List Byte → List Nat
  | a :: b :: c :: rest =>
      (a.val / 4) :: (a.val % 4 * 16 + b.val / 16) :: (b.val % 16 * 4 + c.val / 64) ::
        (c.val % 64) :: sextetsOfBytes rest
  | [a, b] => [a.val / 4, a.val % 4 * 16 + b.val / 16, b.val % 16 * 4]
  | [a] => [a.val / 4, a.val % 4 * 16]
  | [] => []

/-- Modelled from the spec: the byte with the given value modulo 256. -/
def byteOfNat (n : Nat) : Byte :=
  ⟨n % 256, Nat.mod_lt n (by decide)⟩

/-- Modelled from the spec: the bytes of a sequence of 6-bit values, as the decoder of the
standard library computes them without the strict option: four values give three bytes, a
rest of three values gives two bytes and a rest of two gives one, the unused low-order
bits of the last value being ignored; a rest of one value is corrupt input. -/
def bytesOfSextets : List Nat → Option (List Byte)
  | s0 :: s1 :: s2 :: s3 :: rest =>
      (bytesOfSextets rest).map fun bs =>
        byteOfNat (s0 * 4 + s1 / 16) :: byteOfNat (s1 % 16 * 16 + s2 / 4) ::
          byteOfNat (s2 % 4 * 64 + s3) :: bs
  | [s0, s1, s2] => some [byteOfNat (s0 * 4 + s1 / 16), byteOfNat (s1 % 16 * 16 + s2 / 4)]
  | [s0, s1] => some [byteOfNat (s0 * 4 + s1 / 16)]
  | [_] => none
  | [] => some []

/-- Modelled from the spec: the library function `EncodeSegment` on a signature:
`base64.RawURLEncoding.EncodeToString`. -/
def EncodeSegment (bs : List Byte) : String :=
  String.mk ((sextetsOfBytes bs).map encodeSextet)

/-- Modelled from the spec: the 6-bit values of the characters of a segment; `none` when a
character is not in the alphabet. Carriage returns and line feeds are skipped, as the
decoder does. -/
def sextetsOfChars (cs : List Char) : Option (List Nat) :=
  (cs.filter fun c => c ≠ '\r' ∧ c ≠ '\n').mapM decodeSextet

/-- Modelled from the spec: the library function `DecodeSegment` on a signature segment:
`base64.RawURLEncoding.DecodeString`, not strict; `none` when it returns an error. -/
def DecodeSegment (seg : String) : Option (List Byte) :=
  (sextetsOfChars seg.data).bind bytesOfSextets

/-! ### Claims as JSON objects -/

/-- Modelled from the spec: the function `jwt.NewNumericDate`: the instant truncated to
the library's time precision, one second. -/
def NewNumericDate (t : Time) : Time :=
  t / Second * Second

/-- Modelled from the spec: the member a `*NumericDate` field marshals to under
`omitempty`: nothing when nil, else the whole number of seconds. -/
def marshalDate (key : String) (d : Option Time) : JObject :=
  match d with
  | none => []
  | some t => [(key, .num (t / Second))]

/-- Modelled from the spec: the member a string field marshals to under `omitempty`. -/
def marshalOmitEmpty (key : String) (v : String) : JObject :=
  if v = "" then [] else [(key, .str v)]

/-- Modelled from the spec: `json.Marshal` of a `jwt.RegisteredClaims`, every field of
which is tagged `omitempty` ("logical payload fields — subject, issuedAt, expiresAt,
notBefore"). -/
def RegisteredClaims.marshal (c : RegisteredClaims) : JObject :=
  marshalOmitEmpty "iss" c.Issuer ++ marshalOmitEmpty "sub" c.Subject ++
    (if c.Audience = [] then [] else [("aud", .strs c.Audience)]) ++
    marshalDate "exp" c.ExpiresAt ++ marshalDate "nbf" c.NotBefore ++
    marshalDate "iat" c.IssuedAt ++ marshalOmitEmpty "jti" c.ID

/-- Modelled from the spec: `json.Marshal` of a `Claims`, by its field tags ("logical
payload fields — subject, username, email, role, isPrivileged, issuedAt, expiresAt,
notBefore"); the fields of the embedded struct follow the struct's own. -/
def Claims.marshal (c : Claims) : JObject :=
  [("userId", .str c.UserID), ("username", .str c.Username), ("email", .str c.Email),
    ("role", .str c.Role), ("isCreator", .bool c.IsCreator)] ++ c.Registered.marshal

/-- Modelled from the spec: what `json.Unmarshal` stores into a string field holding
`old`: the string of a string value, the field as it is for `null`; any other value is a
type error (`none`). -/
def JSON.intoString (v : JSON) (old : String) : Option String :=
  match v with
  | .null => some old
  | .str s => some s
  | _ => none

/-- Modelled from the spec: what `json.Unmarshal` stores into a boolean field holding
`old`. -/
def JSON.intoBool (v : JSON) (old : Bool) : Option Bool :=
  match v with
  | .null => some old
  | .bool b => some b
  | _ => none

/-- Modelled from the spec: what `json.Unmarshal` stores into a `*NumericDate` field: nil
for `null`, the instant of a whole number of seconds. -/
def JSON.intoDate (v : JSON) : Option (Option Time) :=
  match v with
  | .null => some none
  | .num n => some (some (n * Second))
  | _ => none

/-- Modelled from the spec: what `json.Unmarshal` stores into the audience field holding
`old`: a string counts as a list of one. -/
def JSON.intoStrings (v : JSON) (old : List String) : Option (List String) :=
  match v with
  | .null => some old
  | .str s => some [s]
  | .strs l => some l
  | _ => none

/-- Modelled from the spec: what `json.Unmarshal` does with one member of the payload when
the target is a `jwt.RegisteredClaims`: a member of a known name sets its field, or fails
(`none`) when its value has the wrong kind; a member of any other name is ignored. -/
def RegisteredClaims.setField (c : RegisteredClaims) (key : String) (v : JSON) :
    Option RegisteredClaims :=
  if key = "iss" then (v.intoString c.Issuer).map fun s => { c with Issuer := s }
  else if key = "sub" then (v.intoString c.Subject).map fun s => { c with Subject := s }
  else if key = "aud" then (v.intoStrings c.Audience).map fun l => { c with Audience := l }
  else if key = "exp" then v.intoDate.map fun d => { c with ExpiresAt := d }
  else if key = "nbf" then v.intoDate.map fun d => { c with NotBefore := d }
  else if key = "iat" then v.intoDate.map fun d => { c with IssuedAt := d }
  else if key = "jti" then (v.intoString c.ID).map fun s => { c with ID := s }
  else some c

/-- Modelled from the spec: what `json.Unmarshal` does with one member of the payload when
the target is a `Claims`: the five fields of the struct, then those of the embedded
struct. -/
def Claims.setField (c : Claims) (key : String) (v : JSON) : Option Claims :=
  if key = "userId" then (v.intoString c.UserID).map fun s => { c with UserID := s }
  else if key = "username" then (v.intoString c.Username).map fun s => { c with Username := s }
  else if key = "email" then (v.intoString c.Email).map fun s => { c with Email := s }
  else if key = "role" then (v.intoString c.Role).map fun s => { c with Role := s }
  else if key = "isCreator" then (v.intoBool c.IsCreator).map fun b => { c with IsCreator := b }
  else (c.Registered.setField key v).map fun r => { c with Registered := r }

/-- Modelled from the spec: `json.Unmarshal` of a payload into `&jwt.RegisteredClaims{}`
("decodes claims"): the members are stored one after the other into the zero value, so
a field without a member keeps its zero value and a member without a field is skipped;
`encoding/json` reports neither as an error. -/
def RegisteredClaims.unmarshal (payload : JObject) : Option RegisteredClaims :=
  payload.foldlM (fun c kv => c.setField kv.1 kv.2) {}

/-- Modelled from the spec: `json.Unmarshal` of a payload into `&Claims{}` ("decodes
claims"): the members are stored one after the other into the zero value, so a field
without a member keeps its zero value and a member without a field is skipped;
`encoding/json` reports neither as an error. -/
def Claims.unmarshal (payload : JObject) : Option Claims :=
  payload.foldlM (fun c kv => c.setField kv.1 kv.2) {}

/-! ### Signing and parsing -/

/-- Modelled from the spec: the header `jwt.NewWithClaims` gives a token of the method. -/
def NewHeader (method : SigningMethod) : JObject :=
  [("alg", .str method.Alg), ("typ", .str "JWT")]

/-- Modelled from the spec: `jwt.NewWithClaims(method, claims)` followed by
`token.SignedString(key)` ("serializes and signs with the process secret using a
symmetric MAC scheme"); `payload` is the marshalled claims. With an HMAC method and a
byte-slice key the call returns no error. -/
def SignedString (h : HMAC) (method : SigningMethod) (payload : JObject) (key : String) :
    Token :=
  { header := NewHeader method
    payload := payload
    signature := EncodeSegment (h.sum method key (NewHeader method) payload) }

/-- Modelled from the spec: the value of the last member called `key` of an object. -/
def JObject.get (o : JObject) (key : String) : Option JSON :=
  o.reverse.lookup key

/-- Modelled from the spec: the signing method a header names, when it names a registered
one. -/
def Token.Method (tok : Token) : Option SigningMethod :=
  match tok.header.get "alg" with
  | some (.str alg) => GetSigningMethod alg
  | _ => none

/-- Modelled from the spec: the method `Verify` of a signing method on a decoded
signature and a byte-slice key ("checks signature validity"): an HMAC method compares
the signature with the MAC of the signing string; every other method refuses the key. -/
def SigningMethod.Verify (h : HMAC) (method : SigningMethod) (tok : Token)
    (sig : List Byte) (key : String) : Bool :=
  match method with
  | .nonHMAC _ => false
  | _ => decide (sig = h.sum method key tok.header tok.payload)

/-- Modelled from the spec: the library's validation of the time claims with its default
options ("the signing library already enforces it"): a token with an expires-at is
expired unless `now` is before it, and a token with a not-before is not valid yet while
`now` is before it. A claim that is absent is not checked. -/
def Validate (now : Time) (exp nbf : Option Time) : Option Error :=
  let expired : Bool :=
    match exp with
    | some e => !decide (now < e)
    | none => false
  let notValidYet : Bool :=
    match nbf with
    | some n => decide (now < n)
    | none => false
  if expired || notValidYet then some (.ErrTokenInvalidClaims expired notValidYet) else none

/-- Modelled from the spec: `jwt.ParseWithClaims(tokenString, claims, keyFunc)` on a token
of three segments ("checks signature validity, decodes claims"). `unmarshal` decodes
the payload into the claims struct passed in, `expOf` and `nbfOf` read its time claims,
and `now` is the instant the validation reads from the clock. In the library's order:
decode the payload, look up the method, decode the signature, ask `keyFunc` for the
key, verify the signature, validate the claims. -/
def ParseWithClaims {α : Type} (h : HMAC) (unmarshal : JObject → Option α)
    (expOf nbfOf : α → Option Time) (keyFunc : SigningMethod → Except Error String)
    (now : Time) (tok : Token) : Result α :=
  match unmarshal tok.payload with
  | none => .error .ErrTokenMalformed
  | some claims =>
    match tok.Method with
    | none => .error (.ErrTokenUnverifiable false)
    | some method =>
      match DecodeSegment tok.signature with
      | none => .error .ErrTokenMalformed
      | some sig =>
        match keyFunc method with
        | .error _ => .error (.ErrTokenUnverifiable true)
        | .ok key =>
          if method.Verify h tok sig key then
            match Validate now (expOf claims) (nbfOf claims) with
            | some e => .error e
            | none => .ok claims
          else .error .ErrTokenSignatureInvalid

/-! ## Token manager: operations (`jwt.go`) -/

/-- The claims `Generate` builds (lines 37-48). The three instants are the ones the
three calls of `time.Now()` read, in the order of the source (for expires-at, issued-at
and not-before). -/
def sessionClaims (manager : JWTManager) (nowExp nowIat nowNbf : Time)
    (userID username email role : String) (isCreator : Bool) : Claims :=
  { UserID := userID
    Username := username
    Email := email
    Role := role
    IsCreator := isCreator
    Registered :=
      { ExpiresAt := some (NewNumericDate (nowExp + manager.tokenDuration))
        IssuedAt := some (NewNumericDate nowIat)
        NotBefore := some (NewNumericDate nowNbf) } }

/-- The method `JWTManager.Generate`: the claims are signed with HS256 under the
secret. -/
def JWTManager.Generate (h : HMAC) (manager : JWTManager) (nowExp nowIat nowNbf : Time)
    (userID username email role : String) (isCreator : Bool) : Token :=
  let claims := sessionClaims manager nowExp nowIat nowNbf userID username email role isCreator
  SignedString h .HS256 claims.marshal manager.secretKey

/-- The key function `Verify` passes to the library: the secret for a method of type
`*jwt.SigningMethodHMAC`, `ErrInvalidToken` for any other. -/
def JWTManager.keyFunc (manager : JWTManager) (method : SigningMethod) :
    Except Error String :=
  match method with
  | .nonHMAC _ => .error .ErrInvalidToken
  | _ => .ok manager.secretKey

/-- The method `JWTManager.Verify`. `nowLib` is the instant the library reads while it
validates the claims, `now` the one the method itself reads afterwards. The type
assertion on `token.Claims` cannot fail; reading `claims.ExpiresAt.Time` panics when
the pointer is nil. -/
def JWTManager.Verify (h : HMAC) (manager : JWTManager) (nowLib now : Time)
    (tokenString : Token) : Result Claims :=
  match ParseWithClaims h Claims.unmarshal (fun c => c.Registered.ExpiresAt)
      (fun c => c.Registered.NotBefore) manager.keyFunc nowLib tokenString with
  | .error err => .error err
  | .panic => .panic
  | .ok claims =>
    match claims.Registered.ExpiresAt with
    | none => .panic
    | some expiresAt =>
      if expiresAt < now then .error .ErrExpiredToken
      else .ok claims

/-- The duration `30 * 24 * time.Hour`. -/
def refreshDuration : Duration := 30 * 24 * (3600 * Second)

/-- The registered claims `GenerateRefreshToken` builds (lines 84-89), with the three
instants its calls of `time.Now()` read. -/
def refreshClaims (nowExp nowIat nowNbf : Time) (userID : String) : RegisteredClaims :=
  { Subject := userID
    ExpiresAt := some (NewNumericDate (nowExp + refreshDuration))
    IssuedAt := some (NewNumericDate nowIat)
    NotBefore := some (NewNumericDate nowNbf) }

/-- The method `JWTManager.GenerateRefreshToken`. -/
def JWTManager.GenerateRefreshToken (h : HMAC) (manager : JWTManager)
    (nowExp nowIat nowNbf : Time) (userID : String) : Token :=
  let claims := refreshClaims nowExp nowIat nowNbf userID
  SignedString h .HS256 claims.marshal manager.secretKey

/-- The method `JWTManager.VerifyRefreshToken`; its key function returns the secret
for every method. `nowLib` and `now` are as in `Verify`. -/
def JWTManager.VerifyRefreshToken (h : HMAC) (manager : JWTManager) (nowLib now : Time)
    (tokenString : Token) : Result String :=
  match ParseWithClaims h RegisteredClaims.unmarshal (fun c => c.ExpiresAt)
      (fun c => c.NotBefore) (fun _ => .ok manager.secretKey) nowLib tokenString with
  | .error err => .error err
  | .panic => .panic
  | .ok claims =>
    match claims.ExpiresAt with
    | none => .panic
    | some expiresAt =>
      if expiresAt < now then .error .ErrExpiredToken
      else .ok claims.Subject

/-! ## Authorization gates (`auth.go`) -/

/-- A value stored in the request context (`any`): the kinds the gates store. -/
inductive Val where
  | str (s : String)
  | bool (b : Bool)
  | claims (c : Claims)
  deriving DecidableEq, Repr

/-- The field `Keys` of a `gin.Context`: the values set for this request. -/
abbrev Keys := String → Option Val

/-- The method `c.Set(key, value)`. -/
def Keys.Set (keys : Keys) (key : String) (value : Val) : Keys :=
  fun k => if k = key then some value else keys k

/-- The part of a `gin.Context` the gates read and write: the value of the request's
`Authorization` header as `c.GetHeader` returns it (empty when there is none), the
client address `c.ClientIP()`, the context values, and the response headers set. -/
structure Context where
  Authorization : String
  ClientIP : String
  Keys : Keys
  Header : List (String × String)

/-- What a gate does with a request: it calls `c.Next()` and so forwards the request
with its context, or answers `c.JSON(status, gin.H{"error": error, "success": false})`
and calls `c.Abort()`, or panics. -/
inductive Outcome where
  | next (c : Context)
  | abort (status : Nat) (error : String) (c : Context)
  | panic

/-- The constant `http.StatusUnauthorized`. -/
def StatusUnauthorized : Nat := 401

/-- The constant `http.StatusForbidden`. -/
def StatusForbidden : Nat := 403

/-- The fields of a character sequence between the occurrences of `sep`. -/
def splitChars (sep : Char) : List Char → List (List Char)
  | [] => [[]]
  | c :: cs =>
    if c = sep then [] :: splitChars sep cs
    else
      match splitChars sep cs with
      | [] => [[c]]
      | w :: ws => (c :: w) :: ws

/-- The function `strings.Split(s, sep)` for a separator of one character. -/
def Split (s : String) (sep : Char) : List String :=
  (splitChars sep s.data).map String.mk

/-- The six `c.Set` calls that attach the identity to the request. -/
def Context.setIdentity (c : Context) (claims : Claims) : Context :=
  { c with
    Keys := (((((c.Keys.Set "userID" (.str claims.UserID)).Set "username"
      (.str claims.Username)).Set "email" (.str claims.Email)).Set "role"
      (.str claims.Role)).Set "isCreator" (.bool claims.IsCreator)).Set "claims"
      (.claims claims) }

/-- The handler `AuthMiddleware(jwtManager)` returns; `verify` is
`jwtManager.Verify`. -/
def AuthMiddleware (verify : String → Result Claims) (c : Context) : Outcome :=
  let authHeader := c.Authorization
  if authHeader = "" then
    .abort StatusUnauthorized "Authorization header required" c
  else
    let bearerToken := Split authHeader ' '
    if bearerToken.length ≠ 2 ∨ bearerToken.getD 0 "" ≠ "Bearer" then
      .abort StatusUnauthorized "Invalid authorization header format" c
    else
      match verify (bearerToken.getD 1 "") with
      | .error _ => .abort StatusUnauthorized "Invalid or expired token" c
      | .panic => .panic
      | .ok claims => .next (c.setIdentity claims)

/-- The handler `OptionalAuthMiddleware(jwtManager)` returns; `verify` is
`jwtManager.Verify`. -/
def OptionalAuthMiddleware (verify : String → Result Claims) (c : Context) : Outcome :=
  let authHeader := c.Authorization
  if authHeader = "" then
    .next c
  else
    let bearerToken := Split authHeader ' '
    if bearerToken.length ≠ 2 ∨ bearerToken.getD 0 "" ≠ "Bearer" then
      .next c
    else
      match verify (bearerToken.getD 1 "") with
      | .error _ => .next c
      | .panic => .panic
      | .ok claims => .next (c.setIdentity claims)

/-- The handler `CreatorOnlyMiddleware()` returns. The type assertion `isCreator.(bool)`
panics on a value that is not a boolean. -/
def CreatorOnlyMiddleware (c : Context) : Outcome :=
  match c.Keys "isCreator" with
  | none => .abort StatusUnauthorized "Authentication required" c
  | some (.bool isCreator) =>
    if !isCreator then .abort StatusForbidden "Creator access required" c
    else .next c
  | some _ => .panic

/-- The handler `AdminOnlyMiddleware()` returns. The type assertion `role.(string)`
panics on a value that is not a string. -/
def AdminOnlyMiddleware (c : Context) : Outcome :=
  match c.Keys "role" with
  | none => .abort StatusUnauthorized "Authentication required" c
  | some (.str role) =>
    if role ≠ "admin" then .abort StatusForbidden "Admin access required" c
    else .next c
  | some _ => .panic

/-- The handlers of a route run in order: the next one runs on the context the
previous one forwarded, and none runs after an abort or a panic. -/
def runChain : List (Context → Outcome) → Context → Outcome
  | [], c => .next c
  | gate :: rest, c =>
    match gate c with
    | .next c1 => runChain rest c1
    | .abort status error c1 => .abort status error c1
    | .panic => .panic

/-- Modelled from the spec: what the library does with a token string before anything
else, splitting it at the dots and decoding the first two segments; `wire s` is `none`
for a string that is not three segments with two decodable objects, which the library
rejects as malformed. `VerifyString` is `Verify` on the string. -/
def JWTManager.VerifyString (wire : String → Option Token) (h : HMAC)
    (manager : JWTManager) (nowLib now : Time) (tokenString : String) : Result Claims :=
  match wire tokenString with
  | none => .error .ErrTokenMalformed
  | some tok => manager.Verify h nowLib now tok

/-! ## The refresh handler (`handlers/auth.go`) -/

/-- What `AuthHandler.RefreshToken` answers once the request body is bound: status 401
"Invalid refresh token", or status 200 with a new session token and a new renewal
token; or the handler panics. -/
inductive RefreshResponse where
  | unauthorized
  | ok (token refreshToken : Token)
  | panic
  deriving DecidableEq, Repr

/-- The handler `AuthHandler.RefreshToken` from the call of `VerifyRefreshToken` on
(lines 300-347), on the renewal token of the request body. `verifyReads` are the two
instants `VerifyRefreshToken` reads, `sessionReads` and `refreshReads` the three
instants `Generate` and `GenerateRefreshToken` read. Neither of the two signing calls
returns an error. -/
def AuthHandler.RefreshToken (h : HMAC) (jwtManager : JWTManager) (verifyReads : Time × Time)
    (sessionReads refreshReads : Time × Time × Time) (refreshToken : Token) :
    RefreshResponse :=
  match jwtManager.VerifyRefreshToken h verifyReads.1 verifyReads.2 refreshToken with
  | .error _ => .unauthorized
  | .panic => .panic
  | .ok userID =>
    -- Get user data (dummy for now)
    let username := "johndoe"
    let email := "john@example.com"
    let isCreator := true
    -- Generate new tokens
    let token := jwtManager.Generate h sessionReads.1 sessionReads.2.1 sessionReads.2.2
      userID username email "user" isCreator
    let newRefreshToken := jwtManager.GenerateRefreshToken h refreshReads.1 refreshReads.2.1
      refreshReads.2.2 userID
    .ok token newRefreshToken

/-! ## The throttle gate (`rate_limit.go`) -/

/-- The calls of `Allow` made one after the other on one limiter, each with the instant
it reads and its key: the results in order, and the limiter after the last call. -/
def RateLimiter.run (rl : RateLimiter) : List (Time × String) → List Bool × RateLimiter
  | [] => ([], rl)
  | (now, key) :: calls =>
    let r := rl.Allow now key
    let rest := RateLimiter.run r.2 calls
    (r.1 :: rest.1, rest.2)

/-- The constant `http.StatusTooManyRequests`. -/
def StatusTooManyRequests : Nat := 429

/-- The function `strconv.Itoa`: the decimal rendering of an integer. -/
def Itoa (n : Int) : String :=
  toString n

/-- The method `c.Header(key, value)`: sets the response header, or deletes it when
the value is empty. -/
def Context.SetHeader (c : Context) (key value : String) : Context :=
  { c with
    Header :=
      if value = "" then c.Header.filter fun kv => kv.1 ≠ key
      else (key, value) :: c.Header.filter fun kv => kv.1 ≠ key }

/-- The limiter key of a request (lines 55-58): the client address, or `"user:"`
followed by the user id when the context holds one. The result is `none` when the type
assertion `userID.(string)` panics. -/
def rateLimitKey (c : Context) : Option String :=
  match c.Keys "userID" with
  | none => some c.ClientIP
  | some (.str userID) => some ("user:" ++ userID)
  | some _ => none

/-- The two `c.Header` calls both branches of the handler make. `durationString` is the
method `String` of `time.Duration`. -/
def Context.setRateLimitHeaders (c : Context) (durationString : Duration → String)
    (limit : Int) (window : Duration) : Context :=
  (c.SetHeader "X-RateLimit-Limit" (Itoa limit)).SetHeader "X-RateLimit-Window"
    (durationString window)

/-- The handler `RateLimitMiddleware(limit, window)` returns. `limiter` is the state of
the limiter the call of `RateLimitMiddleware` constructed, as the requests so far left
it, and `now` the instant `Allow` reads; the result is what the gate does with the
request and the limiter afterwards. The body of the 429 answer also has a `message`
member, which is not modelled. -/
def RateLimitMiddleware (durationString : Duration → String) (limit : Int)
    (window : Duration) (limiter : RateLimiter) (now : Time) (c : Context) :
    Outcome × RateLimiter :=
  -- Use user ID if authenticated, otherwise use IP
  match rateLimitKey c with
  | none => (.panic, limiter)
  | some key =>
    let r := limiter.Allow now key
    if !r.1 then
      (.abort StatusTooManyRequests "Rate limit exceeded"
        (c.setRateLimitHeaders durationString limit window), r.2)
    else
      (.next (c.setRateLimitHeaders durationString limit window), r.2)

/-- The handlers of a route behind the throttle gate, which `main` installs on the
router before every route: the throttle gate runs first, and the handlers of the route
run on the context it forwarded. -/
def runThrottled (durationString : Duration → String) (limit : Int) (window : Duration)
    (limiter : RateLimiter) (now : Time) (gates : List (Context → Outcome)) (c : Context) :
    Outcome × RateLimiter :=
  match RateLimitMiddleware durationString limit window limiter now c with
  | (.next c1, limiter1) => (runChain gates c1, limiter1)
  | (.abort status error c1, limiter1) => (.abort status error c1, limiter1)
  | (.panic, limiter1) => (.panic, limiter1)

/-- The characters of an IP literal as `c.ClientIP()` returns it: digits, hexadecimal
letters, dots and colons. -/
def IsIPLiteral (s : String) : Prop :=
  ∀ ch ∈ s.data, ch ∈ "0123456789abcdefABCDEF.:".data

/-! ## The handlers that issue tokens (`handlers/auth.go`, `handlers/google_auth.go`) -/

/-- The fields of `models.User` that the handlers pass to the token manager. -/
structure User where
  ID : String
  Username : String
  Email : String
  IsCreator : Bool
  deriving DecidableEq, Repr

/-- The function `generateUsernameFromEmail`: the part of the address before its first
`@`, the whole address when it has none. -/
def generateUsernameFromEmail (email : String) : String :=
  String.mk (email.data.takeWhile fun char => char ≠ '@')

/-- The handler `AuthHandler.Register` from "Generate tokens" on (lines 123-142), for a
request that passed the binding, the validation and the creation of the account:
`userID` is the `user.ID` of the account created, and the account is a creator exactly
when the account type of the request is `"creator"` (line 98). The result is the
session token and the renewal token of the answer. -/
def AuthHandler.Register (h : HMAC) (jwtManager : JWTManager)
    (sessionReads refreshReads : Time × Time × Time)
    (userID reqUsername reqEmail reqAccountType : String) : Token × Token :=
  let userIsCreator := decide (reqAccountType = "creator")
  -- Generate tokens
  let token := jwtManager.Generate h sessionReads.1 sessionReads.2.1 sessionReads.2.2
    userID reqUsername reqEmail "user" userIsCreator
  let refreshToken := jwtManager.GenerateRefreshToken h refreshReads.1 refreshReads.2.1
    refreshReads.2.2 userID
  (token, refreshToken)

/-- The handler `AuthHandler.Login` from "Generate tokens" on (lines 249-268), for a
request whose credentials were accepted; `user` is the account found. -/
def AuthHandler.Login (h : HMAC) (jwtManager : JWTManager)
    (sessionReads refreshReads : Time × Time × Time) (user : User) : Token × Token :=
  -- Generate tokens
  let token := jwtManager.Generate h sessionReads.1 sessionReads.2.1 sessionReads.2.2
    user.ID user.Username user.Email "user" user.IsCreator
  let refreshToken := jwtManager.GenerateRefreshToken h refreshReads.1 refreshReads.2.1
    refreshReads.2.2 user.ID
  (token, refreshToken)

/-- The handler `AuthHandler.GoogleAuth` from "Generate JWT token" on (lines 137-143),
for a request whose Google token was accepted: `user` is the account found or created
and `googleEmail` the address Google returned. The answer has no renewal token. -/
def AuthHandler.GoogleAuth (h : HMAC) (jwtManager : JWTManager)
    (sessionReads : Time × Time × Time) (user : User) (googleEmail : String) : Token :=
  -- Generate JWT token
  let username := if user.Username = "" then generateUsernameFromEmail googleEmail
    else user.Username
  jwtManager.Generate h sessionReads.1 sessionReads.2.1 sessionReads.2.2
    user.ID username user.Email "user" user.IsCreator

/-- The handler `AuthHandler.GoogleAuthCallback` from "Generate JWT token" on (lines
341-347), with the same arguments as `GoogleAuth`. -/
def AuthHandler.GoogleAuthCallback (h : HMAC) (jwtManager : JWTManager)
    (sessionReads : Time × Time × Time) (user : User) (googleEmail : String) : Token :=
  -- Generate JWT token
  let username := if user.Username = "" then generateUsernameFromEmail googleEmail
    else user.Username
  jwtManager.Generate h sessionReads.1 sessionReads.2.1 sessionReads.2.2
    user.ID username user.Email "user" user.IsCreator

/-- The session tokens the five handlers issue with a token manager. -/
inductive AuthHandler.Issued (h : HMAC) (jwtManager : JWTManager) : Token → Prop
  | register (sessionReads refreshReads : Time × Time × Time)
      (userID reqUsername reqEmail reqAccountType : String) :
      AuthHandler.Issued h jwtManager
        (AuthHandler.Register h jwtManager sessionReads refreshReads userID reqUsername
          reqEmail reqAccountType).1
  | login (sessionReads refreshReads : Time × Time × Time) (user : User) :
      AuthHandler.Issued h jwtManager
        (AuthHandler.Login h jwtManager sessionReads refreshReads user).1
  | refresh (verifyReads : Time × Time) (sessionReads refreshReads : Time × Time × Time)
      (refreshToken token newRefreshToken : Token) :
      AuthHandler.RefreshToken h jwtManager verifyReads sessionReads refreshReads
        refreshToken = .ok token newRefreshToken →
      AuthHandler.Issued h jwtManager token
  | google (sessionReads : Time × Time × Time) (user : User) (googleEmail : String) :
      AuthHandler.Issued h jwtManager
        (AuthHandler.GoogleAuth h jwtManager sessionReads user googleEmail)
  | googleCallback (sessionReads : Time × Time × Time) (user : User)
      (googleEmail : String) :
      AuthHandler.Issued h jwtManager
        (AuthHandler.GoogleAuthCallback h jwtManager sessionReads user googleEmail)

/-! ## Sequences of calls of `Allow` -/

/-- The instants of the calls of a sequence that were made for `key` and that `Allow`
accepted, in the order of the calls, when the sequence is run on `rl`. -/
def RateLimiter.acceptedTimes (rl : RateLimiter) (calls : List (Time × String)) (key : String) :
    List Time :=
  ((calls.zip (rl.run calls).1).filter fun cr => cr.2 && decide (cr.1.2 = key)).map
    fun cr => cr.1.1

/-- The bound of the sliding window on a list of instants of accepted calls: for every
instant `t` of the list, at most `limit` instants of the list lie after `t - window`
and not after `t`. -/
def windowBound (limit : Int) (window : Duration) (A : List Time) : Prop :=
  ∀ t ∈ A, ((A.countP fun u => decide (t - window < u ∧ u ≤ t) : Nat) : Int) ≤ limit

/-! ## Definitions used in the statements -/

/-- A limiter reached from `NewRateLimiter(1, 60s)` by one accepted call for `"k"`. -/
def fullLimiter : RateLimiter :=
  ((NewRateLimiter 1 (60 * Second)).Allow (100 * Second) "k").2

/-- The time claims of a registered-claims value are whole seconds. -/
def RegisteredClaims.aligned (c : RegisteredClaims) : Prop :=
  (∀ t, c.ExpiresAt = some t → t / Second * Second = t) ∧
  (∀ t, c.NotBefore = some t → t / Second * Second = t) ∧
  (∀ t, c.IssuedAt = some t → t / Second * Second = t)

/-- The names of the members `RegisteredClaims.marshal` can write. -/
def registeredKeys : List String := ["iss", "sub", "aud", "exp", "nbf", "iat", "jti"]

/-- What the verification of a generated token does once its signature is accepted and
its payload decoded into `v`: the validation of the library at `nowLib`, then the
expiry check of `Verify` and `VerifyRefreshToken` at `now`. -/
def afterParse {α : Type} (nowLib now : Time) (exp nbf : Time) (v : α) : Result α :=
  match Validate nowLib (some exp) (some nbf) with
  | some e => .error e
  | none => if exp < now then .error .ErrExpiredToken else .ok v

/-- A MAC function at which the statements are instantiated on concrete inputs: 32
bytes computed from the lengths of the key and of the two objects. It stands in for
HMAC-SHA256 there only; the theorems hold for every MAC function. -/
def sampleHMAC : HMAC :=
  { sum := fun _ key header payload =>
      (List.range 32).map fun i =>
        byteOfNat (31 * key.length + 7 * payload.length + header.length + 5 * i)
    size_HS256 := by simp }

/-- The manager `main` constructs, with the default secret of the configuration and a
token duration of one hour. -/
def sampleManager : JWTManager :=
  NewJWTManager "your-secret-key" (3600 * Second)

/-- A manager with a token duration of one nanosecond. -/
def briefManager : JWTManager :=
  NewJWTManager "your-secret-key" 1

/-- The token string with its signature segment replaced by `sig`. -/
def Token.withSignature (tok : Token) (sig : String) : Token :=
  { tok with signature := sig }

/-- The session token the manager of `main` generates at 1.5 s for the user `"u1"`. -/
def sampleToken : Token :=
  sampleManager.Generate sampleHMAC 1500000000 1500000000 1500000000
    "u1" "bob" "bob@example.com" "user" true

/-- A request context with the given `Authorization` header and nothing set. -/
def requestWith (authorization : String) : Context :=
  { Authorization := authorization
    ClientIP := "192.0.2.1"
    Keys := fun _ => none
    Header := [] }

/-- A limiter with limit 1 and a window of 60 seconds whose entry for `"k"` holds one
timestamp, of 40 seconds. -/
def boundaryLimiter : RateLimiter :=
  { requests := Requests.set (fun _ => none) "k" [40 * Second]
    limit := 1
    window := 60 * Second }

/-- A manager with a token duration of one second and a half. -/
def fractionalManager : JWTManager :=
  NewJWTManager "your-secret-key" 1500000000

/-- A token signed with HS256 under the secret of `sampleManager` whose payload has a
user id and a subject and no expires-at member. -/
def unexpiringToken : Token :=
  SignedString sampleHMAC .HS256 [("userId", .str "u1"), ("sub", .str "u1")]
    sampleManager.secretKey

/-- An account that is not a creator. -/
def sampleUser : User :=
  { ID := "u2", Username := "eve", Email := "eve@example.com", IsCreator := false }

/-! ## Limiter: lemmas -/

theorem Time.Sub_eq_sub (t u : Time) (h1 : minDuration ≤ t - u) (h2 : t - u ≤ maxDuration) :
    Time.Sub t u = t - u := by
  unfold Time.Sub
  split_ifs with h3 h4
  · exact absurd h2 (not_le.mpr h3)
  · exact absurd h1 (not_le.mpr h4)
  · rfl

theorem Requests.set_same (m : Requests) (key : String) (v : List Time) :
    m.set key v key = some v := by
  simp [Requests.set]

theorem Requests.set_other (m : Requests) (key k : String) (v : List Time) (h : k ≠ key) :
    m.set key v k = m k := by
  simp [Requests.set, h]

theorem Requests.get_set_same (m : Requests) (key : String) (v : List Time) :
    (m.set key v).get key = v := by
  simp [Requests.get, Requests.set]

theorem Requests.set_set (m : Requests) (key : String) (v w : List Time) :
    (m.set key v).set key w = m.set key w := by
  funext k
  by_cases h : k = key <;> simp [Requests.set, h]

theorem RateLimiter.afterPrune_get (rl : RateLimiter) (now : Time) (key : String) :
    (rl.afterPrune now key).requests.get key = rl.pruned now key := by
  unfold RateLimiter.afterPrune RateLimiter.pruned
  cases hk : rl.requests key with
  | none => simp [Requests.get, hk]
  | some ts => simp [Requests.get, Requests.set, hk]

theorem RateLimiter.afterPrune_limit (rl : RateLimiter) (now : Time) (key : String) :
    (rl.afterPrune now key).limit = rl.limit ∧ (rl.afterPrune now key).window = rl.window := by
  unfold RateLimiter.afterPrune
  cases hk : rl.requests key <;> simp

theorem RateLimiter.afterPrune_requests (rl : RateLimiter) (now : Time) (key : String) :
    (rl.afterPrune now key).requests =
      fun k => if k = key then (rl.requests key).map (List.filter (rl.inWindow now))
               else rl.requests k := by
  unfold RateLimiter.afterPrune
  funext k
  cases hk : rl.requests key with
  | none => by_cases h : k = key <;> simp [h, hk]
  | some ts => by_cases h : k = key <;> simp [h, hk, Requests.set]

theorem RateLimiter.Allow_eq (rl : RateLimiter) (now : Time) (key : String) :
    rl.Allow now key =
      if ((rl.pruned now key).length : Int) ≥ rl.limit then (false, rl.afterPrune now key)
      else (true, { rl with requests := rl.requests.set key (rl.pruned now key ++ [now]) }) := by
  have e : rl.Allow now key =
      if (((rl.afterPrune now key).requests.get key).length : Int) ≥ (rl.afterPrune now key).limit
      then (false, rl.afterPrune now key)
      else (true, { rl.afterPrune now key with
        requests := (rl.afterPrune now key).requests.set key
          ((rl.afterPrune now key).requests.get key ++ [now]) }) := rfl
  rw [e, RateLimiter.afterPrune_get, (RateLimiter.afterPrune_limit rl now key).1]
  split_ifs with h
  · rfl
  · congr 1
    unfold RateLimiter.afterPrune
    cases hk : rl.requests key with
    | none => rfl
    | some ts => simp [Requests.set_set]

theorem RateLimiter.Allow_fst (rl : RateLimiter) (now : Time) (key : String) :
    (rl.Allow now key).1 = true ↔ ((rl.pruned now key).length : Int) < rl.limit := by
  rw [RateLimiter.Allow_eq]
  split_ifs with h
  · simp; omega
  · simp; omega

theorem RateLimiter.Allow_true_requests (rl : RateLimiter) (now : Time) (key : String)
    (h : (rl.Allow now key).1 = true) :
    (rl.Allow now key).2.requests = rl.requests.set key (rl.pruned now key ++ [now]) := by
  rw [RateLimiter.Allow_eq] at h ⊢
  split_ifs at h ⊢ with h1
  rfl

theorem RateLimiter.Allow_false_snd (rl : RateLimiter) (now : Time) (key : String)
    (h : (rl.Allow now key).1 = false) :
    (rl.Allow now key).2 = rl.afterPrune now key := by
  rw [RateLimiter.Allow_eq] at h ⊢
  split_ifs at h ⊢ with h1
  rfl

theorem RateLimiter.Allow_limit (rl : RateLimiter) (now : Time) (key : String) :
    (rl.Allow now key).2.limit = rl.limit ∧ (rl.Allow now key).2.window = rl.window := by
  rw [RateLimiter.Allow_eq]
  split_ifs
  · exact RateLimiter.afterPrune_limit rl now key
  · exact ⟨rfl, rfl⟩

theorem RateLimiter.filter_eq_of_length_le (p : Time → Bool) (ts : List Time) (n : Int)
    (h1 : (ts.length : Int) ≤ n) (h2 : ((ts.filter p).length : Int) ≥ n) :
    ts.filter p = ts := by
  have h3 := List.length_filter_le p ts
  have h4 : (ts.filter p).length = ts.length := by omega
  exact List.filter_eq_self.mpr (List.filter_length_eq_length.mp h4)

theorem RateLimiter.afterPrune_eq_self (rl : RateLimiter) (now : Time) (key : String)
    (hb : ∀ ts, rl.requests key = some ts → (ts.length : Int) ≤ rl.limit)
    (hl : ((rl.pruned now key).length : Int) ≥ rl.limit) :
    rl.afterPrune now key = rl := by
  unfold RateLimiter.afterPrune
  cases hk : rl.requests key with
  | none => rfl
  | some ts =>
    have e : ts.filter (rl.inWindow now) = ts := by
      apply RateLimiter.filter_eq_of_length_le _ _ rl.limit (hb ts hk)
      simpa [RateLimiter.pruned, Requests.get, hk] using hl
    simp only [e]
    cases rl with
    | mk requests limit window =>
      simp only [RateLimiter.mk.injEq, and_true]
      funext k
      by_cases h : k = key
      · subst h; simpa [Requests.set] using hk.symm
      · simp [Requests.set, h]

/-- In every reachable state every stored entry holds at most `limit` timestamps, and
the limit and window are the ones of the constructor. -/
theorem RateLimiter.Reachable.bounded {limit : Int} {window : Duration} {rl : RateLimiter}
    (hr : RateLimiter.Reachable limit window rl) :
    rl.limit = limit ∧ rl.window = window ∧
      ∀ k ts, rl.requests k = some ts → (ts.length : Int) ≤ rl.limit := by
  induction hr with
  | fresh => simp [NewRateLimiter]
  | step rl now key _ ih =>
    obtain ⟨h1, h2, h3⟩ := ih
    have hl := RateLimiter.Allow_limit rl now key
    refine ⟨hl.1.trans h1, hl.2.trans h2, ?_⟩
    intro k ts hk
    rw [hl.1]
    rw [RateLimiter.Allow_eq] at hk
    split_ifs at hk with hc
    · rw [RateLimiter.afterPrune_requests] at hk
      by_cases hkk : k = key
      · subst hkk
        simp only [if_true] at hk
        cases hq : rl.requests k with
        | none => simp [hq] at hk
        | some ts0 =>
          simp only [hq, Option.map_some', Option.some.injEq] at hk
          subst hk
          have := List.length_filter_le (rl.inWindow now) ts0
          have := h3 k ts0 hq
          omega
      · simp only [hkk, if_false] at hk
        exact h3 k ts hk
    · by_cases hkk : k = key
      · subst hkk
        simp only [Requests.set, if_true, Option.some.injEq] at hk
        subst hk
        simp only [List.length_append, List.length_singleton]
        push_cast
        omega
      · simp only [Requests.set, hkk, if_false] at hk
        exact h3 k ts hk

/-! ## Limiter: the claims -/

/-- C1: `Allow(key)` returns true exactly when the number of timestamps `t` stored for
`key` with `now.Sub(t) < window` is strictly below `limit`; and when it returns true,
the entry stored for `key` afterwards is those in-window timestamps, in their stored
order, followed by `now`. -/
theorem Allow_true_iff_count_below_limit (rl : RateLimiter) (now : Time) (key : String) :
    ((rl.Allow now key).1 = true ↔
      (((rl.requests.get key).countP fun t => decide (Time.Sub now t < rl.window) : Nat) : Int)
        < rl.limit) ∧
    ((rl.Allow now key).1 = true →
      (rl.Allow now key).2.requests key =
        some ((rl.requests.get key).filter (fun t => decide (Time.Sub now t < rl.window))
          ++ [now])) := by
  constructor
  · rw [RateLimiter.Allow_fst, List.countP_eq_length_filter]
    rfl
  · intro h
    rw [RateLimiter.Allow_true_requests rl now key h, Requests.set_same]
    rfl

/-- C2: in every limiter state, that is, every state reached from `NewRateLimiter` by
calls of `Allow` with any keys at any instants, when `Allow(key)` returns false the
state after the call is identical to the state before it: the whole map from keys to
timestamp sequences, the entry of `key` included, is unchanged, and so are the limit
and the window. -/
theorem Allow_false_state (limit : Int) (window : Duration) (rl : RateLimiter) (now : Time)
    (key : String) (hr : RateLimiter.Reachable limit window rl)
    (h : (rl.Allow now key).1 = false) :
    (rl.Allow now key).2 = rl ∧
    (∀ k, (rl.Allow now key).2.requests k = rl.requests k) ∧
    (rl.Allow now key).2.requests key = rl.requests key ∧
    (rl.Allow now key).2.limit = rl.limit ∧ (rl.Allow now key).2.window = rl.window := by
  have hs := RateLimiter.Allow_false_snd rl now key h
  have hl : ((rl.pruned now key).length : Int) ≥ rl.limit := by
    by_contra hc
    have := (RateLimiter.Allow_fst rl now key).mpr (by omega)
    rw [h] at this
    exact Bool.noConfusion this
  have e : (rl.Allow now key).2 = rl := by
    rw [hs]
    exact RateLimiter.afterPrune_eq_self rl now key (fun ts hk => hr.bounded.2.2 key ts hk) hl
  rw [e]
  exact ⟨rfl, fun _ => rfl, rfl, rfl, rfl⟩

/-- C2, witness: on `fullLimiter`, reached by one accepted call, a second call one
second later returns false and leaves the whole state as it was. -/
theorem Allow_false_state_witness :
    (fullLimiter.Allow (101 * Second) "k").1 = false ∧
    (fullLimiter.Allow (101 * Second) "k").2 = fullLimiter :=
  ⟨by decide,
    (Allow_false_state 1 (60 * Second) fullLimiter (101 * Second) "k"
      (RateLimiter.Reachable.step _ _ _ RateLimiter.Reachable.fresh) (by decide)).1⟩

/-! ## Token manager: lemmas -/

theorem NewNumericDate_aligned (t : Time) :
    NewNumericDate t / Second * Second = NewNumericDate t := by
  unfold NewNumericDate Second Time Duration
  omega

theorem RegisteredClaims.foldlM_marshal (c : RegisteredClaims) (ha : c.aligned) :
    c.marshal.foldlM (fun c kv => RegisteredClaims.setField c kv.1 kv.2) {} = some c := by
  obtain ⟨iss, sub, aud, exp, nbf, iat, jti⟩ := c
  obtain ⟨h1, h2, h3⟩ := ha
  simp only at h1 h2 h3
  have e1 : (marshalOmitEmpty "iss" iss).foldlM
      (fun c kv => RegisteredClaims.setField c kv.1 kv.2) {} = some { Issuer := iss } := by
    by_cases e : iss = "" <;> simp [marshalOmitEmpty, e, RegisteredClaims.setField, JSON.intoString]
  have e2 : (marshalOmitEmpty "sub" sub).foldlM
      (fun c kv => RegisteredClaims.setField c kv.1 kv.2) { Issuer := iss } =
      some { Issuer := iss, Subject := sub } := by
    by_cases e : sub = "" <;> simp [marshalOmitEmpty, e, RegisteredClaims.setField, JSON.intoString]
  have e3 : (if aud = [] then [] else [("aud", JSON.strs aud)]).foldlM
      (fun c kv => RegisteredClaims.setField c kv.1 kv.2) { Issuer := iss, Subject := sub } =
      some { Issuer := iss, Subject := sub, Audience := aud } := by
    by_cases e : aud = [] <;> simp [e, RegisteredClaims.setField, JSON.intoStrings]
  have e4 : (marshalDate "exp" exp).foldlM
      (fun c kv => RegisteredClaims.setField c kv.1 kv.2)
      { Issuer := iss, Subject := sub, Audience := aud } =
      some { Issuer := iss, Subject := sub, Audience := aud, ExpiresAt := exp } := by
    cases exp with
    | none => simp [marshalDate]
    | some t => simp [marshalDate, RegisteredClaims.setField, JSON.intoDate, h1 t rfl]
  have e5 : (marshalDate "nbf" nbf).foldlM
      (fun c kv => RegisteredClaims.setField c kv.1 kv.2)
      { Issuer := iss, Subject := sub, Audience := aud, ExpiresAt := exp } =
      some { Issuer := iss, Subject := sub, Audience := aud, ExpiresAt := exp,
             NotBefore := nbf } := by
    cases nbf with
    | none => simp [marshalDate]
    | some t => simp [marshalDate, RegisteredClaims.setField, JSON.intoDate, h2 t rfl]
  have e6 : (marshalDate "iat" iat).foldlM
      (fun c kv => RegisteredClaims.setField c kv.1 kv.2)
      { Issuer := iss, Subject := sub, Audience := aud, ExpiresAt := exp, NotBefore := nbf } =
      some { Issuer := iss, Subject := sub, Audience := aud, ExpiresAt := exp,
             NotBefore := nbf, IssuedAt := iat } := by
    cases iat with
    | none => simp [marshalDate]
    | some t => simp [marshalDate, RegisteredClaims.setField, JSON.intoDate, h3 t rfl]
  have e7 : (marshalOmitEmpty "jti" jti).foldlM
      (fun c kv => RegisteredClaims.setField c kv.1 kv.2)
      { Issuer := iss, Subject := sub, Audience := aud, ExpiresAt := exp, NotBefore := nbf,
        IssuedAt := iat } =
      some { Issuer := iss, Subject := sub, Audience := aud, ExpiresAt := exp,
             NotBefore := nbf, IssuedAt := iat, ID := jti } := by
    by_cases e : jti = "" <;> simp [marshalOmitEmpty, e, RegisteredClaims.setField, JSON.intoString]
  simp only [RegisteredClaims.marshal, List.foldlM_append, e1, e2, e3, e4, e5, e6, e7,
    Option.bind_eq_bind, Option.some_bind]

theorem RegisteredClaims.marshal_keys (c : RegisteredClaims) :
    ∀ kv ∈ c.marshal, kv.1 ∈ registeredKeys := by
  intro kv hkv
  simp only [RegisteredClaims.marshal, marshalOmitEmpty, marshalDate, List.mem_append] at hkv
  rcases hkv with (((((h | h) | h) | h) | h) | h) | h
  all_goals (split at h <;> simp at h; subst h; simp [registeredKeys])

theorem Claims.setField_registered (c : Claims) (key : String) (v : JSON)
    (hk : key ∈ registeredKeys) :
    c.setField key v = (c.Registered.setField key v).map fun r => { c with Registered := r } := by
  simp only [registeredKeys, List.mem_cons, List.mem_singleton, List.not_mem_nil, or_false] at hk
  rcases hk with h | h | h | h | h | h | h <;> subst h <;> simp [Claims.setField]

theorem Claims.foldlM_registered (o : JObject) (ho : ∀ kv ∈ o, kv.1 ∈ registeredKeys)
    (c : Claims) :
    o.foldlM (fun c kv => Claims.setField c kv.1 kv.2) c =
      (o.foldlM (fun c kv => RegisteredClaims.setField c kv.1 kv.2) c.Registered).map
        fun r => { c with Registered := r } := by
  induction o generalizing c with
  | nil => simp
  | cons kv o ih =>
    have h1 := Claims.setField_registered c kv.1 kv.2 (ho kv (List.mem_cons_self _ _))
    simp only [List.foldlM_cons, h1, Option.bind_eq_bind]
    cases hr : c.Registered.setField kv.1 kv.2 with
    | none => simp
    | some r =>
      simp only [Option.map_some', Option.some_bind]
      rw [ih (fun kv hkv => ho kv (List.mem_cons_of_mem _ hkv))]

/-- Decoding the payload of a marshalled `Claims` into a `Claims` gives it back. -/
theorem Claims.unmarshal_marshal (c : Claims) (ha : c.Registered.aligned) :
    Claims.unmarshal c.marshal = some c := by
  unfold Claims.unmarshal Claims.marshal
  rw [List.foldlM_append]
  have e : ([("userId", JSON.str c.UserID), ("username", JSON.str c.Username),
      ("email", JSON.str c.Email), ("role", JSON.str c.Role),
      ("isCreator", JSON.bool c.IsCreator)] : JObject).foldlM
      (fun c kv => Claims.setField c kv.1 kv.2) {} =
      some { c with Registered := {} } := by
    simp [Claims.setField, JSON.intoString, JSON.intoBool]
  rw [e]
  simp only [Option.bind_eq_bind, Option.some_bind]
  rw [Claims.foldlM_registered _ c.Registered.marshal_keys, RegisteredClaims.foldlM_marshal _ ha]
  rfl

/-- Decoding the payload of a marshalled `jwt.RegisteredClaims` into a `Claims` gives
the `Claims` that has these registered claims and the zero value in its own fields. -/
theorem Claims.unmarshal_registered (r : RegisteredClaims) (ha : r.aligned) :
    Claims.unmarshal r.marshal = some { Registered := r } := by
  unfold Claims.unmarshal
  rw [Claims.foldlM_registered _ r.marshal_keys, RegisteredClaims.foldlM_marshal _ ha]
  rfl

/-- Decoding the payload of a marshalled `Claims` into a `jwt.RegisteredClaims` gives
its registered claims: the members of the other fields are ignored. -/
theorem RegisteredClaims.unmarshal_claims (c : Claims) (ha : c.Registered.aligned) :
    RegisteredClaims.unmarshal c.marshal = some c.Registered := by
  unfold RegisteredClaims.unmarshal Claims.marshal
  rw [List.foldlM_append]
  have e : ([("userId", JSON.str c.UserID), ("username", JSON.str c.Username),
      ("email", JSON.str c.Email), ("role", JSON.str c.Role),
      ("isCreator", JSON.bool c.IsCreator)] : JObject).foldlM
      (fun c kv => RegisteredClaims.setField c kv.1 kv.2) {} = some {} := by
    simp [RegisteredClaims.setField]
  rw [e]
  simp only [Option.bind_eq_bind, Option.some_bind]
  exact RegisteredClaims.foldlM_marshal _ ha

theorem RegisteredClaims.unmarshal_own_marshal (r : RegisteredClaims) (ha : r.aligned) :
    RegisteredClaims.unmarshal r.marshal = some r :=
  RegisteredClaims.foldlM_marshal r ha


/-! ### Base64 -/

theorem decodeSextet_encodeSextet_fin :
    ∀ n : Fin 64, decodeSextet (encodeSextet n.val) = some n.val ∧
      encodeSextet n.val ≠ '\r' ∧ encodeSextet n.val ≠ '\n' := by
  decide

theorem decodeSextet_encodeSextet (n : Nat) (h : n < 64) :
    decodeSextet (encodeSextet n) = some n :=
  (decodeSextet_encodeSextet_fin ⟨n, h⟩).1

theorem sextetsOfBytes_lt (bs : List Byte) : ∀ s ∈ sextetsOfBytes bs, s < 64 := by
  induction bs using sextetsOfBytes.induct with
  | case1 a b c rest ih =>
    intro s hs
    simp only [sextetsOfBytes, List.mem_cons] at hs
    have ha := a.isLt
    have hb := b.isLt
    have hc := c.isLt
    rcases hs with h | h | h | h | h
    · omega
    · omega
    · omega
    · omega
    · exact ih s h
  | case2 a b =>
    intro s hs
    simp only [sextetsOfBytes, List.mem_cons, List.mem_singleton, List.not_mem_nil, or_false] at hs
    have ha := a.isLt
    have hb := b.isLt
    rcases hs with h | h | h <;> omega
  | case3 a =>
    intro s hs
    simp only [sextetsOfBytes, List.mem_cons, List.mem_singleton, List.not_mem_nil, or_false] at hs
    have ha := a.isLt
    rcases hs with h | h <;> omega
  | case4 => simp [sextetsOfBytes]

theorem sextetsOfChars_map_encodeSextet (l : List Nat) (hl : ∀ s ∈ l, s < 64) :
    sextetsOfChars (l.map encodeSextet) = some l := by
  induction l with
  | nil => rfl
  | cons s l ih =>
    have hs := hl s (List.mem_cons_self _ _)
    have h1 := decodeSextet_encodeSextet_fin ⟨s, hs⟩
    have ih2 := ih (fun x hx => hl x (List.mem_cons_of_mem _ hx))
    unfold sextetsOfChars at ih2 ⊢
    simp only [List.map_cons]
    rw [List.filter_cons_of_pos (by simpa using h1.2)]
    simp only [List.mapM_cons, h1.1, ih2, Option.bind_eq_bind, Option.some_bind, Option.pure_def]

theorem bytesOfSextets_sextetsOfBytes (bs : List Byte) :
    bytesOfSextets (sextetsOfBytes bs) = some bs := by
  induction bs using sextetsOfBytes.induct with
  | case1 a b c rest ih =>
    simp only [sextetsOfBytes, bytesOfSextets, ih, Option.map_some', Option.some.injEq,
      List.cons.injEq, and_true]
    have ha := a.isLt
    have hb := b.isLt
    have hc := c.isLt
    refine ⟨?_, ?_, ?_⟩ <;> apply Fin.ext <;> simp only [byteOfNat] <;> omega
  | case2 a b =>
    simp only [sextetsOfBytes, bytesOfSextets, Option.some.injEq, List.cons.injEq, and_true]
    have ha := a.isLt
    have hb := b.isLt
    refine ⟨?_, ?_⟩ <;> apply Fin.ext <;> simp only [byteOfNat] <;> omega
  | case3 a =>
    simp only [sextetsOfBytes, bytesOfSextets, Option.some.injEq, List.cons.injEq, and_true]
    have ha := a.isLt
    apply Fin.ext
    simp only [byteOfNat]
    omega
  | case4 => rfl

/-- Decoding an encoded signature gives the signature back. -/
theorem DecodeSegment_EncodeSegment (bs : List Byte) :
    DecodeSegment (EncodeSegment bs) = some bs := by
  unfold DecodeSegment EncodeSegment
  simp only [sextetsOfChars_map_encodeSextet _ (sextetsOfBytes_lt bs), Option.some_bind,
    bytesOfSextets_sextetsOfBytes]

/-! ### Parsing a signed token -/

theorem SignedString_Method (h : HMAC) (payload : JObject) (key : String) :
    (SignedString h .HS256 payload key).Method = some .HS256 := by
  rfl

/-- Parsing a token signed with HS256 under the key the key function returns: the
signature is accepted, and the result is the one of the validation of the claims. -/
theorem ParseWithClaims_SignedString {α : Type} (h : HMAC) (unmarshal : JObject → Option α)
    (expOf nbfOf : α → Option Time) (keyFunc : SigningMethod → Except Error String)
    (now : Time) (payload : JObject) (key : String) (claims : α)
    (hu : unmarshal payload = some claims) (hk : keyFunc .HS256 = .ok key) :
    ParseWithClaims h unmarshal expOf nbfOf keyFunc now (SignedString h .HS256 payload key) =
      match Validate now (expOf claims) (nbfOf claims) with
      | some e => .error e
      | none => .ok claims := by
  unfold ParseWithClaims
  rw [SignedString_Method]
  have hp : (SignedString h .HS256 payload key).payload = payload := rfl
  have hs : DecodeSegment (SignedString h .HS256 payload key).signature =
      some (h.sum .HS256 key (NewHeader .HS256) payload) := DecodeSegment_EncodeSegment _
  simp only [hp, hu, hs, hk]
  have hv : SigningMethod.Verify h .HS256 (SignedString h .HS256 payload key)
      (h.sum .HS256 key (NewHeader .HS256) payload) key = true := by
    simp [SigningMethod.Verify, SignedString]
  simp only [hv, if_true]

theorem Validate_eq_none (now e n : Time) (h1 : n ≤ now) (h2 : now < e) :
    Validate now (some e) (some n) = none := by
  have h3 : ¬ now < n := not_lt.mpr h1
  simp [Validate, h2, h3]

theorem Validate_expired (now e n : Time) (h2 : e ≤ now) :
    Validate now (some e) (some n) = some (.ErrTokenInvalidClaims true (decide (now < n))) := by
  have h3 : ¬ now < e := not_lt.mpr h2
  simp [Validate, h3]

theorem Validate_notValidYet (now e n : Time) (h2 : now < n) :
    Validate now (some e) (some n) =
      some (.ErrTokenInvalidClaims (!decide (now < e)) true) := by
  simp [Validate, h2]

theorem sessionClaims_aligned (manager : JWTManager) (nowExp nowIat nowNbf : Time)
    (userID username email role : String) (isCreator : Bool) :
    (sessionClaims manager nowExp nowIat nowNbf userID username email role
      isCreator).Registered.aligned := by
  refine ⟨?_, ?_, ?_⟩ <;> intro t ht <;> simp only [sessionClaims, Option.some.injEq] at ht <;>
    subst ht <;> exact NewNumericDate_aligned _

theorem refreshClaims_aligned (nowExp nowIat nowNbf : Time) (userID : String) :
    (refreshClaims nowExp nowIat nowNbf userID).aligned := by
  refine ⟨?_, ?_, ?_⟩ <;> intro t ht <;> simp only [refreshClaims, Option.some.injEq] at ht <;>
    subst ht <;> exact NewNumericDate_aligned _

theorem Verify_Generate (h : HMAC) (manager : JWTManager)
    (nowExp nowIat nowNbf nowLib now : Time) (userID username email role : String)
    (isCreator : Bool) :
    manager.Verify h nowLib now
        (manager.Generate h nowExp nowIat nowNbf userID username email role isCreator) =
      afterParse nowLib now (NewNumericDate (nowExp + manager.tokenDuration))
        (NewNumericDate nowNbf)
        (sessionClaims manager nowExp nowIat nowNbf userID username email role isCreator) := by
  have hp := ParseWithClaims_SignedString h Claims.unmarshal (fun c => c.Registered.ExpiresAt)
    (fun c => c.Registered.NotBefore) manager.keyFunc nowLib
    (sessionClaims manager nowExp nowIat nowNbf userID username email role isCreator).marshal
    manager.secretKey _ (Claims.unmarshal_marshal _ (sessionClaims_aligned ..)) rfl
  unfold JWTManager.Verify JWTManager.Generate
  simp only [hp, afterParse]
  have e1 : (sessionClaims manager nowExp nowIat nowNbf userID username email role
      isCreator).Registered.ExpiresAt = some (NewNumericDate (nowExp + manager.tokenDuration)) :=
    rfl
  have e2 : (sessionClaims manager nowExp nowIat nowNbf userID username email role
      isCreator).Registered.NotBefore = some (NewNumericDate nowNbf) := rfl
  rw [e1, e2]
  cases Validate nowLib (some (NewNumericDate (nowExp + manager.tokenDuration)))
      (some (NewNumericDate nowNbf)) with
  | some e => rfl
  | none => simp only [e1]

theorem Verify_GenerateRefreshToken (h : HMAC) (manager : JWTManager)
    (nowExp nowIat nowNbf nowLib now : Time) (userID : String) :
    manager.Verify h nowLib now (manager.GenerateRefreshToken h nowExp nowIat nowNbf userID) =
      afterParse nowLib now (NewNumericDate (nowExp + refreshDuration))
        (NewNumericDate nowNbf)
        ({ Registered := refreshClaims nowExp nowIat nowNbf userID } : Claims) := by
  have hp := ParseWithClaims_SignedString h Claims.unmarshal (fun c => c.Registered.ExpiresAt)
    (fun c => c.Registered.NotBefore) manager.keyFunc nowLib
    (refreshClaims nowExp nowIat nowNbf userID).marshal
    manager.secretKey _ (Claims.unmarshal_registered _ (refreshClaims_aligned ..)) rfl
  unfold JWTManager.Verify JWTManager.GenerateRefreshToken
  simp only [hp, afterParse]
  have e1 : (refreshClaims nowExp nowIat nowNbf userID).ExpiresAt =
      some (NewNumericDate (nowExp + refreshDuration)) := rfl
  have e2 : (refreshClaims nowExp nowIat nowNbf userID).NotBefore =
      some (NewNumericDate nowNbf) := rfl
  rw [e1, e2]
  cases Validate nowLib (some (NewNumericDate (nowExp + refreshDuration)))
      (some (NewNumericDate nowNbf)) with
  | some e => rfl
  | none => simp only [e1]

theorem VerifyRefreshToken_Generate (h : HMAC) (manager : JWTManager)
    (nowExp nowIat nowNbf nowLib now : Time) (userID username email role : String)
    (isCreator : Bool) :
    manager.VerifyRefreshToken h nowLib now
        (manager.Generate h nowExp nowIat nowNbf userID username email role isCreator) =
      afterParse nowLib now (NewNumericDate (nowExp + manager.tokenDuration))
        (NewNumericDate nowNbf) "" := by
  have hp := ParseWithClaims_SignedString h RegisteredClaims.unmarshal (fun c => c.ExpiresAt)
    (fun c => c.NotBefore) (fun _ => .ok manager.secretKey) nowLib
    (sessionClaims manager nowExp nowIat nowNbf userID username email role isCreator).marshal
    manager.secretKey _ (RegisteredClaims.unmarshal_claims _ (sessionClaims_aligned ..)) rfl
  unfold JWTManager.VerifyRefreshToken JWTManager.Generate
  simp only [hp, afterParse]
  have e1 : (sessionClaims manager nowExp nowIat nowNbf userID username email role
      isCreator).Registered.ExpiresAt = some (NewNumericDate (nowExp + manager.tokenDuration)) :=
    rfl
  have e2 : (sessionClaims manager nowExp nowIat nowNbf userID username email role
      isCreator).Registered.NotBefore = some (NewNumericDate nowNbf) := rfl
  rw [e1, e2]
  cases Validate nowLib (some (NewNumericDate (nowExp + manager.tokenDuration)))
      (some (NewNumericDate nowNbf)) with
  | some e => rfl
  | none => simp only [e1]; rfl

theorem VerifyRefreshToken_GenerateRefreshToken (h : HMAC) (manager : JWTManager)
    (nowExp nowIat nowNbf nowLib now : Time) (userID : String) :
    manager.VerifyRefreshToken h nowLib now
        (manager.GenerateRefreshToken h nowExp nowIat nowNbf userID) =
      afterParse nowLib now (NewNumericDate (nowExp + refreshDuration))
        (NewNumericDate nowNbf) userID := by
  have hp := ParseWithClaims_SignedString h RegisteredClaims.unmarshal (fun c => c.ExpiresAt)
    (fun c => c.NotBefore) (fun _ => .ok manager.secretKey) nowLib
    (refreshClaims nowExp nowIat nowNbf userID).marshal
    manager.secretKey _ (RegisteredClaims.unmarshal_own_marshal _ (refreshClaims_aligned ..)) rfl
  unfold JWTManager.VerifyRefreshToken JWTManager.GenerateRefreshToken
  simp only [hp, afterParse]
  have e1 : (refreshClaims nowExp nowIat nowNbf userID).ExpiresAt =
      some (NewNumericDate (nowExp + refreshDuration)) := rfl
  have e2 : (refreshClaims nowExp nowIat nowNbf userID).NotBefore =
      some (NewNumericDate nowNbf) := rfl
  rw [e1, e2]
  cases Validate nowLib (some (NewNumericDate (nowExp + refreshDuration)))
      (some (NewNumericDate nowNbf)) with
  | some e => rfl
  | none => simp only [e1]; rfl

theorem afterParse_ok {α : Type} (nowLib now exp nbf : Time) (v : α)
    (h1 : nbf ≤ nowLib) (h2 : nowLib < exp) (h3 : now ≤ exp) :
    afterParse nowLib now exp nbf v = .ok v := by
  have h4 : ¬ exp < now := not_lt.mpr h3
  simp [afterParse, Validate_eq_none nowLib exp nbf h1 h2, h4]

theorem afterParse_expired {α : Type} (nowLib now exp nbf : Time) (v : α) (h2 : exp ≤ nowLib) :
    afterParse nowLib now exp nbf v =
      .error (.ErrTokenInvalidClaims true (decide (nowLib < nbf))) := by
  simp [afterParse, Validate_expired nowLib exp nbf h2]

theorem afterParse_notValidYet {α : Type} (nowLib now exp nbf : Time) (v : α)
    (h2 : nowLib < nbf) :
    afterParse nowLib now exp nbf v =
      .error (.ErrTokenInvalidClaims (!decide (nowLib < exp)) true) := by
  simp [afterParse, Validate_notValidYet nowLib exp nbf h2]

theorem afterParse_late {α : Type} (nowLib now exp nbf : Time) (v : α)
    (h1 : nbf ≤ nowLib) (h2 : nowLib < exp) (h3 : exp < now) :
    afterParse nowLib now exp nbf v = .error .ErrExpiredToken := by
  simp [afterParse, Validate_eq_none nowLib exp nbf h1 h2, h3]

/-! ## Token manager: the claims -/

/-- C3: for all inputs, `Verify` applied to the token `Generate` returns, with the same
secret and with both of its clock reads inside the validity window of the token (from
not-before, inclusive, to expires-at, exclusive), succeeds and returns claims whose
`UserID`, `Username`, `Email`, `Role` and `IsCreator` equal the inputs. -/
theorem Verify_Generate_roundtrip (h : HMAC) (manager : JWTManager)
    (nowExp nowIat nowNbf nowLib now : Time) (userID username email role : String)
    (isCreator : Bool)
    (hnbf : NewNumericDate nowNbf ≤ nowLib) (hord : nowLib ≤ now)
    (hexp : now < NewNumericDate (nowExp + manager.tokenDuration)) :
    ∃ claims : Claims,
      manager.Verify h nowLib now
        (manager.Generate h nowExp nowIat nowNbf userID username email role isCreator) =
        .ok claims ∧
      claims.UserID = userID ∧ claims.Username = username ∧ claims.Email = email ∧
      claims.Role = role ∧ claims.IsCreator = isCreator := by
  refine ⟨sessionClaims manager nowExp nowIat nowNbf userID username email role isCreator,
    ?_, rfl, rfl, rfl, rfl, rfl⟩
  rw [Verify_Generate]
  exact afterParse_ok _ _ _ _ _ hnbf (lt_of_le_of_lt hord hexp) (le_of_lt hexp)

/-- C3, witness: a token generated at 1.5 s by the manager of `main` and verified one
second later. -/
theorem Verify_Generate_roundtrip_witness :
    ∃ claims : Claims,
      sampleManager.Verify sampleHMAC 2500000000 2500000000
        (sampleManager.Generate sampleHMAC 1500000000 1500000000 1500000000
          "u1" "bob" "bob@example.com" "user" true) = .ok claims ∧
      claims.UserID = "u1" ∧ claims.Username = "bob" ∧ claims.Email = "bob@example.com" ∧
      claims.Role = "user" ∧ claims.IsCreator = true :=
  Verify_Generate_roundtrip sampleHMAC sampleManager 1500000000 1500000000 1500000000
    2500000000 2500000000 "u1" "bob" "bob@example.com" "user" true
    (by decide) (by decide) (by decide)

/-- C4, counterexample: a token of the manager of `main` generated at 1.5 s expires at
3601 s. `Verify` called at 3602 s fails with the library's error, which is not
`ErrExpiredToken`. And a token of a manager whose token duration is one nanosecond,
generated at 5 s, expires at 5 s; `Verify` called one nanosecond before that fails. -/
theorem Verify_expired_error_not_ErrExpiredToken :
    sampleManager.Verify sampleHMAC (3602 * Second) (3602 * Second)
      (sampleManager.Generate sampleHMAC 1500000000 1500000000 1500000000
        "u1" "bob" "bob@example.com" "user" true) =
      .error (.ErrTokenInvalidClaims true false) ∧
    Error.ErrTokenInvalidClaims true false ≠ Error.ErrExpiredToken ∧
    NewNumericDate (5 * Second + briefManager.tokenDuration) = 5 * Second ∧
    briefManager.Verify sampleHMAC (5 * Second - 1) (5 * Second - 1)
      (briefManager.Generate sampleHMAC (5 * Second) (5 * Second) (5 * Second)
        "u1" "bob" "bob@example.com" "user" true) =
      .error (.ErrTokenInvalidClaims false true) := by
  refine ⟨?_, by decide, by decide, ?_⟩
  · rw [Verify_Generate, afterParse_expired _ _ _ _ _ (by decide)]
    rfl
  · rw [Verify_Generate, afterParse_notValidYet _ _ _ _ _ (by decide)]
    rfl

/-- C4, amended: for every session token produced by `Generate`, with expires-at
instant `e`: `Verify` called with its first clock read at or after `e` fails with the
expired-token error of the signing library (never with `ErrExpiredToken`, whose check
comes after the library's); and `Verify` called one nanosecond before `e` succeeds,
provided the instant read for not-before is at least one second before the instant
read for expires-at plus the token duration (with a single instant of generation: the
token duration is at least one second). -/
theorem Verify_expiry_boundary (h : HMAC) (manager : JWTManager)
    (nowExp nowIat nowNbf : Time) (userID username email role : String) (isCreator : Bool) :
    (∀ nowLib now : Time, NewNumericDate (nowExp + manager.tokenDuration) ≤ nowLib →
      manager.Verify h nowLib now
        (manager.Generate h nowExp nowIat nowNbf userID username email role isCreator) =
        .error (.ErrTokenInvalidClaims true (decide (nowLib < NewNumericDate nowNbf)))) ∧
    (nowNbf + Second ≤ nowExp + manager.tokenDuration →
      manager.Verify h (NewNumericDate (nowExp + manager.tokenDuration) - 1)
        (NewNumericDate (nowExp + manager.tokenDuration) - 1)
        (manager.Generate h nowExp nowIat nowNbf userID username email role isCreator) =
        .ok (sessionClaims manager nowExp nowIat nowNbf userID username email role
          isCreator)) := by
  constructor
  · intro nowLib now hl
    rw [Verify_Generate]
    exact afterParse_expired _ _ _ _ _ hl
  · intro hd
    rw [Verify_Generate]
    apply afterParse_ok
    · revert hd
      generalize manager.tokenDuration = d
      unfold NewNumericDate Second Time Duration
      intro hd
      omega
    · unfold Time; omega
    · unfold Time; omega

/-- C4, witness: the token of the manager of `main` generated at 1.5 s expires at
3601 s; `Verify` called one nanosecond before that succeeds, and `Verify` called at
3601 s fails with the library's error. -/
theorem Verify_expiry_boundary_witness :
    sampleManager.Verify sampleHMAC (3601 * Second) (3601 * Second) sampleToken =
      .error (.ErrTokenInvalidClaims true false) ∧
    sampleManager.Verify sampleHMAC (3601 * Second - 1) (3601 * Second - 1) sampleToken =
      .ok (sessionClaims sampleManager 1500000000 1500000000 1500000000
        "u1" "bob" "bob@example.com" "user" true) :=
  ⟨(Verify_expiry_boundary sampleHMAC sampleManager 1500000000 1500000000 1500000000
      "u1" "bob" "bob@example.com" "user" true).1 (3601 * Second) (3601 * Second) (by decide),
   (Verify_expiry_boundary sampleHMAC sampleManager 1500000000 1500000000 1500000000
      "u1" "bob" "bob@example.com" "user" true).2 (by decide)⟩

/-- C5, counterexample: `Verify` on the renewal token the manager of `main` generates
for the subject `"u1"` at 1.5 s, called one second later, returns no error: it returns
claims with empty identity fields and the subject `"u1"`. -/
theorem Verify_accepts_refresh_token :
    sampleManager.Verify sampleHMAC 2500000000 2500000000
      (sampleManager.GenerateRefreshToken sampleHMAC 1500000000 1500000000 1500000000 "u1") =
      .ok { UserID := "", Username := "", Email := "", Role := "", IsCreator := false,
            Registered := { Subject := "u1", ExpiresAt := some (2592001 * Second),
                            IssuedAt := some (1 * Second), NotBefore := some (1 * Second) } } := by
  rw [Verify_GenerateRefreshToken, afterParse_ok _ _ _ _ _ (by decide) (by decide) (by decide)]
  decide

/-- C5, amended: for every subject `s`, `Verify` accepts the renewal token
`GenerateRefreshToken(s)` returns, with the same secret, whenever its two clock reads
are inside the validity window of the token: it returns claims whose `UserID`,
`Username`, `Email` and `Role` are empty, whose `IsCreator` is false and whose
registered subject is `s`. It returns an error when the first read is before
not-before or not before expires-at, or the second read is after expires-at. -/
theorem Verify_GenerateRefreshToken_accepts (h : HMAC) (manager : JWTManager)
    (nowExp nowIat nowNbf nowLib now : Time) (s : String) :
    (NewNumericDate nowNbf ≤ nowLib → nowLib ≤ now →
      now < NewNumericDate (nowExp + refreshDuration) →
      manager.Verify h nowLib now (manager.GenerateRefreshToken h nowExp nowIat nowNbf s) =
        .ok { UserID := "", Username := "", Email := "", Role := "", IsCreator := false,
              Registered := refreshClaims nowExp nowIat nowNbf s } ∧
      (refreshClaims nowExp nowIat nowNbf s).Subject = s) ∧
    (nowLib < NewNumericDate nowNbf ∨ NewNumericDate (nowExp + refreshDuration) ≤ nowLib ∨
        NewNumericDate (nowExp + refreshDuration) < now →
      ∃ e, manager.Verify h nowLib now (manager.GenerateRefreshToken h nowExp nowIat nowNbf s) =
        .error e) := by
  rw [Verify_GenerateRefreshToken]
  constructor
  · intro h1 h2 h3
    exact ⟨afterParse_ok _ _ _ _ _ h1 (lt_of_le_of_lt h2 h3) (le_of_lt h3), rfl⟩
  · intro hc
    by_cases h1 : nowLib < NewNumericDate nowNbf
    · exact ⟨_, afterParse_notValidYet _ _ _ _ _ h1⟩
    · by_cases h2 : NewNumericDate (nowExp + refreshDuration) ≤ nowLib
      · exact ⟨_, afterParse_expired _ _ _ _ _ h2⟩
      · rcases hc with hc | hc | hc
        · exact absurd hc h1
        · exact absurd hc h2
        · exact ⟨_, afterParse_late _ _ _ _ _ (not_lt.mp h1) (not_le.mp h2) hc⟩

/-- C5, witness: the renewal token generated at 1.5 s for `"u7"`, verified by `Verify`
29 days later, is accepted. -/
theorem Verify_GenerateRefreshToken_accepts_witness :
    sampleManager.Verify sampleHMAC (29 * 24 * 3600 * Second) (29 * 24 * 3600 * Second)
      (sampleManager.GenerateRefreshToken sampleHMAC 1500000000 1500000000 1500000000 "u7") =
      .ok { UserID := "", Username := "", Email := "", Role := "", IsCreator := false,
            Registered := refreshClaims 1500000000 1500000000 1500000000 "u7" } ∧
    (refreshClaims 1500000000 1500000000 1500000000 "u7").Subject = "u7" :=
  (Verify_GenerateRefreshToken_accepts sampleHMAC sampleManager 1500000000 1500000000
    1500000000 (29 * 24 * 3600 * Second) (29 * 24 * 3600 * Second) "u7").1
    (by decide) (by decide) (by decide)

/-- C6, counterexample: `VerifyRefreshToken` on the session token the manager of `main`
generates at 1.5 s, called one second later, returns no error: it returns the empty
subject, and the handler `RefreshToken` answers with a new session token. -/
theorem VerifyRefreshToken_accepts_session_token :
    sampleManager.VerifyRefreshToken sampleHMAC 2500000000 2500000000
      (sampleManager.Generate sampleHMAC 1500000000 1500000000 1500000000
        "u1" "bob" "bob@example.com" "user" false) = .ok "" ∧
    AuthHandler.RefreshToken sampleHMAC sampleManager (2500000000, 2500000000)
      (2500000000, 2500000000, 2500000000) (2500000000, 2500000000, 2500000000)
      (sampleManager.Generate sampleHMAC 1500000000 1500000000 1500000000
        "u1" "bob" "bob@example.com" "user" false) =
      .ok (sampleManager.Generate sampleHMAC 2500000000 2500000000 2500000000
            "" "johndoe" "john@example.com" "user" true)
          (sampleManager.GenerateRefreshToken sampleHMAC 2500000000 2500000000 2500000000 "") := by
  have e := VerifyRefreshToken_Generate sampleHMAC sampleManager 1500000000 1500000000
    1500000000 2500000000 2500000000 "u1" "bob" "bob@example.com" "user" false
  rw [afterParse_ok _ _ _ _ _ (by decide) (by decide) (by decide)] at e
  refine ⟨e, ?_⟩
  unfold AuthHandler.RefreshToken
  simp only [e]

/-- C6, amended: for all inputs, `VerifyRefreshToken` accepts the session token
`Generate` returns, with the same secret, whenever its two clock reads are inside the
validity window of the token, and returns the empty subject (`Generate` sets no
subject); the handler `RefreshToken` then answers with a new session token, issued for
the empty user id. `VerifyRefreshToken` returns an error when its first read is before
not-before or not before expires-at, or its second read is after expires-at. -/
theorem VerifyRefreshToken_Generate_accepts (h : HMAC) (manager : JWTManager)
    (nowExp nowIat nowNbf nowLib now : Time) (userID username email role : String)
    (isCreator : Bool) :
    (NewNumericDate nowNbf ≤ nowLib → nowLib ≤ now →
      now < NewNumericDate (nowExp + manager.tokenDuration) →
      manager.VerifyRefreshToken h nowLib now
        (manager.Generate h nowExp nowIat nowNbf userID username email role isCreator) =
        .ok "" ∧
      ∀ sessionReads refreshReads : Time × Time × Time,
        AuthHandler.RefreshToken h manager (nowLib, now) sessionReads refreshReads
          (manager.Generate h nowExp nowIat nowNbf userID username email role isCreator) =
        .ok (manager.Generate h sessionReads.1 sessionReads.2.1 sessionReads.2.2
              "" "johndoe" "john@example.com" "user" true)
            (manager.GenerateRefreshToken h refreshReads.1 refreshReads.2.1
              refreshReads.2.2 "")) ∧
    (nowLib < NewNumericDate nowNbf ∨
        NewNumericDate (nowExp + manager.tokenDuration) ≤ nowLib ∨
        NewNumericDate (nowExp + manager.tokenDuration) < now →
      ∃ e, manager.VerifyRefreshToken h nowLib now
        (manager.Generate h nowExp nowIat nowNbf userID username email role isCreator) =
        .error e) := by
  have e := VerifyRefreshToken_Generate h manager nowExp nowIat nowNbf nowLib now
    userID username email role isCreator
  constructor
  · intro h1 h2 h3
    rw [afterParse_ok _ _ _ _ _ h1 (lt_of_le_of_lt h2 h3) (le_of_lt h3)] at e
    refine ⟨e, ?_⟩
    intro sessionReads refreshReads
    unfold AuthHandler.RefreshToken
    simp only [e]
  · intro hc
    rw [e]
    by_cases h1 : nowLib < NewNumericDate nowNbf
    · exact ⟨_, afterParse_notValidYet _ _ _ _ _ h1⟩
    · by_cases h2 : NewNumericDate (nowExp + manager.tokenDuration) ≤ nowLib
      · exact ⟨_, afterParse_expired _ _ _ _ _ h2⟩
      · rcases hc with hc | hc | hc
        · exact absurd hc h1
        · exact absurd hc h2
        · exact ⟨_, afterParse_late _ _ _ _ _ (not_lt.mp h1) (not_le.mp h2) hc⟩


/-- C6, witness: the session token of a caller who is not a creator, generated at
1.5 s, is accepted by `VerifyRefreshToken` half an hour later. -/
theorem VerifyRefreshToken_Generate_accepts_witness :
    sampleManager.VerifyRefreshToken sampleHMAC (1800 * Second) (1800 * Second)
      (sampleManager.Generate sampleHMAC 1500000000 1500000000 1500000000
        "u2" "eve" "eve@example.com" "user" false) = .ok "" :=
  ((VerifyRefreshToken_Generate_accepts sampleHMAC sampleManager 1500000000 1500000000
    1500000000 (1800 * Second) (1800 * Second) "u2" "eve" "eve@example.com" "user" false).1
    (by decide) (by decide) (by decide)).1

/-! ### Changing one character of the signature segment -/

theorem bytesOfSextets_length (l : List Nat) (b : List Byte) (h : bytesOfSextets l = some b) :
    b.length = l.length * 3 / 4 := by
  induction l using bytesOfSextets.induct generalizing b with
  | case1 s0 s1 s2 s3 rest ih =>
    simp only [bytesOfSextets, Option.map_eq_some'] at h
    obtain ⟨bs, hbs, rfl⟩ := h
    have := ih bs hbs
    simp only [List.length_cons]
    omega
  | case2 s0 s1 s2 =>
    simp only [bytesOfSextets, Option.some.injEq] at h
    subst h
    simp
  | case3 s0 s1 =>
    simp only [bytesOfSextets, Option.some.injEq] at h
    subst h
    simp
  | case4 s0 => simp [bytesOfSextets] at h
  | case5 =>
    simp only [bytesOfSextets, Option.some.injEq] at h
    subst h
    rfl

theorem sextetsOfBytes_length (bs : List Byte) :
    (sextetsOfBytes bs).length = (bs.length * 4 + 2) / 3 := by
  induction bs using sextetsOfBytes.induct with
  | case1 a b c rest ih =>
    simp only [sextetsOfBytes, List.length_cons, ih]
    omega
  | case2 a b => simp [sextetsOfBytes]
  | case3 a => simp [sextetsOfBytes]
  | case4 => rfl

theorem byteOfNat_eq_iff (m n : Nat) : byteOfNat m = byteOfNat n ↔ m % 256 = n % 256 := by
  simp [byteOfNat, Fin.ext_iff]

/-- Two sequences of 6-bit values that differ in one place decode to the same bytes only
if the place is the last one, of a final group of three or two values, and the two
values differ in unused bits only. -/
theorem bytesOfSextets_change (ps : List Nat) :
    ∀ (qs : List Nat) (s s' : Nat) (b : List Byte), s < 64 → s' < 64 → s ≠ s' →
      bytesOfSextets (ps ++ s :: qs) = some b → bytesOfSextets (ps ++ s' :: qs) = some b →
      qs = [] ∧ (ps.length % 4 = 2 ∧ s / 4 = s' / 4 ∨ ps.length % 4 = 1 ∧ s / 16 = s' / 16) := by
  induction ps using bytesOfSextets.induct with
  | case1 s0 s1 s2 s3 rest ih =>
    intro qs s s' b hs hs' hne h1 h2
    simp only [List.cons_append, bytesOfSextets, Option.map_eq_some'] at h1 h2
    obtain ⟨b1, hb1, e1⟩ := h1
    obtain ⟨b2, hb2, e2⟩ := h2
    rw [← e1] at e2
    simp only [List.cons.injEq, true_and] at e2
    rw [e2] at hb2
    have := ih qs s s' b1 hs hs' hne hb1 hb2
    simp only [List.length_cons]
    refine ⟨this.1, ?_⟩
    rcases this.2 with h | h
    · exact Or.inl ⟨by omega, h.2⟩
    · exact Or.inr ⟨by omega, h.2⟩
  | case2 s0 s1 s2 =>
    intro qs s s' b hs hs' hne h1 h2
    exfalso
    simp only [List.cons_append, List.nil_append, bytesOfSextets, Option.map_eq_some'] at h1 h2
    obtain ⟨b1, hb1, e1⟩ := h1
    obtain ⟨b2, hb2, e2⟩ := h2
    rw [← e1] at e2
    simp only [List.cons.injEq, true_and, byteOfNat_eq_iff] at e2
    omega
  | case3 s0 s1 =>
    intro qs s s' b hs hs' hne h1 h2
    cases qs with
    | nil =>
      simp only [List.cons_append, List.nil_append, bytesOfSextets, Option.some.injEq] at h1 h2
      rw [← h1] at h2
      simp only [List.cons.injEq, true_and, and_true, byteOfNat_eq_iff] at h2
      refine ⟨rfl, Or.inl ⟨rfl, ?_⟩⟩
      omega
    | cons q qs =>
      exfalso
      simp only [List.cons_append, List.nil_append, bytesOfSextets, Option.map_eq_some'] at h1 h2
      obtain ⟨b1, hb1, e1⟩ := h1
      obtain ⟨b2, hb2, e2⟩ := h2
      rw [← e1] at e2
      simp only [List.cons.injEq, true_and, byteOfNat_eq_iff] at e2
      omega
  | case4 s0 =>
    intro qs s s' b hs hs' hne h1 h2
    match qs with
    | [] =>
      simp only [List.cons_append, List.nil_append, bytesOfSextets, Option.some.injEq] at h1 h2
      rw [← h1] at h2
      simp only [List.cons.injEq, and_true, byteOfNat_eq_iff] at h2
      refine ⟨rfl, Or.inr ⟨rfl, ?_⟩⟩
      omega
    | [q] =>
      exfalso
      simp only [List.cons_append, List.nil_append, bytesOfSextets, Option.some.injEq] at h1 h2
      rw [← h1] at h2
      simp only [List.cons.injEq, and_true, byteOfNat_eq_iff] at h2
      omega
    | q :: r :: qs =>
      exfalso
      simp only [List.cons_append, List.nil_append, bytesOfSextets, Option.map_eq_some'] at h1 h2
      obtain ⟨b1, hb1, e1⟩ := h1
      obtain ⟨b2, hb2, e2⟩ := h2
      rw [← e1] at e2
      simp only [List.cons.injEq, true_and, byteOfNat_eq_iff] at e2
      omega
  | case5 =>
    intro qs s s' b hs hs' hne h1 h2
    exfalso
    match qs with
    | [] => simp [bytesOfSextets] at h1
    | [q] =>
      simp only [List.nil_append, bytesOfSextets, Option.some.injEq] at h1 h2
      rw [← h1] at h2
      simp only [List.cons.injEq, and_true, byteOfNat_eq_iff] at h2
      omega
    | [q, r] =>
      simp only [List.nil_append, bytesOfSextets, Option.some.injEq] at h1 h2
      rw [← h1] at h2
      simp only [List.cons.injEq, and_true, byteOfNat_eq_iff] at h2
      omega
    | q :: r :: t :: qs =>
      simp only [List.nil_append, bytesOfSextets, Option.map_eq_some'] at h1 h2
      obtain ⟨b1, hb1, e1⟩ := h1
      obtain ⟨b2, hb2, e2⟩ := h2
      rw [← e1] at e2
      simp only [List.cons.injEq, true_and, byteOfNat_eq_iff] at e2
      omega

/-- The last of a final group of three 6-bit values counts by its high four bits
only. -/
theorem bytesOfSextets_last (ps : List Nat) :
    ∀ (s s' : Nat), ps.length % 4 = 2 → s / 4 = s' / 4 →
      bytesOfSextets (ps ++ [s]) = bytesOfSextets (ps ++ [s']) := by
  induction ps using bytesOfSextets.induct with
  | case1 s0 s1 s2 s3 rest ih =>
    intro s s' hl he
    simp only [List.length_cons] at hl
    have := ih s s' (by omega) he
    simp only [List.cons_append, bytesOfSextets]
    exact congrArg _ this
  | case2 s0 s1 s2 => intro s s' hl; simp at hl
  | case3 s0 s1 =>
    intro s s' _ he
    simp only [List.cons_append, List.nil_append, bytesOfSextets, he]
  | case4 s0 => intro s s' hl; simp at hl
  | case5 => intro s s' hl; simp at hl


theorem decodeSextet_some (c : Char) (s : Nat) (h : decodeSextet c = some s) :
    s < 64 ∧ encodeSextet s = c := by
  unfold decodeSextet at h
  split_ifs at h with hc
  simp only [Option.some.injEq] at h
  subst h
  have hlt : List.indexOf c base64Alphabet < base64Alphabet.length := List.indexOf_lt_length.mpr hc
  refine ⟨hlt, ?_⟩
  unfold encodeSextet
  rw [List.getD_eq_getElem _ _ hlt]
  exact List.getElem_indexOf hlt


theorem filter_map_encodeSextet (l : List Nat) (hl : ∀ s ∈ l, s < 64) :
    (l.map encodeSextet).filter (fun c => decide (c ≠ '\r' ∧ c ≠ '\n')) = l.map encodeSextet := by
  rw [List.filter_eq_self]
  intro c hc
  obtain ⟨s, hs, rfl⟩ := List.mem_map.mp hc
  have := decodeSextet_encodeSextet_fin ⟨s, hl s hs⟩
  simpa using this.2

theorem mapM_map_encodeSextet (l : List Nat) (hl : ∀ s ∈ l, s < 64) :
    (l.map encodeSextet).mapM decodeSextet = some l := by
  have := sextetsOfChars_map_encodeSextet l hl
  unfold sextetsOfChars at this
  rwa [filter_map_encodeSextet l hl] at this

/-- The 6-bit values of an encoded segment in which one character is replaced. -/
theorem sextetsOfChars_replace (ps qs : List Nat) (c' : Char)
    (hp : ∀ s ∈ ps, s < 64) (hq : ∀ s ∈ qs, s < 64) :
    sextetsOfChars (ps.map encodeSextet ++ c' :: qs.map encodeSextet) =
      if c' = '\r' ∨ c' = '\n' then some (ps ++ qs)
      else (decodeSextet c').map fun s' => ps ++ s' :: qs := by
  unfold sextetsOfChars
  rw [List.filter_append, filter_map_encodeSextet ps hp]
  by_cases hc : c' = '\r' ∨ c' = '\n'
  · rw [List.filter_cons_of_neg (by rcases hc with h | h <;> simp [h]),
      filter_map_encodeSextet qs hq, if_pos hc, ← List.map_append]
    apply mapM_map_encodeSextet
    intro s hs
    rcases List.mem_append.mp hs with h | h
    · exact hp s h
    · exact hq s h
  · rw [List.filter_cons_of_pos (by simpa [not_or] using hc),
      filter_map_encodeSextet qs hq, if_neg hc]
    simp only [List.mapM_append, List.mapM_cons, mapM_map_encodeSextet ps hp,
      mapM_map_encodeSextet qs hq, Option.bind_eq_bind, Option.some_bind, Option.pure_def]
    cases decodeSextet c' <;> simp

/-- Parsing a token signed with HS256 whose signature segment is replaced by `sig`:
malformed when the segment does not decode, accepted as the signed token is when it
decodes to the MAC, an invalid signature otherwise. -/
theorem ParseWithClaims_signature {α : Type} (h : HMAC) (unmarshal : JObject → Option α)
    (expOf nbfOf : α → Option Time) (keyFunc : SigningMethod → Except Error String)
    (now : Time) (payload : JObject) (key : String) (claims : α) (sig : String)
    (hu : unmarshal payload = some claims) (hk : keyFunc .HS256 = .ok key) :
    ParseWithClaims h unmarshal expOf nbfOf keyFunc now
        ((SignedString h .HS256 payload key).withSignature sig) =
      match DecodeSegment sig with
      | none => .error .ErrTokenMalformed
      | some b =>
        if b = h.sum .HS256 key (NewHeader .HS256) payload then
          ParseWithClaims h unmarshal expOf nbfOf keyFunc now (SignedString h .HS256 payload key)
        else .error .ErrTokenSignatureInvalid := by
  rw [ParseWithClaims_SignedString h unmarshal expOf nbfOf keyFunc now payload key claims hu hk]
  unfold ParseWithClaims
  have hm : ((SignedString h .HS256 payload key).withSignature sig).Method =
      some .HS256 := rfl
  have hp : ((SignedString h .HS256 payload key).withSignature sig).payload =
      payload := rfl
  have hg : ((SignedString h .HS256 payload key).withSignature sig).signature = sig := rfl
  rw [hm, hp, hg]
  simp only [hu, hk]
  cases DecodeSegment sig with
  | none => rfl
  | some b =>
    simp only [SigningMethod.Verify, SignedString, Token.withSignature]
    by_cases hb : b = h.sum .HS256 key (NewHeader .HS256) payload <;> simp [hb]

theorem Verify_signature (h : HMAC) (manager : JWTManager)
    (nowExp nowIat nowNbf nowLib now : Time) (userID username email role : String)
    (isCreator : Bool) (sig : String) :
    manager.Verify h nowLib now
        ((manager.Generate h nowExp nowIat nowNbf userID username email role
          isCreator).withSignature sig) =
      match DecodeSegment sig with
      | none => .error .ErrTokenMalformed
      | some b =>
        if b = h.sum .HS256 manager.secretKey (NewHeader .HS256)
            (sessionClaims manager nowExp nowIat nowNbf userID username email role
              isCreator).marshal then
          manager.Verify h nowLib now
            (manager.Generate h nowExp nowIat nowNbf userID username email role isCreator)
        else .error .ErrTokenSignatureInvalid := by
  have hp := ParseWithClaims_signature h Claims.unmarshal (fun c => c.Registered.ExpiresAt)
    (fun c => c.Registered.NotBefore) manager.keyFunc nowLib
    (sessionClaims manager nowExp nowIat nowNbf userID username email role isCreator).marshal
    manager.secretKey _ sig (Claims.unmarshal_marshal _ (sessionClaims_aligned ..)) rfl
  unfold JWTManager.Verify JWTManager.Generate
  simp only [hp]
  cases DecodeSegment sig with
  | none => rfl
  | some b =>
    simp only []
    split_ifs <;> rfl

/-- A signature segment made from the encoding of a 32-byte MAC by replacing one
character: when it decodes to the MAC again. -/
theorem DecodeSegment_replace (mac : List Byte) (hm : mac.length = 32) (pre post : List Char)
    (c c' : Char) (hsig : (EncodeSegment mac).data = pre ++ c :: post) (hne : c' ≠ c) :
    (post = [] ∧ (∃ s s', decodeSextet c = some s ∧ decodeSextet c' = some s' ∧ s / 4 = s' / 4) →
      DecodeSegment (String.mk (pre ++ c' :: post)) = some mac) ∧
    (¬ (post = [] ∧
        ∃ s s', decodeSextet c = some s ∧ decodeSextet c' = some s' ∧ s / 4 = s' / 4) →
      DecodeSegment (String.mk (pre ++ c' :: post)) ≠ some mac) := by
  have hlen := sextetsOfBytes_length mac
  rw [hm] at hlen
  have hlt := sextetsOfBytes_lt mac
  have hdec := bytesOfSextets_sextetsOfBytes mac
  simp only [EncodeSegment] at hsig
  obtain ⟨ps, l2, hl, hpre, h2⟩ := List.map_eq_append_iff.mp hsig
  obtain ⟨s, qs, hl2, hc, hpost⟩ := List.map_eq_cons_iff.mp h2
  subst hl2 hpre hpost
  rw [hl] at hlen hlt hdec
  have hp : ∀ x ∈ ps, x < 64 := fun x hx => hlt x (List.mem_append_left _ hx)
  have hs : s < 64 := hlt s (List.mem_append_right _ (List.mem_cons_self _ _))
  have hq : ∀ x ∈ qs, x < 64 :=
    fun x hx => hlt x (List.mem_append_right _ (List.mem_cons_of_mem _ hx))
  have hcs : decodeSextet c = some s := by rw [← hc]; exact decodeSextet_encodeSextet s hs
  have hD : DecodeSegment (String.mk (ps.map encodeSextet ++ c' :: qs.map encodeSextet)) =
      (if c' = '\r' ∨ c' = '\n' then some (ps ++ qs)
        else (decodeSextet c').map fun s' => ps ++ s' :: qs).bind bytesOfSextets := by
    unfold DecodeSegment
    rw [sextetsOfChars_replace ps qs c' hp hq]
  rw [hD]
  simp only [List.length_append, List.length_cons] at hlen
  constructor
  · rintro ⟨hpost, s1, s', h1, hd', h3⟩
    rw [hcs] at h1
    simp only [Option.some.injEq] at h1
    subst h1
    have hq0 : qs = [] := by simpa using hpost
    subst hq0
    have hnl : ¬ (c' = '\r' ∨ c' = '\n') := by
      rintro (h | h) <;> subst h <;> simp [decodeSextet, base64Alphabet] at hd'
    simp only [if_neg hnl, hd', Option.map_some', Option.some_bind]
    rw [← bytesOfSextets_last ps s s' (by simp at hlen; omega) h3]
    exact hdec
  · intro hn hb
    by_cases hnl : c' = '\r' ∨ c' = '\n'
    · simp only [if_pos hnl, Option.some_bind] at hb
      have := bytesOfSextets_length _ _ hb
      simp only [List.length_append] at this
      omega
    · simp only [if_neg hnl] at hb
      cases hd' : decodeSextet c' with
      | none => simp [hd'] at hb
      | some s' =>
        simp only [hd', Option.map_some', Option.some_bind] at hb
        obtain ⟨hs', hc'⟩ := decodeSextet_some c' s' hd'
        have hss : s ≠ s' := by
          intro e
          subst e
          exact hne (hc'.symm.trans hc)
        obtain ⟨hq0, hor⟩ := bytesOfSextets_change ps qs s s' mac hs hs' hss hdec hb
        subst hq0
        simp only [List.length_nil] at hlen
        apply hn
        refine ⟨by simp, s, s', hcs, hd', ?_⟩
        rcases hor with h | h
        · exact h.2
        · omega

/-- C7, counterexample: the signature segment of `sampleToken` ends in `Y`; with this
last character changed to `Z`, `Verify` accepts the token and returns its claims. With
the last character changed to `!`, `Verify` fails with the malformed-token error of the
library, which is not its invalid-signature error. -/
theorem Verify_accepts_changed_signature :
    sampleToken.signature = "CxAVGh8kKS4zOD1CR0xRVltgZWpvdHl-g4iNkpecoaY" ∧
    sampleManager.Verify sampleHMAC 2500000000 2500000000
      (sampleToken.withSignature "CxAVGh8kKS4zOD1CR0xRVltgZWpvdHl-g4iNkpecoaZ") =
      .ok (sessionClaims sampleManager 1500000000 1500000000 1500000000
        "u1" "bob" "bob@example.com" "user" true) ∧
    sampleManager.Verify sampleHMAC 2500000000 2500000000
      (sampleToken.withSignature "CxAVGh8kKS4zOD1CR0xRVltgZWpvdHl-g4iNkpecoa!") =
      .error .ErrTokenMalformed := by
  set_option maxRecDepth 100000 in
  decide

/-- C7, amended: for every token produced by `Generate` and every replacement of one
character of its signature segment by another character: when the character replaced
is the last one and the new character is a character of the base64 alphabet whose
6-bit value has the same four high-order bits, `Verify` does with the changed token
exactly what it does with the unchanged one (the two low-order bits of the last
character are unused, and the decoder ignores them); in every other case `Verify`
fails, with the invalid-signature error of the library, or with its malformed-token
error when the segment does not decode. -/
theorem Verify_signature_one_character_changed (h : HMAC) (manager : JWTManager)
    (nowExp nowIat nowNbf nowLib now : Time) (userID username email role : String)
    (isCreator : Bool) (pre post : List Char) (c c' : Char)
    (hsig : (manager.Generate h nowExp nowIat nowNbf userID username email role
      isCreator).signature.data = pre ++ c :: post)
    (hne : c' ≠ c) :
    (post = [] ∧ (∃ s s', decodeSextet c = some s ∧ decodeSextet c' = some s' ∧ s / 4 = s' / 4) →
      manager.Verify h nowLib now
        ((manager.Generate h nowExp nowIat nowNbf userID username email role
          isCreator).withSignature (String.mk (pre ++ c' :: post))) =
      manager.Verify h nowLib now
        (manager.Generate h nowExp nowIat nowNbf userID username email role isCreator)) ∧
    (¬ (post = [] ∧
        ∃ s s', decodeSextet c = some s ∧ decodeSextet c' = some s' ∧ s / 4 = s' / 4) →
      manager.Verify h nowLib now
        ((manager.Generate h nowExp nowIat nowNbf userID username email role
          isCreator).withSignature (String.mk (pre ++ c' :: post))) =
        .error .ErrTokenSignatureInvalid ∨
      manager.Verify h nowLib now
        ((manager.Generate h nowExp nowIat nowNbf userID username email role
          isCreator).withSignature (String.mk (pre ++ c' :: post))) =
        .error .ErrTokenMalformed) := by
  have hr := DecodeSegment_replace
    (h.sum .HS256 manager.secretKey (NewHeader .HS256)
      (sessionClaims manager nowExp nowIat nowNbf userID username email role isCreator).marshal)
    (h.size_HS256 _ _ _) pre post c c' hsig hne
  rw [Verify_signature]
  constructor
  · intro hc
    rw [hr.1 hc]
    simp
  · intro hc
    have := hr.2 hc
    cases hd : DecodeSegment (String.mk (pre ++ c' :: post)) with
    | none => exact Or.inr rfl
    | some b =>
      left
      have hb : b ≠ h.sum .HS256 manager.secretKey (NewHeader .HS256)
          (sessionClaims manager nowExp nowIat nowNbf userID username email role
            isCreator).marshal := by
        intro e
        rw [hd, e] at this
        exact this rfl
      simp [hb]

/-- C7, witness: the last character `Y` of the signature segment of `sampleToken`
replaced by `A`, whose 6-bit value has other high-order bits: `Verify` fails. -/
theorem Verify_signature_one_character_changed_witness :
    sampleManager.Verify sampleHMAC 2500000000 2500000000
      (sampleToken.withSignature
        (String.mk ("CxAVGh8kKS4zOD1CR0xRVltgZWpvdHl-g4iNkpecoa".data ++ 'A' :: []))) =
      .error .ErrTokenSignatureInvalid ∨
    sampleManager.Verify sampleHMAC 2500000000 2500000000
      (sampleToken.withSignature
        (String.mk ("CxAVGh8kKS4zOD1CR0xRVltgZWpvdHl-g4iNkpecoa".data ++ 'A' :: []))) =
      .error .ErrTokenMalformed :=
  (Verify_signature_one_character_changed sampleHMAC sampleManager 1500000000 1500000000
    1500000000 2500000000 2500000000 "u1" "bob" "bob@example.com" "user" true
    "CxAVGh8kKS4zOD1CR0xRVltgZWpvdHl-g4iNkpecoa".data [] 'Y' 'A'
    (by set_option maxRecDepth 100000 in decide) (by decide)).2
    (by
      rintro ⟨_, s, s', h1, h2, h3⟩
      have e1 : decodeSextet 'Y' = some 24 := by decide
      have e2 : decodeSextet 'A' = some 0 := by decide
      rw [e1] at h1
      rw [e2] at h2
      cases h1
      cases h2
      simp at h3)

/-! ## Authorization gates: lemmas -/

theorem bearer_fields (l : List String) :
    ¬ (l.length ≠ 2 ∨ l.getD 0 "" ≠ "Bearer") ↔ ∃ token, l = ["Bearer", token] := by
  constructor
  · intro h
    simp only [not_or, not_not] at h
    match l, h with
    | [a, b], ⟨_, h2⟩ =>
      simp only [List.getD_cons_zero] at h2
      exact ⟨b, by rw [h2]⟩
  · rintro ⟨token, rfl⟩
    simp

theorem Split_empty : Split "" ' ' = [""] := by
  decide

theorem AuthMiddleware_wellFormed (verify : String → Result Claims) (c : Context)
    (token : String) (h : Split c.Authorization ' ' = ["Bearer", token]) :
    AuthMiddleware verify c =
      match verify token with
      | .error _ => .abort StatusUnauthorized "Invalid or expired token" c
      | .panic => .panic
      | .ok claims => .next (c.setIdentity claims) := by
  have hne : c.Authorization ≠ "" := by
    intro e
    rw [e, Split_empty] at h
    simp at h
  unfold AuthMiddleware
  simp only [hne, if_false, h]
  simp

theorem AuthMiddleware_malformed (verify : String → Result Claims) (c : Context)
    (h : ¬ ∃ token, Split c.Authorization ' ' = ["Bearer", token]) :
    AuthMiddleware verify c =
        .abort StatusUnauthorized "Authorization header required" c ∨
      AuthMiddleware verify c =
        .abort StatusUnauthorized "Invalid authorization header format" c := by
  unfold AuthMiddleware
  by_cases he : c.Authorization = ""
  · simp [he]
  · right
    have := (bearer_fields (Split c.Authorization ' ')).not.mpr h
    simp only [not_not] at this
    simp only [he, if_false]
    rw [if_pos this]

theorem OptionalAuthMiddleware_wellFormed (verify : String → Result Claims) (c : Context)
    (token : String) (h : Split c.Authorization ' ' = ["Bearer", token]) :
    OptionalAuthMiddleware verify c =
      match verify token with
      | .error _ => .next c
      | .panic => .panic
      | .ok claims => .next (c.setIdentity claims) := by
  have hne : c.Authorization ≠ "" := by
    intro e
    rw [e, Split_empty] at h
    simp at h
  unfold OptionalAuthMiddleware
  simp only [hne, if_false, h]
  simp

theorem OptionalAuthMiddleware_malformed (verify : String → Result Claims) (c : Context)
    (h : ¬ ∃ token, Split c.Authorization ' ' = ["Bearer", token]) :
    OptionalAuthMiddleware verify c = .next c := by
  unfold OptionalAuthMiddleware
  by_cases he : c.Authorization = ""
  · simp [he]
  · have := (bearer_fields (Split c.Authorization ' ')).not.mpr h
    simp only [not_not] at this
    simp only [he, if_false]
    rw [if_pos this]

theorem setIdentity_isCreator (c : Context) (claims : Claims) :
    (c.setIdentity claims).Keys "isCreator" = some (.bool claims.IsCreator) := by
  simp [Context.setIdentity, Keys.Set]

theorem setIdentity_role (c : Context) (claims : Claims) :
    (c.setIdentity claims).Keys "role" = some (.str claims.Role) := by
  simp [Context.setIdentity, Keys.Set]

theorem splitChars_ne_nil (sep : Char) (l : List Char) : splitChars sep l ≠ [] := by
  cases l with
  | nil => simp [splitChars]
  | cons c cs =>
    unfold splitChars
    split_ifs
    · simp
    · cases splitChars sep cs <;> simp

theorem splitChars_no_sep (sep : Char) (w : List Char) (h : sep ∉ w) :
    splitChars sep w = [w] := by
  induction w with
  | nil => rfl
  | cons c cs ih =>
    have hc : c ≠ sep := fun e => h (by rw [e]; exact List.mem_cons_self _ _)
    have hcs : sep ∉ cs := fun e => h (List.mem_cons_of_mem _ e)
    unfold splitChars
    rw [if_neg hc, ih hcs]

theorem splitChars_append (sep : Char) (w rest : List Char) (h : sep ∉ w) :
    splitChars sep (w ++ sep :: rest) = w :: splitChars sep rest := by
  induction w with
  | nil => simp [splitChars]
  | cons c cs ih =>
    have hc : c ≠ sep := fun e => h (by rw [e]; exact List.mem_cons_self _ _)
    have hcs : sep ∉ cs := fun e => h (List.mem_cons_of_mem _ e)
    rw [List.cons_append, splitChars, if_neg hc, ih hcs]

theorem splitChars_single (sep : Char) (l b : List Char) (h : splitChars sep l = [b]) :
    l = b ∧ sep ∉ b := by
  induction l generalizing b with
  | nil =>
    simp only [splitChars, List.cons.injEq, and_true] at h
    subst h
    simp
  | cons c cs ih =>
    unfold splitChars at h
    split_ifs at h with hc
    · simp only [List.cons.injEq] at h
      exact absurd h.2 (splitChars_ne_nil sep cs)
    · cases hs : splitChars sep cs with
      | nil => exact absurd hs (splitChars_ne_nil sep cs)
      | cons w ws =>
        rw [hs] at h
        simp only [List.cons.injEq] at h
        obtain ⟨h1, h2⟩ := h
        subst h1 h2
        obtain ⟨e1, e2⟩ := ih w hs
        subst e1
        refine ⟨rfl, ?_⟩
        intro hm
        rcases List.mem_cons.mp hm with h3 | h3
        · exact hc h3.symm
        · exact e2 h3

theorem splitChars_pair (sep : Char) (l a b : List Char) (h : splitChars sep l = [a, b]) :
    l = a ++ sep :: b ∧ sep ∉ a ∧ sep ∉ b := by
  induction l generalizing a with
  | nil => simp [splitChars] at h
  | cons c cs ih =>
    unfold splitChars at h
    split_ifs at h with hc
    · simp only [List.cons.injEq] at h
      obtain ⟨h1, h2⟩ := h
      subst h1
      obtain ⟨e1, e2⟩ := splitChars_single sep cs b h2
      subst e1 hc
      exact ⟨rfl, by simp, e2⟩
    · cases hs : splitChars sep cs with
      | nil => exact absurd hs (splitChars_ne_nil sep cs)
      | cons w ws =>
        rw [hs] at h
        simp only [List.cons.injEq] at h
        obtain ⟨h1, h2⟩ := h
        subst h1 h2
        obtain ⟨e1, e2, e3⟩ := ih w hs
        refine ⟨by rw [e1]; rfl, ?_, e3⟩
        intro hm
        rcases List.mem_cons.mp hm with h3 | h3
        · exact hc h3.symm
        · exact e2 h3

/-- A header value splits at single spaces into the two fields `Bearer` and `token`
exactly when it is `Bearer`, one space and a token without a space. -/
theorem Split_bearer_iff (s token : String) :
    Split s ' ' = ["Bearer", token] ↔ s = "Bearer " ++ token ∧ ' ' ∉ token.data := by
  constructor
  · intro h
    unfold Split at h
    cases hl : splitChars ' ' s.data with
    | nil => rw [hl] at h; simp at h
    | cons a rest =>
      cases rest with
      | nil => rw [hl] at h; simp at h
      | cons b rest2 =>
        cases rest2 with
        | cons x y => rw [hl] at h; simp at h
        | nil =>
          rw [hl] at h
          simp only [List.map_cons, List.map_nil, List.cons.injEq, and_true] at h
          obtain ⟨h1, h2⟩ := h
          obtain ⟨e1, _, e3⟩ := splitChars_pair ' ' s.data a b hl
          have ha : a = "Bearer".data := by rw [← h1]
          have hb : b = token.data := by rw [← h2]
          subst ha hb
          refine ⟨?_, e3⟩
          apply String.ext
          rw [e1, String.data_append]
          rfl
  · rintro ⟨h1, h2⟩
    unfold Split
    have e : s.data = "Bearer".data ++ ' ' :: token.data := by
      rw [h1, String.data_append]
      rfl
    rw [e, splitChars_append ' ' _ _ (by decide), splitChars_no_sep ' ' _ h2]
    rfl


theorem listed_headers_malformed (s : String)
    (hs : s ∈ ["", "Bearer", "bearer abc", "Basic abc", "Bearer a b", "Bearer  abc"]) :
    ¬ ∃ token, Split s ' ' = ["Bearer", token] := by
  rintro ⟨token, ht⟩
  simp only [List.mem_cons, List.mem_singleton, List.not_mem_nil, or_false] at hs
  rcases hs with h | h | h | h | h | h <;> subst h
  · rw [show Split "" ' ' = [""] by decide] at ht
    simp at ht
  · rw [show Split "Bearer" ' ' = ["Bearer"] by decide] at ht
    simp at ht
  · rw [show Split "bearer abc" ' ' = ["bearer", "abc"] by decide] at ht
    simp at ht
  · rw [show Split "Basic abc" ' ' = ["Basic", "abc"] by decide] at ht
    simp at ht
  · rw [show Split "Bearer a b" ' ' = ["Bearer", "a", "b"] by decide] at ht
    simp at ht
  · rw [show Split "Bearer  abc" ' ' = ["Bearer", "", "abc"] by decide] at ht
    simp at ht

/-! ## Authorization gates: the claims -/

/-- C8: `AuthMiddleware` forwards a request exactly when its `Authorization` header,
split at single spaces, has exactly the two fields `Bearer` and a token on which
`Verify` succeeds, that is, when the header is `Bearer`, one space and a token without
a space that `Verify` accepts (and then it forwards with the identity attached). For
every other header (empty, another scheme such as `bearer` or `Basic`, one field, three
or more fields) and for every token on which `Verify` returns an error it aborts with
status 401. -/
theorem AuthMiddleware_forwards_iff (verify : String → Result Claims) (c : Context) :
    (∀ token, Split c.Authorization ' ' = ["Bearer", token] ↔
      c.Authorization = "Bearer " ++ token ∧ ' ' ∉ token.data) ∧
    (∀ c', AuthMiddleware verify c = .next c' ↔
      ∃ token claims, c.Authorization = "Bearer " ++ token ∧ ' ' ∉ token.data ∧
        verify token = .ok claims ∧ c' = c.setIdentity claims) ∧
    (∀ c', AuthMiddleware verify c = .next c' ↔
      ∃ token claims, Split c.Authorization ' ' = ["Bearer", token] ∧
        verify token = .ok claims ∧ c' = c.setIdentity claims) ∧
    ((¬ ∃ token, c.Authorization = "Bearer " ++ token ∧ ' ' ∉ token.data) →
      ∃ msg, AuthMiddleware verify c = .abort 401 msg c) ∧
    ((¬ ∃ token, Split c.Authorization ' ' = ["Bearer", token]) →
      ∃ msg, AuthMiddleware verify c = .abort 401 msg c) ∧
    (∀ token e, c.Authorization = "Bearer " ++ token → ' ' ∉ token.data →
      verify token = .error e →
      AuthMiddleware verify c = .abort 401 "Invalid or expired token" c) ∧
    (∀ token e, Split c.Authorization ' ' = ["Bearer", token] → verify token = .error e →
      AuthMiddleware verify c = .abort 401 "Invalid or expired token" c) ∧
    (c.Authorization ∈ ["", "Bearer", "bearer abc", "Basic abc", "Bearer a b",
        "Bearer  abc"] →
      ∃ msg, AuthMiddleware verify c = .abort 401 msg c) ∧
    (c.Authorization = "Bearer abc" → ∀ claims, verify "abc" = .ok claims →
      AuthMiddleware verify c = .next (c.setIdentity claims)) := by
  have hsplit : ∀ c', AuthMiddleware verify c = .next c' ↔
      ∃ token claims, Split c.Authorization ' ' = ["Bearer", token] ∧
        verify token = .ok claims ∧ c' = c.setIdentity claims := by
    intro c'
    constructor
    · intro h
      by_cases hw : ∃ token, Split c.Authorization ' ' = ["Bearer", token]
      · obtain ⟨token, ht⟩ := hw
        rw [AuthMiddleware_wellFormed verify c token ht] at h
        cases hv : verify token with
        | ok claims =>
          simp only [hv, Outcome.next.injEq] at h
          exact ⟨token, claims, ht, hv, h.symm⟩
        | error e => simp [hv] at h
        | panic => simp [hv] at h
      · rcases AuthMiddleware_malformed verify c hw with h1 | h1 <;> rw [h1] at h <;>
          exact Outcome.noConfusion h
    · rintro ⟨token, claims, ht, hv, rfl⟩
      rw [AuthMiddleware_wellFormed verify c token ht, hv]
  have hmal : (¬ ∃ token, Split c.Authorization ' ' = ["Bearer", token]) →
      ∃ msg, AuthMiddleware verify c = .abort 401 msg c := by
    intro hw
    rcases AuthMiddleware_malformed verify c hw with h1 | h1
    · exact ⟨_, h1⟩
    · exact ⟨_, h1⟩
  have herr : ∀ token e, Split c.Authorization ' ' = ["Bearer", token] →
      verify token = .error e →
      AuthMiddleware verify c = .abort 401 "Invalid or expired token" c := by
    intro token e ht hv
    rw [AuthMiddleware_wellFormed verify c token ht, hv]
    rfl
  refine ⟨fun token => Split_bearer_iff _ token, ?_, hsplit, ?_, hmal, ?_, herr, ?_, ?_⟩
  · intro c'
    rw [hsplit c']
    constructor
    · rintro ⟨token, claims, ht, hv, hc⟩
      obtain ⟨h1, h2⟩ := (Split_bearer_iff _ token).mp ht
      exact ⟨token, claims, h1, h2, hv, hc⟩
    · rintro ⟨token, claims, h1, h2, hv, hc⟩
      exact ⟨token, claims, (Split_bearer_iff _ token).mpr ⟨h1, h2⟩, hv, hc⟩
  · intro hw
    apply hmal
    rintro ⟨token, ht⟩
    exact hw ⟨token, (Split_bearer_iff _ token).mp ht⟩
  · intro token e h1 h2 hv
    exact herr token e ((Split_bearer_iff _ token).mpr ⟨h1, h2⟩) hv
  · intro hs
    exact hmal (listed_headers_malformed _ hs)
  · intro hh claims hv
    have ht : Split c.Authorization ' ' = ["Bearer", "abc"] := by
      rw [hh]
      decide
    rw [AuthMiddleware_wellFormed verify c "abc" ht, hv]

/-- C10: `CreatorOnlyMiddleware` decides by the value of `isCreator` in the request
context: without a value it aborts with 401, with the value false it aborts with 403,
with the value true it forwards. Hence, on a request whose bearer token was generated
with the flag `isCreator` and is verified inside its validity window,
`AuthMiddleware` followed by `CreatorOnlyMiddleware` aborts with 403 when the flag is
false and forwards when it is true. -/
theorem CreatorOnlyMiddleware_decides (wire : String → Option Token) (h : HMAC)
    (manager : JWTManager) (nowExp nowIat nowNbf nowLib now : Time)
    (userID username email role : String) (isCreator : Bool) (tokenString : String)
    (c : Context)
    (hheader : Split c.Authorization ' ' = ["Bearer", tokenString])
    (hwire : wire tokenString =
      some (manager.Generate h nowExp nowIat nowNbf userID username email role isCreator))
    (hnbf : NewNumericDate nowNbf ≤ nowLib) (hord : nowLib ≤ now)
    (hexp : now < NewNumericDate (nowExp + manager.tokenDuration)) :
    (∀ c0 : Context, c0.Keys "isCreator" = none →
      CreatorOnlyMiddleware c0 = .abort 401 "Authentication required" c0) ∧
    (∀ c0 : Context, c0.Keys "isCreator" = some (.bool false) →
      CreatorOnlyMiddleware c0 = .abort 403 "Creator access required" c0) ∧
    (∀ c0 : Context, c0.Keys "isCreator" = some (.bool true) →
      CreatorOnlyMiddleware c0 = .next c0) ∧
    runChain [AuthMiddleware (manager.VerifyString wire h nowLib now), CreatorOnlyMiddleware] c =
      if isCreator then
        .next (c.setIdentity
          (sessionClaims manager nowExp nowIat nowNbf userID username email role isCreator))
      else
        .abort 403 "Creator access required" (c.setIdentity
          (sessionClaims manager nowExp nowIat nowNbf userID username email role isCreator)) := by
  refine ⟨?_, ?_, ?_, ?_⟩
  · intro c0 h0
    simp [CreatorOnlyMiddleware, h0, StatusUnauthorized]
  · intro c0 h0
    simp [CreatorOnlyMiddleware, h0, StatusForbidden]
  · intro c0 h0
    simp [CreatorOnlyMiddleware, h0]
  · have hv : manager.VerifyString wire h nowLib now tokenString =
        .ok (sessionClaims manager nowExp nowIat nowNbf userID username email role
          isCreator) := by
      unfold JWTManager.VerifyString
      rw [hwire]
      simp only []
      rw [Verify_Generate]
      exact afterParse_ok _ _ _ _ _ hnbf (lt_of_le_of_lt hord hexp) (le_of_lt hexp)
    have ha := AuthMiddleware_wellFormed (manager.VerifyString wire h nowLib now) c tokenString
      hheader
    rw [hv] at ha
    simp only [runChain, ha]
    have hk := setIdentity_isCreator c
      (sessionClaims manager nowExp nowIat nowNbf userID username email role isCreator)
    have hi : (sessionClaims manager nowExp nowIat nowNbf userID username email role
      isCreator).IsCreator = isCreator := rfl
    rw [hi] at hk
    cases isCreator <;> simp [CreatorOnlyMiddleware, hk, StatusForbidden]

/-- C10, witness: a request with the header `Bearer abc`, where `abc` stands for the
token the manager of `main` generated for a caller who is not a creator: the two gates
abort with status 403. -/
theorem CreatorOnlyMiddleware_decides_witness :
    runChain
      [AuthMiddleware (sampleManager.VerifyString
        (fun _ => some (sampleManager.Generate sampleHMAC 1500000000 1500000000 1500000000
          "u2" "eve" "eve@example.com" "user" false))
        sampleHMAC 2500000000 2500000000),
       CreatorOnlyMiddleware] (requestWith "Bearer abc") =
      .abort 403 "Creator access required" ((requestWith "Bearer abc").setIdentity
        (sessionClaims sampleManager 1500000000 1500000000 1500000000
          "u2" "eve" "eve@example.com" "user" false)) :=
  (CreatorOnlyMiddleware_decides
    (fun _ => some (sampleManager.Generate sampleHMAC 1500000000 1500000000 1500000000
      "u2" "eve" "eve@example.com" "user" false))
    sampleHMAC sampleManager 1500000000 1500000000 1500000000 2500000000 2500000000
    "u2" "eve" "eve@example.com" "user" false "abc" (requestWith "Bearer abc")
    (by decide) rfl (by decide) (by decide) (by decide)).2.2.2

/-- C11: `AdminOnlyMiddleware` forwards a request exactly when the context holds a
`role` value equal to the string `"admin"`; the comparison is exact, so the role
`"Admin"` is refused. It aborts with 403 for every other role string and with 401 when
no role is present. -/
theorem AdminOnlyMiddleware_decides (c : Context) :
    ((∃ c', AdminOnlyMiddleware c = .next c') ↔ c.Keys "role" = some (.str "admin")) ∧
    (c.Keys "role" = some (.str "admin") → AdminOnlyMiddleware c = .next c) ∧
    (∀ role, c.Keys "role" = some (.str role) → role ≠ "admin" →
      AdminOnlyMiddleware c = .abort 403 "Admin access required" c) ∧
    (c.Keys "role" = some (.str "Admin") →
      AdminOnlyMiddleware c = .abort 403 "Admin access required" c) ∧
    (c.Keys "role" = none → AdminOnlyMiddleware c = .abort 401 "Authentication required" c) := by
  refine ⟨?_, ?_, ?_, ?_, ?_⟩
  · constructor
    · rintro ⟨c', h⟩
      unfold AdminOnlyMiddleware at h
      cases hk : c.Keys "role" with
      | none => simp [hk] at h
      | some v =>
        cases v with
        | str role =>
          by_cases hr : role = "admin"
          · rw [hr]
          · simp [hk, hr] at h
        | bool b => simp [hk] at h
        | claims cl => simp [hk] at h
    · intro h
      exact ⟨c, by simp [AdminOnlyMiddleware, h]⟩
  · intro h
    simp [AdminOnlyMiddleware, h]
  · intro role h hr
    simp [AdminOnlyMiddleware, h, hr, StatusForbidden]
  · intro h
    simp [AdminOnlyMiddleware, h, StatusForbidden]
  · intro h
    simp [AdminOnlyMiddleware, h, StatusUnauthorized]

/-! ## Limiter: sequences of calls -/

theorem Time.Sub_self (t : Time) : Time.Sub t t = 0 := by
  simp [Time.Sub, maxDuration, minDuration]

theorem Time.Sub_lt_of_sub_lt (now t : Time) (w : Duration) (hw : 0 < w) (h : now - t < w) :
    Time.Sub now t < w := by
  unfold Time.Sub maxDuration minDuration
  unfold Time Duration at *
  split_ifs <;> omega

theorem Time.Sub_ge_of_sub_ge (now t : Time) (w : Duration) (hmax : w ≤ maxDuration)
    (h : w ≤ now - t) : ¬ Time.Sub now t < w := by
  unfold Time.Sub maxDuration minDuration
  unfold maxDuration at hmax
  unfold Time Duration at *
  split_ifs <;> omega

theorem RateLimiter.run_append (rl : RateLimiter) (a b : List (Time × String)) :
    rl.run (a ++ b) = ((rl.run a).1 ++ ((rl.run a).2.run b).1, ((rl.run a).2.run b).2) := by
  induction a generalizing rl with
  | nil => simp [RateLimiter.run]
  | cons x a ih =>
    obtain ⟨now, key⟩ := x
    have e := ih (rl.Allow now key).2
    simp only [List.cons_append, RateLimiter.run]
    rw [show a.append b = a ++ b from rfl, e]

theorem RateLimiter.pruned_replicate_same (rl : RateLimiter) (t0 : Time) (k : String) (i : Nat)
    (hw : 0 < rl.window) (hget : rl.requests.get k = List.replicate i t0) :
    rl.pruned t0 k = List.replicate i t0 := by
  unfold RateLimiter.pruned
  rw [hget, List.filter_eq_self]
  intro a ha
  rw [List.eq_of_mem_replicate ha]
  simp [RateLimiter.inWindow, Time.Sub_self, hw]

theorem RateLimiter.pruned_replicate_old (rl : RateLimiter) (t0 t : Time) (k : String) (i : Nat)
    (hmax : rl.window ≤ maxDuration) (ht : t0 + rl.window ≤ t)
    (hget : rl.requests.get k = List.replicate i t0) :
    rl.pruned t k = [] := by
  unfold RateLimiter.pruned
  rw [hget, List.filter_eq_nil_iff]
  intro a ha
  rw [List.eq_of_mem_replicate ha]
  have : rl.window ≤ t - t0 := by
    unfold Time Duration at *
    omega
  simpa [RateLimiter.inWindow] using Time.Sub_ge_of_sub_ge t t0 rl.window hmax this

theorem RateLimiter.set_get (rl : RateLimiter) (key : String) (v : List Time) :
    ({ rl with requests := rl.requests.set key v } : RateLimiter).requests.get key = v := by
  simp [Requests.get, Requests.set]

/-- Calls for one key at one instant on a limiter whose entry for the key holds `i`
timestamps of that instant: as long as the limit is not reached they all return true
and each adds the instant to the entry. -/
theorem RateLimiter.run_same_instant (t0 : Time) (k : String) (m : Nat) :
    ∀ (rl : RateLimiter) (i : Nat), 0 < rl.window →
      rl.requests.get k = List.replicate i t0 → ((i + m : Nat) : Int) ≤ rl.limit →
      (rl.run (List.replicate m (t0, k))).1 = List.replicate m true ∧
      (rl.run (List.replicate m (t0, k))).2.requests.get k = List.replicate (i + m) t0 ∧
      (rl.run (List.replicate m (t0, k))).2.limit = rl.limit ∧
      (rl.run (List.replicate m (t0, k))).2.window = rl.window := by
  induction m with
  | zero =>
    intro rl i _ hget _
    simp [RateLimiter.run, hget]
  | succ m ih =>
    intro rl i hw hget hlim
    have hp := RateLimiter.pruned_replicate_same rl t0 k i hw hget
    have hlt : ¬ ((rl.pruned t0 k).length : Int) ≥ rl.limit := by
      rw [hp, List.length_replicate]
      push_cast at hlim ⊢
      omega
    have ha : rl.Allow t0 k =
        (true, { rl with requests := rl.requests.set k (rl.pruned t0 k ++ [t0]) }) := by
      rw [RateLimiter.Allow_eq, if_neg hlt]
    have hget1 : ({ rl with requests := rl.requests.set k (rl.pruned t0 k ++ [t0]) } :
        RateLimiter).requests.get k = List.replicate (i + 1) t0 := by
      rw [RateLimiter.set_get, hp, List.replicate_succ']
    have := ih { rl with requests := rl.requests.set k (rl.pruned t0 k ++ [t0]) } (i + 1) hw hget1
      (by push_cast at hlim ⊢; omega)
    simp only [List.replicate_succ, RateLimiter.run, ha]
    refine ⟨by rw [this.1], ?_, this.2.2.1, this.2.2.2⟩
    rw [this.2.1]
    congr 1
    omega

/-! ## Limiter: the claims on sequences and on the boundary -/

/-- C12: for every limit `n ≥ 1` and window `w > 0` (a `time.Duration`, so at most
`maxDuration`): on the limiter `NewRateLimiter(n, w)`, `n` calls `Allow(k)` at one
instant `t0` all return true, the next call at `t0` returns false, and a following call
at any instant `t` at or after `t0 + w` returns true. -/
theorem Allow_burst_then_window (n : Nat) (w : Duration) (t0 t : Time) (k : String)
    (hn : 1 ≤ n) (hw : 0 < w) (hmax : w ≤ maxDuration) (ht : t0 + w ≤ t) :
    ((NewRateLimiter n w).run (List.replicate n (t0, k) ++ [(t0, k), (t, k)])).1 =
      List.replicate n true ++ [false, true] := by
  have hfresh : (NewRateLimiter n w).requests.get k = List.replicate 0 t0 := rfl
  obtain ⟨h1, h2, h3, h4⟩ := RateLimiter.run_same_instant t0 k n (NewRateLimiter n w) 0 hw hfresh
    (by simp [NewRateLimiter])
  rw [RateLimiter.run_append]
  show ((NewRateLimiter n w).run (List.replicate n (t0, k))).1 ++
    (((NewRateLimiter n w).run (List.replicate n (t0, k))).2.run [(t0, k), (t, k)]).1 = _
  rw [h1]
  congr 1
  generalize ((NewRateLimiter n w).run (List.replicate n (t0, k))).2 = rl at h2 h3 h4
  have hl : rl.limit = n := h3
  have hwin : rl.window = w := h4
  simp only [Nat.zero_add] at h2
  have hp := RateLimiter.pruned_replicate_same rl t0 k n (by rw [hwin]; exact hw) h2
  have hge : ((rl.pruned t0 k).length : Int) ≥ rl.limit := by
    rw [hp, List.length_replicate, hl]
  have ha : rl.Allow t0 k = (false, rl.afterPrune t0 k) := by
    rw [RateLimiter.Allow_eq, if_pos hge]
  have hget2 : (rl.afterPrune t0 k).requests.get k = List.replicate n t0 := by
    rw [RateLimiter.afterPrune_get, hp]
  have hlim2 := RateLimiter.afterPrune_limit rl t0 k
  have hp2 := RateLimiter.pruned_replicate_old (rl.afterPrune t0 k) t0 t k n
    (by rw [hlim2.2, hwin]; exact hmax) (by rw [hlim2.2, hwin]; exact ht) hget2
  have hlt : ¬ (((rl.afterPrune t0 k).pruned t k).length : Int) ≥ (rl.afterPrune t0 k).limit := by
    rw [hp2, hlim2.1, hl]
    simp only [List.length_nil]
    push_cast
    omega
  simp only [RateLimiter.run, ha]
  rw [RateLimiter.Allow_eq, if_neg hlt]

/-- C12, witness: the case of the specification, limit 3 and a window of 60 seconds:
three calls at 0 s return true, a fourth returns false, and a call at 60 s returns
true. -/
theorem Allow_burst_then_window_witness :
    ((NewRateLimiter (3 : Nat) (60 * Second)).run
      (List.replicate 3 (0, "k") ++ [(0, "k"), (60 * Second, "k")])).1 =
      List.replicate 3 true ++ [false, true] :=
  Allow_burst_then_window 3 (60 * Second) 0 (60 * Second) "k" (by decide) (by decide)
    (by decide) (by decide)

/-- C13: the boundary of the window is strict. For every limit at least 1 and window
`w > 0` (a `time.Duration`, so at most `maxDuration`): when the timestamps stored for
the key are all exactly `w` old at `now` (however many they are, so also when they are
exactly `limit`), `Allow(key)` at `now` returns true and they are dropped; when at least
`limit` of the stored timestamps are less than `w` old, `Allow(key)` returns false. -/
theorem Allow_window_boundary (rl : RateLimiter) (now : Time) (key : String)
    (hl : 1 ≤ rl.limit) (hw : 0 < rl.window) (hmax : rl.window ≤ maxDuration) :
    ((∀ t ∈ rl.requests.get key, now - t = rl.window) →
      (rl.Allow now key).1 = true ∧ (rl.Allow now key).2.requests key = some [now]) ∧
    (rl.limit ≤ (((rl.requests.get key).countP fun t => decide (now - t < rl.window) : Nat) : Int) →
      (rl.Allow now key).1 = false) := by
  constructor
  · intro hall
    have hp : rl.pruned now key = [] := by
      unfold RateLimiter.pruned
      rw [List.filter_eq_nil_iff]
      intro a ha
      have := Time.Sub_ge_of_sub_ge now a rl.window hmax (le_of_eq (hall a ha).symm)
      simpa [RateLimiter.inWindow] using this
    have ht : (rl.Allow now key).1 = true := by
      rw [RateLimiter.Allow_fst, hp]
      simp only [List.length_nil]
      push_cast
      omega
    refine ⟨ht, ?_⟩
    rw [RateLimiter.Allow_true_requests rl now key ht, hp, Requests.set_same]
    rfl
  · intro hc
    have hle : ((rl.requests.get key).countP fun t => decide (now - t < rl.window)) ≤
        (rl.pruned now key).length := by
      unfold RateLimiter.pruned
      rw [← List.countP_eq_length_filter]
      apply List.countP_mono_left
      intro a _ ha
      have h1 : now - a < rl.window := by simpa using ha
      simpa [RateLimiter.inWindow] using Time.Sub_lt_of_sub_lt now a rl.window hw h1
    cases hb : (rl.Allow now key).1 with
    | false => rfl
    | true =>
      have := (RateLimiter.Allow_fst rl now key).mp hb
      omega

/-- C13, witness: on `boundaryLimiter` the one stored timestamp, of 40 s, is exactly one
window old at 100 s, and `Allow("k")` at 100 s returns true; one nanosecond earlier it
returns false. -/
theorem Allow_window_boundary_witness :
    ((boundaryLimiter.Allow (100 * Second) "k").1 = true ∧
      (boundaryLimiter.Allow (100 * Second) "k").2.requests "k" = some [100 * Second]) ∧
    (boundaryLimiter.Allow (100 * Second - 1) "k").1 = false :=
  ⟨(Allow_window_boundary boundaryLimiter (100 * Second) "k" (by decide) (by decide)
      (by decide)).1 (by decide),
   (Allow_window_boundary boundaryLimiter (100 * Second - 1) "k" (by decide) (by decide)
      (by decide)).2 (by decide)⟩

/-! ## Token manager: the time claims -/

theorem NewNumericDate_le (t : Time) : NewNumericDate t ≤ t ∧ t - Second < NewNumericDate t := by
  unfold NewNumericDate Second Time Duration
  omega

theorem NewNumericDate_add_seconds (t : Time) (d : Duration) (hd : d % Second = 0) :
    NewNumericDate (t + d) = NewNumericDate t + d := by
  unfold NewNumericDate Second Time Duration at *
  omega

theorem NewNumericDate_of_whole (t : Time) (ht : t % Second = 0) : NewNumericDate t = t := by
  unfold NewNumericDate Second Time Duration at *
  omega

theorem Generate_payload (h : HMAC) (manager : JWTManager) (nowExp nowIat nowNbf : Time)
    (userID username email role : String) (isCreator : Bool) :
    Claims.unmarshal
        (manager.Generate h nowExp nowIat nowNbf userID username email role isCreator).payload =
      some (sessionClaims manager nowExp nowIat nowNbf userID username email role isCreator) :=
  Claims.unmarshal_marshal _ (sessionClaims_aligned ..)

theorem GenerateRefreshToken_payload (h : HMAC) (manager : JWTManager)
    (nowExp nowIat nowNbf : Time) (userID : String) :
    RegisteredClaims.unmarshal
        (manager.GenerateRefreshToken h nowExp nowIat nowNbf userID).payload =
      some (refreshClaims nowExp nowIat nowNbf userID) :=
  RegisteredClaims.unmarshal_own_marshal _ (refreshClaims_aligned ..)

/-- C15, counterexample: the token the manager of `main` generates at 1.5 s carries the
issued-at instant 1 s, which is not the clock time; and the token a manager with a
duration of 1.5 s generates at 0.6 s carries issued-at 0 s and expires-at 2 s, whose
difference is not the duration. -/
theorem Generate_issued_at_is_not_now :
    Claims.unmarshal sampleToken.payload =
      some (sessionClaims sampleManager 1500000000 1500000000 1500000000
        "u1" "bob" "bob@example.com" "user" true) ∧
    (sessionClaims sampleManager 1500000000 1500000000 1500000000
      "u1" "bob" "bob@example.com" "user" true).Registered.IssuedAt = some 1000000000 ∧
    (1000000000 : Time) ≠ 1500000000 ∧
    (sessionClaims fractionalManager 600000000 600000000 600000000
      "u1" "bob" "bob@example.com" "user" true).Registered.IssuedAt = some 0 ∧
    (sessionClaims fractionalManager 600000000 600000000 600000000
      "u1" "bob" "bob@example.com" "user" true).Registered.ExpiresAt = some 2000000000 ∧
    (2000000000 : Time) - 0 ≠ fractionalManager.tokenDuration := by
  set_option maxRecDepth 100000 in
  decide

/-- C15, amended: for every call of `Generate` on a manager with token duration `d`,
the claims of the token have issued-at, not-before and expires-at equal to the instants
read for them, each truncated to the whole second (the last after adding `d`). When the
clock is read at one instant `now`: expires-at minus issued-at equals `d` exactly when
`d` is a whole number of seconds, and differs from `d` by less than a second in every
case; the three claims are `now`, `now` and `now + d` when `now` and `d` are whole
seconds. -/
theorem Generate_time_claims (h : HMAC) (manager : JWTManager) (nowExp nowIat nowNbf : Time)
    (userID username email role : String) (isCreator : Bool) :
    (∃ claims : Claims,
      Claims.unmarshal
        (manager.Generate h nowExp nowIat nowNbf userID username email role isCreator).payload =
        some claims ∧
      claims.Registered.IssuedAt = some (NewNumericDate nowIat) ∧
      claims.Registered.NotBefore = some (NewNumericDate nowNbf) ∧
      claims.Registered.ExpiresAt = some (NewNumericDate (nowExp + manager.tokenDuration))) ∧
    (∀ now : Time, manager.tokenDuration % Second = 0 →
      NewNumericDate (now + manager.tokenDuration) - NewNumericDate now =
        manager.tokenDuration) ∧
    (∀ now : Time,
      manager.tokenDuration - Second <
        NewNumericDate (now + manager.tokenDuration) - NewNumericDate now ∧
      NewNumericDate (now + manager.tokenDuration) - NewNumericDate now <
        manager.tokenDuration + Second) ∧
    (∀ now : Time, now % Second = 0 → manager.tokenDuration % Second = 0 →
      NewNumericDate now = now ∧
      NewNumericDate (now + manager.tokenDuration) = now + manager.tokenDuration) := by
  refine ⟨⟨_, Generate_payload h manager nowExp nowIat nowNbf userID username email role
    isCreator, rfl, rfl, rfl⟩, ?_, ?_, ?_⟩
  · intro now hd
    rw [NewNumericDate_add_seconds now _ hd]
    unfold Time Duration
    omega
  · intro now
    have h1 := NewNumericDate_le now
    have h2 := NewNumericDate_le (now + manager.tokenDuration)
    unfold Time Duration at *
    omega
  · intro now hn hd
    rw [NewNumericDate_add_seconds now _ hd, NewNumericDate_of_whole now hn]
    exact ⟨rfl, rfl⟩

/-- C17, counterexample: the renewal token generated at 1.5 s carries the expires-at
instant 2592001 s, which is not 1.5 s plus 30 days; and `VerifyRefreshToken` called at
2592001.2 s, less than 30 days after 1.5 s, fails. -/
theorem VerifyRefreshToken_fails_within_30_days :
    RegisteredClaims.unmarshal
      (sampleManager.GenerateRefreshToken sampleHMAC 1500000000 1500000000 1500000000
        "u1").payload =
      some { Subject := "u1", ExpiresAt := some (2592001 * Second),
             IssuedAt := some (1 * Second), NotBefore := some (1 * Second) } ∧
    (2592001 * Second : Time) ≠ 1500000000 + 30 * 24 * 3600 * Second ∧
    (2592001200000000 : Time) < 1500000000 + 30 * 24 * 3600 * Second ∧
    sampleManager.VerifyRefreshToken sampleHMAC 2592001200000000 2592001200000000
      (sampleManager.GenerateRefreshToken sampleHMAC 1500000000 1500000000 1500000000 "u1") =
      .error (.ErrTokenInvalidClaims true false) := by
  set_option maxRecDepth 100000 in
  decide

/-- C17, amended: for every subject `s`, the token `GenerateRefreshToken(s)` returns
carries only the subject and the three temporal fields, with expires-at equal to the
instant read for it truncated to the whole second, plus 30 days (2 592 000 seconds).
`VerifyRefreshToken` on it, with the same secret, returns exactly `s` when its two
clock reads are at or after not-before and before expires-at, and fails when its
first read is at or after expires-at, so at every time more than 30 days after the
token was generated. -/
theorem VerifyRefreshToken_GenerateRefreshToken_window (h : HMAC) (manager : JWTManager)
    (nowExp nowIat nowNbf : Time) (s : String) :
    (∀ kv ∈ (manager.GenerateRefreshToken h nowExp nowIat nowNbf s).payload,
      kv.1 ∈ ["sub", "exp", "nbf", "iat"]) ∧
    RegisteredClaims.unmarshal (manager.GenerateRefreshToken h nowExp nowIat nowNbf s).payload =
      some { Subject := s, ExpiresAt := some (NewNumericDate nowExp + 2592000 * Second),
             IssuedAt := some (NewNumericDate nowIat),
             NotBefore := some (NewNumericDate nowNbf) } ∧
    (∀ nowLib now : Time, NewNumericDate nowNbf ≤ nowLib → nowLib ≤ now →
      now < NewNumericDate nowExp + 2592000 * Second →
      manager.VerifyRefreshToken h nowLib now
        (manager.GenerateRefreshToken h nowExp nowIat nowNbf s) = .ok s) ∧
    (∀ nowLib now : Time, NewNumericDate nowExp + 2592000 * Second ≤ nowLib →
      ∃ e, manager.VerifyRefreshToken h nowLib now
        (manager.GenerateRefreshToken h nowExp nowIat nowNbf s) = .error e) ∧
    (∀ nowLib now : Time, nowExp + 2592000 * Second < nowLib →
      ∃ e, manager.VerifyRefreshToken h nowLib now
        (manager.GenerateRefreshToken h nowExp nowIat nowNbf s) = .error e) := by
  have hexp : NewNumericDate (nowExp + refreshDuration) =
      NewNumericDate nowExp + 2592000 * Second := by
    rw [NewNumericDate_add_seconds nowExp refreshDuration (by decide)]
    rfl
  refine ⟨?_, ?_, ?_, ?_, ?_⟩
  · intro kv hkv
    have hk : kv ∈ (refreshClaims nowExp nowIat nowNbf s).marshal := hkv
    have e : (refreshClaims nowExp nowIat nowNbf s).marshal =
        marshalOmitEmpty "sub" s ++
          [("exp", JSON.num (NewNumericDate (nowExp + refreshDuration) / Second)),
           ("nbf", JSON.num (NewNumericDate nowNbf / Second)),
           ("iat", JSON.num (NewNumericDate nowIat / Second))] := by
      simp [RegisteredClaims.marshal, refreshClaims, marshalOmitEmpty, marshalDate]
    rw [e] at hk
    unfold marshalOmitEmpty at hk
    split at hk <;> simp only [List.nil_append, List.cons_append, List.mem_cons,
      List.mem_singleton, List.not_mem_nil, or_false] at hk <;> casesm* _ ∨ _ <;>
      simp_all
  · rw [GenerateRefreshToken_payload, refreshClaims, hexp]
  · intro nowLib now h1 h2 h3
    rw [VerifyRefreshToken_GenerateRefreshToken, hexp]
    exact afterParse_ok _ _ _ _ _ h1 (lt_of_le_of_lt h2 h3) (le_of_lt h3)
  · intro nowLib now h1
    rw [VerifyRefreshToken_GenerateRefreshToken, hexp]
    exact ⟨_, afterParse_expired _ _ _ _ _ h1⟩
  · intro nowLib now h1
    rw [VerifyRefreshToken_GenerateRefreshToken, hexp]
    refine ⟨_, afterParse_expired _ _ _ _ _ ?_⟩
    have := (NewNumericDate_le nowExp).1
    unfold Time Duration at *
    omega

/-! ## The throttle gate: lemmas -/

theorem setRateLimitHeaders_fields (c : Context) (durationString : Duration → String)
    (limit : Int) (window : Duration) :
    (c.setRateLimitHeaders durationString limit window).Authorization = c.Authorization ∧
    (c.setRateLimitHeaders durationString limit window).Keys = c.Keys ∧
    (c.setRateLimitHeaders durationString limit window).ClientIP = c.ClientIP := by
  simp [Context.setRateLimitHeaders, Context.SetHeader]

theorem RateLimitMiddleware_eq (durationString : Duration → String) (limit : Int)
    (window : Duration) (limiter : RateLimiter) (now : Time) (c : Context) (key : String)
    (hk : rateLimitKey c = some key) :
    RateLimitMiddleware durationString limit window limiter now c =
      (if (limiter.Allow now key).1 then
          .next (c.setRateLimitHeaders durationString limit window)
        else
          .abort 429 "Rate limit exceeded" (c.setRateLimitHeaders durationString limit window),
        (limiter.Allow now key).2) := by
  unfold RateLimitMiddleware
  rw [hk]
  cases h : (limiter.Allow now key).1 <;> simp [h, StatusTooManyRequests]

theorem user_key_injective (u v : String) (h : "user:" ++ u = "user:" ++ v) : u = v := by
  have := congrArg String.data h
  simp only [String.data_append, List.append_cancel_left_eq] at this
  exact String.ext this

theorem user_key_ne_address (u ip : String) (hip : IsIPLiteral ip) : "user:" ++ u ≠ ip := by
  intro h
  have hu : 'u' ∈ ip.data := by
    rw [← h, String.data_append]
    exact List.mem_append_left _ (by decide)
  have := hip 'u' hu
  revert this
  decide

/-! ## The throttle gate: the claims -/

/-- The gates of the route `POST /api/products`, case by case, with the header given
by its fields. -/
theorem create_gates_by_fields (durationString : Duration → String) (limit : Int)
    (window : Duration) (limiter : RateLimiter) (now : Time)
    (verify : String → Result Claims) (c : Context) (key : String)
    (hk : rateLimitKey c = some key) :
    ((limiter.Allow now key).1 = false →
      (runThrottled durationString limit window limiter now
        [AuthMiddleware verify, CreatorOnlyMiddleware] c).1 =
        .abort 429 "Rate limit exceeded" (c.setRateLimitHeaders durationString limit window)) ∧
    ((limiter.Allow now key).1 = true →
      (¬ ∃ token, Split c.Authorization ' ' = ["Bearer", token]) →
      ∃ msg, (runThrottled durationString limit window limiter now
        [AuthMiddleware verify, CreatorOnlyMiddleware] c).1 =
        .abort 401 msg (c.setRateLimitHeaders durationString limit window)) ∧
    ((limiter.Allow now key).1 = true →
      ∀ token e, Split c.Authorization ' ' = ["Bearer", token] → verify token = .error e →
      (runThrottled durationString limit window limiter now
        [AuthMiddleware verify, CreatorOnlyMiddleware] c).1 =
        .abort 401 "Invalid or expired token"
          (c.setRateLimitHeaders durationString limit window)) ∧
    ((limiter.Allow now key).1 = true →
      ∀ token claims, Split c.Authorization ' ' = ["Bearer", token] →
      verify token = .ok claims → claims.IsCreator = false →
      (runThrottled durationString limit window limiter now
        [AuthMiddleware verify, CreatorOnlyMiddleware] c).1 =
        .abort 403 "Creator access required"
          ((c.setRateLimitHeaders durationString limit window).setIdentity claims)) ∧
    (∀ c', (runThrottled durationString limit window limiter now
        [AuthMiddleware verify, CreatorOnlyMiddleware] c).1 = .next c' ↔
      (limiter.Allow now key).1 = true ∧
      ∃ token claims, Split c.Authorization ' ' = ["Bearer", token] ∧
        verify token = .ok claims ∧ claims.IsCreator = true ∧
        c' = (c.setRateLimitHeaders durationString limit window).setIdentity claims) := by
  have e := RateLimitMiddleware_eq durationString limit window limiter now c key hk
  have hauth := (setRateLimitHeaders_fields c durationString limit window).1
  have hrun : (limiter.Allow now key).1 = true →
      (runThrottled durationString limit window limiter now
        [AuthMiddleware verify, CreatorOnlyMiddleware] c).1 =
      runChain [AuthMiddleware verify, CreatorOnlyMiddleware]
        (c.setRateLimitHeaders durationString limit window) := by
    intro h
    unfold runThrottled
    rw [e, h]
    rfl
  have hcreator : ∀ claims : Claims,
      CreatorOnlyMiddleware
        ((c.setRateLimitHeaders durationString limit window).setIdentity claims) =
      if claims.IsCreator then
        .next ((c.setRateLimitHeaders durationString limit window).setIdentity claims)
      else .abort 403 "Creator access required"
        ((c.setRateLimitHeaders durationString limit window).setIdentity claims) := by
    intro claims
    have hkc := setIdentity_isCreator (c.setRateLimitHeaders durationString limit window) claims
    cases hb : claims.IsCreator <;> rw [hb] at hkc <;>
      simp [CreatorOnlyMiddleware, hkc, StatusForbidden]
  refine ⟨?_, ?_, ?_, ?_, ?_⟩
  · intro h
    unfold runThrottled
    rw [e, h]
    rfl
  · intro h hw
    rw [hrun h]
    have hw' : ¬ ∃ token, Split (c.setRateLimitHeaders durationString limit
        window).Authorization ' ' = ["Bearer", token] := by rwa [hauth]
    rcases AuthMiddleware_malformed verify _ hw' with h1 | h1
    · exact ⟨_, by simp only [runChain, h1]; rfl⟩
    · exact ⟨_, by simp only [runChain, h1]; rfl⟩
  · intro h token err ht hv
    rw [hrun h]
    have ha := AuthMiddleware_wellFormed verify
      (c.setRateLimitHeaders durationString limit window) token (by rwa [hauth])
    rw [hv] at ha
    simp only [runChain, ha]
    rfl
  · intro h token claims ht hv hc
    rw [hrun h]
    have ha := AuthMiddleware_wellFormed verify
      (c.setRateLimitHeaders durationString limit window) token (by rwa [hauth])
    rw [hv] at ha
    simp only [runChain, ha, hcreator claims, hc]
    rfl
  · intro c'
    constructor
    · intro hn
      cases hallow : (limiter.Allow now key).1 with
      | false =>
        exfalso
        unfold runThrottled at hn
        rw [e, hallow] at hn
        simp at hn
      | true =>
        refine ⟨rfl, ?_⟩
        rw [hrun hallow] at hn
        by_cases hw : ∃ token, Split c.Authorization ' ' = ["Bearer", token]
        · obtain ⟨token, ht⟩ := hw
          have ha := AuthMiddleware_wellFormed verify
            (c.setRateLimitHeaders durationString limit window) token (by rwa [hauth])
          cases hv : verify token with
          | error err =>
            rw [hv] at ha
            simp [runChain, ha] at hn
          | panic =>
            rw [hv] at ha
            simp [runChain, ha] at hn
          | ok claims =>
            rw [hv] at ha
            simp only [runChain, ha, hcreator claims] at hn
            cases hb : claims.IsCreator with
            | false => simp [hb] at hn
            | true =>
              simp only [hb, if_true, Outcome.next.injEq] at hn
              exact ⟨token, claims, ht, hv, hb, hn.symm⟩
        · have hw' : ¬ ∃ token, Split (c.setRateLimitHeaders durationString limit
              window).Authorization ' ' = ["Bearer", token] := by rwa [hauth]
          rcases AuthMiddleware_malformed verify _ hw' with h1 | h1 <;>
            simp [runChain, h1] at hn
    · rintro ⟨hallow, token, claims, ht, hv, hc, rfl⟩
      rw [hrun hallow]
      have ha := AuthMiddleware_wellFormed verify
        (c.setRateLimitHeaders durationString limit window) token (by rwa [hauth])
      rw [hv] at ha
      simp only [runChain, ha, hcreator claims, hc, if_true]

/-- C19: on the route `POST /api/products` the throttle gate, `AuthMiddleware` and
`CreatorOnlyMiddleware` run in this order and stop at the first one that aborts. When
`Allow` rejects the key of the request the answer is 429, whatever the header and the
token are, and no identity is attached; when `Allow` accepts, a header that is not
`Bearer`, one space and a token without a space, or a token on which `Verify` returns
an error, gives 401; when the token verifies and its `IsCreator` is false the answer is
403; and the request reaches the handler exactly when `Allow` accepts, the header is
`Bearer`, one space and a token without a space, the token verifies and its
`IsCreator` is true. -/
theorem products_create_gates (durationString : Duration → String) (limit : Int)
    (window : Duration) (limiter : RateLimiter) (now : Time)
    (verify : String → Result Claims) (c : Context) (key : String)
    (hk : rateLimitKey c = some key) :
    (∀ token, Split c.Authorization ' ' = ["Bearer", token] ↔
      c.Authorization = "Bearer " ++ token ∧ ' ' ∉ token.data) ∧
    ((limiter.Allow now key).1 = false →
      (runThrottled durationString limit window limiter now
        [AuthMiddleware verify, CreatorOnlyMiddleware] c).1 =
        .abort 429 "Rate limit exceeded" (c.setRateLimitHeaders durationString limit window)) ∧
    ((limiter.Allow now key).1 = true →
      (¬ ∃ token, c.Authorization = "Bearer " ++ token ∧ ' ' ∉ token.data) →
      ∃ msg, (runThrottled durationString limit window limiter now
        [AuthMiddleware verify, CreatorOnlyMiddleware] c).1 =
        .abort 401 msg (c.setRateLimitHeaders durationString limit window)) ∧
    ((limiter.Allow now key).1 = true →
      ∀ token e, c.Authorization = "Bearer " ++ token → ' ' ∉ token.data →
      verify token = .error e →
      (runThrottled durationString limit window limiter now
        [AuthMiddleware verify, CreatorOnlyMiddleware] c).1 =
        .abort 401 "Invalid or expired token"
          (c.setRateLimitHeaders durationString limit window)) ∧
    ((limiter.Allow now key).1 = true →
      ∀ token claims, c.Authorization = "Bearer " ++ token → ' ' ∉ token.data →
      verify token = .ok claims → claims.IsCreator = false →
      (runThrottled durationString limit window limiter now
        [AuthMiddleware verify, CreatorOnlyMiddleware] c).1 =
        .abort 403 "Creator access required"
          ((c.setRateLimitHeaders durationString limit window).setIdentity claims)) ∧
    (∀ c', (runThrottled durationString limit window limiter now
        [AuthMiddleware verify, CreatorOnlyMiddleware] c).1 = .next c' ↔
      (limiter.Allow now key).1 = true ∧
      ∃ token claims, c.Authorization = "Bearer " ++ token ∧ ' ' ∉ token.data ∧
        verify token = .ok claims ∧ claims.IsCreator = true ∧
        c' = (c.setRateLimitHeaders durationString limit window).setIdentity claims) := by
  obtain ⟨h429, hmal, herr, h403, hnext⟩ :=
    create_gates_by_fields durationString limit window limiter now verify c key hk
  refine ⟨fun token => Split_bearer_iff _ token, h429, ?_, ?_, ?_, ?_⟩
  · intro ha hw
    apply hmal ha
    rintro ⟨token, ht⟩
    exact hw ⟨token, (Split_bearer_iff _ token).mp ht⟩
  · intro ha token e h1 h2 hv
    exact herr ha token e ((Split_bearer_iff _ token).mpr ⟨h1, h2⟩) hv
  · intro ha token claims h1 h2 hv hc
    exact h403 ha token claims ((Split_bearer_iff _ token).mpr ⟨h1, h2⟩) hv hc
  · intro c'
    rw [hnext c']
    constructor
    · rintro ⟨ha, token, claims, ht, hv, hc, he⟩
      obtain ⟨h1, h2⟩ := (Split_bearer_iff _ token).mp ht
      exact ⟨ha, token, claims, h1, h2, hv, hc, he⟩
    · rintro ⟨ha, token, claims, h1, h2, hv, hc, he⟩
      exact ⟨ha, token, claims, (Split_bearer_iff _ token).mpr ⟨h1, h2⟩, hv, hc, he⟩

/-- C19, witness: a request with an invalid token from an address whose budget of one
request is used up gets 429, not 401; and a first request from 192.0.2.1 with the
header `Bearer abc`, whose token verifies with the creator flag, reaches the handler
with the identity attached. -/
theorem products_create_gates_witness :
    (runThrottled (fun _ => "1m0s") 1 (60 * Second) fullLimiter (101 * Second)
      [AuthMiddleware (fun _ => .error .ErrTokenMalformed), CreatorOnlyMiddleware]
      { requestWith "Bearer abc" with ClientIP := "k" }).1 =
      .abort 429 "Rate limit exceeded"
        (({ requestWith "Bearer abc" with ClientIP := "k" } : Context).setRateLimitHeaders
          (fun _ => "1m0s") 1 (60 * Second)) ∧
    (runThrottled (fun _ => "1m0s") 100 (60 * Second) (NewRateLimiter 100 (60 * Second)) 0
      [AuthMiddleware (fun _ => .ok { UserID := "u1", IsCreator := true }),
        CreatorOnlyMiddleware]
      (requestWith "Bearer abc")).1 =
      .next (((requestWith "Bearer abc").setRateLimitHeaders (fun _ => "1m0s") 100
        (60 * Second)).setIdentity { UserID := "u1", IsCreator := true }) :=
  ⟨(products_create_gates (fun _ => "1m0s") 1 (60 * Second) fullLimiter (101 * Second)
      (fun _ => .error .ErrTokenMalformed) { requestWith "Bearer abc" with ClientIP := "k" }
      "k" rfl).2.1 (by decide),
    ((products_create_gates (fun _ => "1m0s") 100 (60 * Second)
      (NewRateLimiter 100 (60 * Second)) 0
      (fun _ => .ok { UserID := "u1", IsCreator := true }) (requestWith "Bearer abc")
      "192.0.2.1" rfl).2.2.2.2.2 _).mpr
      ⟨by decide, "abc", { UserID := "u1", IsCreator := true }, by decide, by decide, rfl,
        rfl, rfl⟩⟩

/-- C20: the limiter key of a request is `"user:"` followed by the user id whenever the
context holds a user id, and the client address when it holds none. When the client
addresses are IP literals, the key is the address only when the context holds no user
id, and two requests get the same key exactly when they hold the same user id, or both
hold none and come from the same address. -/
theorem rateLimitKey_eq_iff (c1 c2 : Context) :
    (∀ u, c1.Keys "userID" = some (.str u) → rateLimitKey c1 = some ("user:" ++ u)) ∧
    (c1.Keys "userID" = none → rateLimitKey c1 = some c1.ClientIP) ∧
    (IsIPLiteral c1.ClientIP → rateLimitKey c1 = some c1.ClientIP →
      c1.Keys "userID" = none) ∧
    (IsIPLiteral c1.ClientIP → IsIPLiteral c2.ClientIP →
      ∀ k1 k2, rateLimitKey c1 = some k1 → rateLimitKey c2 = some k2 →
      (k1 = k2 ↔
        (∃ u, c1.Keys "userID" = some (.str u) ∧ c2.Keys "userID" = some (.str u)) ∨
        (c1.Keys "userID" = none ∧ c2.Keys "userID" = none ∧ c1.ClientIP = c2.ClientIP))) := by
  refine ⟨?_, ?_, ?_, ?_⟩
  · intro u h
    simp [rateLimitKey, h]
  · intro h
    simp [rateLimitKey, h]
  · intro hip h
    unfold rateLimitKey at h
    cases hk : c1.Keys "userID" with
    | none => rfl
    | some v =>
      cases v with
      | str u =>
        simp only [hk, Option.some.injEq] at h
        exact absurd h (user_key_ne_address u _ hip)
      | bool b => simp [hk] at h
      | claims cl => simp [hk] at h
  · intro hip1 hip2 k1 k2 h1 h2
    unfold rateLimitKey at h1 h2
    cases hk1 : c1.Keys "userID" with
    | none =>
      simp only [hk1, Option.some.injEq] at h1
      cases hk2 : c2.Keys "userID" with
      | none =>
        simp only [hk2, Option.some.injEq] at h2
        subst h1 h2
        simp
      | some v2 =>
        cases v2 with
        | str u2 =>
          simp only [hk2, Option.some.injEq] at h2
          subst h1 h2
          have := user_key_ne_address u2 _ hip1
          simp [this.symm]
        | bool b => simp [hk2] at h2
        | claims cl => simp [hk2] at h2
    | some v1 =>
      cases v1 with
      | str u1 =>
        simp only [hk1, Option.some.injEq] at h1
        cases hk2 : c2.Keys "userID" with
        | none =>
          simp only [hk2, Option.some.injEq] at h2
          subst h1 h2
          have := user_key_ne_address u1 _ hip2
          simp [this]
        | some v2 =>
          cases v2 with
          | str u2 =>
            simp only [hk2, Option.some.injEq] at h2
            subst h1 h2
            constructor
            · intro h
              exact Or.inl ⟨u1, rfl, by rw [user_key_injective u1 u2 h]⟩
            · rintro (⟨u, hu1, hu2⟩ | ⟨h, _⟩)
              · simp only [Option.some.injEq, Val.str.injEq] at hu1 hu2
                rw [hu1, hu2]
              · simp at h
          | bool b => simp [hk2] at h2
          | claims cl => simp [hk2] at h2
      | bool b => simp [hk1] at h1
      | claims cl => simp [hk1] at h1

/-! ## Limiter: frame, window bound and reachable states -/

theorem Time.Sub_mono (t1 t2 u : Time) (h : t1 ≤ t2) : Time.Sub t1 u ≤ Time.Sub t2 u := by
  unfold Time.Sub maxDuration minDuration
  unfold Time Duration at *
  split_ifs <;> omega

theorem Time.Sub_lt_iff (now u : Time) (w : Duration) (hw : 0 < w) (hmax : w ≤ maxDuration) :
    Time.Sub now u < w ↔ now - w < u := by
  unfold Time.Sub maxDuration minDuration
  unfold maxDuration at hmax
  unfold Time Duration at *
  split_ifs <;> omega

theorem RateLimiter.Allow_other (rl : RateLimiter) (now : Time) (key k : String) (h : k ≠ key) :
    (rl.Allow now key).2.requests k = rl.requests k := by
  rw [RateLimiter.Allow_eq]
  split_ifs
  · rw [RateLimiter.afterPrune_requests]
    simp [h]
  · simp [Requests.set, h]

theorem RateLimiter.pruned_afterPrune (rl : RateLimiter) (t1 t2 : Time) (key : String)
    (ht : t1 ≤ t2) :
    (rl.afterPrune t1 key).pruned t2 key = rl.pruned t2 key := by
  unfold RateLimiter.pruned
  rw [RateLimiter.afterPrune_get]
  unfold RateLimiter.pruned
  have hw : (rl.afterPrune t1 key).inWindow t2 = rl.inWindow t2 := by
    funext u
    simp [RateLimiter.inWindow, (RateLimiter.afterPrune_limit rl t1 key).2]
  rw [hw, List.filter_filter]
  apply List.filter_congr
  intro u _
  have hm := Time.Sub_mono t1 t2 u ht
  simp only [RateLimiter.inWindow, Bool.and_eq_true, decide_eq_true_eq]
  by_cases h2 : Time.Sub t2 u < rl.window
  · have : Time.Sub t1 u < rl.window := lt_of_le_of_lt hm h2
    simp [h2, this]
  · simp [h2]

theorem RateLimiter.afterPrune_set (rl : RateLimiter) (t1 : Time) (key : String) (v : List Time) :
    (rl.afterPrune t1 key).requests.set key v = rl.requests.set key v := by
  unfold RateLimiter.afterPrune
  cases hk : rl.requests key with
  | none => rfl
  | some ts => simp [Requests.set_set]

theorem RateLimiter.afterPrune_afterPrune (rl : RateLimiter) (t1 t2 : Time) (key : String)
    (ht : t1 ≤ t2) :
    (rl.afterPrune t1 key).afterPrune t2 key = rl.afterPrune t2 key := by
  have hp := RateLimiter.pruned_afterPrune rl t1 t2 key ht
  have hl := RateLimiter.afterPrune_limit rl t1 key
  cases hk : rl.requests key with
  | none => simp [RateLimiter.afterPrune, hk]
  | some ts =>
    have e1 : rl.afterPrune t1 key =
        { rl with requests := rl.requests.set key (ts.filter (rl.inWindow t1)) } := by
      simp [RateLimiter.afterPrune, hk]
    have e2 : rl.afterPrune t2 key =
        { rl with requests := rl.requests.set key (ts.filter (rl.inWindow t2)) } := by
      simp [RateLimiter.afterPrune, hk]
    have hp2 : (ts.filter (rl.inWindow t1)).filter (rl.inWindow t2) =
        ts.filter (rl.inWindow t2) := by
      have := hp
      simp only [RateLimiter.pruned, e1, Requests.get_set_same] at this
      simpa [RateLimiter.inWindow, Requests.get, hk] using this
    rw [e2, e1]
    simp only [RateLimiter.afterPrune, Requests.set_same, Requests.set_set]
    congr 1
    exact congrArg (rl.requests.set key) hp2

theorem RateLimiter.Allow_afterPrune (rl : RateLimiter) (t1 t2 : Time) (key : String)
    (ht : t1 ≤ t2) :
    (rl.afterPrune t1 key).Allow t2 key = rl.Allow t2 key := by
  rw [RateLimiter.Allow_eq, RateLimiter.Allow_eq rl, RateLimiter.pruned_afterPrune rl t1 t2 key ht,
    (RateLimiter.afterPrune_limit rl t1 key).1, RateLimiter.afterPrune_afterPrune rl t1 t2 key ht,
    RateLimiter.afterPrune_set]
  have hl := RateLimiter.afterPrune_limit rl t1 key
  split_ifs
  · rfl
  · congr 1
    cases hk : rl.requests key with
    | none => simp [RateLimiter.afterPrune, hk]
    | some ts => simp [RateLimiter.afterPrune, hk]


theorem RateLimiter.acceptedTimes_nil (rl : RateLimiter) (key : String) :
    rl.acceptedTimes [] key = [] := rfl

theorem RateLimiter.acceptedTimes_cons (rl : RateLimiter) (now : Time) (k : String)
    (calls : List (Time × String)) (key : String) :
    rl.acceptedTimes ((now, k) :: calls) key =
      (if (rl.Allow now k).1 = true ∧ k = key then [now] else []) ++
        (rl.Allow now k).2.acceptedTimes calls key := by
  unfold RateLimiter.acceptedTimes
  simp only [RateLimiter.run, List.zip_cons_cons, List.filter_cons]
  by_cases h : (rl.Allow now k).1 = true ∧ k = key
  · obtain ⟨h1, h2⟩ := h
    subst h2
    simp [h1]
  · rw [if_neg h]
    have : ((rl.Allow now k).1 && decide (k = key)) = false := by
      rcases not_and_or.mp h with h1 | h1
      · simp [h1]
      · simp [h1]
    simp [this]

theorem RateLimiter.windowBound_run (limit : Int) (w : Duration) (hw : 0 < w)
    (hmax : w ≤ maxDuration) (key : String) (calls : List (Time × String)) :
    ∀ (rl : RateLimiter) (A : List Time) (T : Time), rl.window = w → rl.limit = limit →
      calls.Pairwise (fun a b => a.1 ≤ b.1) → (∀ c ∈ calls, T ≤ c.1) → (∀ u ∈ A, u ≤ T) →
      (∀ c : Time, T - w ≤ c →
        A.countP (fun u => decide (c < u)) ≤
          (rl.requests.get key).countP (fun u => decide (c < u))) →
      windowBound limit w A → windowBound limit w (A ++ rl.acceptedTimes calls key) := by
  induction calls with
  | nil =>
    intro rl A T _ _ _ _ _ _ hP
    simpa [RateLimiter.acceptedTimes_nil] using hP
  | cons x calls ih =>
    obtain ⟨now, k⟩ := x
    intro rl A T hwin hlim hmono hT hA hcount hP
    have hnow : T ≤ now := hT (now, k) (List.mem_cons_self _ _)
    have hmono2 : calls.Pairwise (fun a b => a.1 ≤ b.1) := (List.pairwise_cons.mp hmono).2
    have hT2 : ∀ c ∈ calls, now ≤ c.1 := fun c hc => (List.pairwise_cons.mp hmono).1 c hc
    have hl2 := RateLimiter.Allow_limit rl now k
    rw [RateLimiter.acceptedTimes_cons]
    by_cases hk : k = key
    · subst hk
      have hfilter : ∀ c : Time, now - w ≤ c →
          (rl.pruned now k).countP (fun u => decide (c < u)) =
            (rl.requests.get k).countP (fun u => decide (c < u)) := by
        intro c hc
        unfold RateLimiter.pruned
        rw [List.countP_filter]
        apply List.countP_congr
        intro u _
        simp only [RateLimiter.inWindow, hwin, Bool.and_eq_true, decide_eq_true_eq,
          Time.Sub_lt_iff now u w hw hmax]
        unfold Time Duration at *
        constructor
        · intro h; exact h.1
        · intro h; exact ⟨h, by omega⟩
      cases hres : (rl.Allow now k).1 with
      | false =>
        simp only [Bool.false_eq_true, false_and, if_false, List.nil_append]
        apply ih (rl.Allow now k).2 A now (hl2.2.trans hwin) (hl2.1.trans hlim) hmono2 hT2
          (fun u hu => le_trans (hA u hu) hnow) _ hP
        intro c hc
        rw [RateLimiter.Allow_false_snd rl now k hres, RateLimiter.afterPrune_get,
          hfilter c hc]
        apply hcount
        unfold Time Duration at *
        omega
      | true =>
        simp only [true_and, if_true]
        rw [← List.append_assoc]
        have hget : (rl.Allow now k).2.requests.get k = rl.pruned now k ++ [now] := by
          rw [RateLimiter.Allow_true_requests rl now k hres, Requests.get_set_same]
        have hlt : ((rl.pruned now k).length : Int) < limit := by
          rw [← hlim]
          exact (RateLimiter.Allow_fst rl now k).mp hres
        apply ih (rl.Allow now k).2 (A ++ [now]) now (hl2.2.trans hwin) (hl2.1.trans hlim)
          hmono2 hT2
        · intro u hu
          rcases List.mem_append.mp hu with h1 | h1
          · exact le_trans (hA u h1) hnow
          · simp only [List.mem_singleton] at h1
            rw [h1]
        · intro c hc
          rw [hget, List.countP_append, List.countP_append, hfilter c hc]
          have := hcount c (by unfold Time Duration at *; omega)
          omega
        · -- the bound on the history with the accepted call added
          have hnew : ((A ++ [now]).countP
              (fun u => decide (now - w < u ∧ u ≤ now)) : Int) ≤ limit := by
            rw [List.countP_append]
            have h1 : A.countP (fun u => decide (now - w < u ∧ u ≤ now)) ≤
                A.countP (fun u => decide (now - w < u)) := by
              apply List.countP_mono_left
              intro u _ hu
              simp only [decide_eq_true_eq] at hu ⊢
              exact hu.1
            have h2 := hcount (now - w) (by unfold Time Duration at *; omega)
            have h3 := hfilter (now - w) (le_refl _)
            have h4 : (rl.pruned now k).countP (fun u => decide (now - w < u)) ≤
                (rl.pruned now k).length := List.countP_le_length _
            have h5 : [now].countP (fun u => decide (now - w < u ∧ u ≤ now)) ≤ 1 :=
              List.countP_le_length _
            simp only [List.length_singleton] at h5
            push_cast
            omega
          intro t ht
          rcases List.mem_append.mp ht with h1 | h1
          · by_cases hlt2 : t < now
            · have hold := hP t h1
              rw [List.countP_append]
              have : [now].countP (fun u => decide (t - w < u ∧ u ≤ t)) = 0 := by
                simp only [List.countP_cons, List.countP_nil, zero_add]
                have : ¬ (t - w < now ∧ now ≤ t) := by
                  intro h
                  exact absurd h.2 (not_le.mpr hlt2)
                simp [this]
              rw [this]
              simpa using hold
            · have : t = now := le_antisymm (le_trans (hA t h1) hnow) (not_lt.mp hlt2)
              rw [this]
              exact hnew
          · simp only [List.mem_singleton] at h1
            rw [h1]
            exact hnew
    · have hne : ¬ ((rl.Allow now k).1 = true ∧ k = key) := fun h => hk h.2
      rw [if_neg hne, List.nil_append]
      apply ih (rl.Allow now k).2 A now (hl2.2.trans hwin) (hl2.1.trans hlim) hmono2 hT2
        (fun u hu => le_trans (hA u hu) hnow) _ hP
      intro c hc
      have : (rl.Allow now k).2.requests.get key = rl.requests.get key := by
        unfold Requests.get
        rw [RateLimiter.Allow_other rl now k key (fun h => hk h.symm)]
      rw [this]
      apply hcount
      unfold Time Duration at *
      omega


theorem RateLimiter.run_reachable (limit : Int) (window : Duration)
    (calls : List (Time × String)) :
    ∀ rl, RateLimiter.Reachable limit window rl →
      RateLimiter.Reachable limit window (rl.run calls).2 := by
  induction calls with
  | nil => intro rl hr; exact hr
  | cons x calls ih =>
    obtain ⟨now, key⟩ := x
    intro rl hr
    exact ih _ (RateLimiter.Reachable.step rl now key hr)

theorem RateLimiter.run_rejected (k : String) (t2 : Time) (retries : List Time) :
    ∀ s : RateLimiter, (∀ t ∈ retries, t ≤ t2) →
      (∀ b ∈ (s.run (retries.map fun t => (t, k))).1, b = false) →
      (s.run (retries.map fun t => (t, k))).2.Allow t2 k = s.Allow t2 k := by
  induction retries with
  | nil => intro s _ _; rfl
  | cons t retries ih =>
    intro s ht hb
    simp only [List.map_cons, RateLimiter.run] at hb ⊢
    have hf : (s.Allow t k).1 = false := hb _ (List.mem_cons_self _ _)
    rw [ih (s.Allow t k).2 (fun u hu => ht u (List.mem_cons_of_mem _ hu))
      (fun b hb2 => hb b (List.mem_cons_of_mem _ hb2)),
      RateLimiter.Allow_false_snd s t k hf,
      RateLimiter.Allow_afterPrune s t t2 k (ht t (List.mem_cons_self _ _))]

/-- C23: for every limiter state, key and instant, `Allow(key)` leaves the entry of
every other key exactly as it was, present with the same timestamps or absent, whether
it returns true or false; the limit and the window are unchanged as well. -/
theorem Allow_frame (rl : RateLimiter) (now : Time) (key : String) :
    (∀ k, k ≠ key → (rl.Allow now key).2.requests k = rl.requests k) ∧
    (∀ k, k ≠ key →
      (((rl.Allow now key).2.requests k).isSome ↔ (rl.requests k).isSome)) ∧
    (∀ k, k ≠ key → (rl.Allow now key).2.requests.get k = rl.requests.get k) ∧
    (rl.Allow now key).2.limit = rl.limit ∧ (rl.Allow now key).2.window = rl.window := by
  have h := fun k hk => RateLimiter.Allow_other rl now key k hk
  refine ⟨h, ?_, ?_, RateLimiter.Allow_limit rl now key⟩
  · intro k hk
    rw [h k hk]
  · intro k hk
    unfold Requests.get
    rw [h k hk]

/-- C24: on a fresh limiter with a positive window, for every sequence of calls of
`Allow` whose instants do not decrease, every key `k` and every accepted call for `k`
at the instant `t`: the number of accepted calls for `k` with an instant in the
half-open interval from `t - window` (excluded) to `t` (included) is at most `limit`. -/
theorem Allow_sliding_window_bound (limit : Int) (window : Duration)
    (calls : List (Time × String)) (k : String) (t : Time)
    (hw : 0 < window) (hmax : window ≤ maxDuration)
    (hmono : calls.Pairwise fun a b => a.1 ≤ b.1)
    (ht : t ∈ (NewRateLimiter limit window).acceptedTimes calls k) :
    ((((NewRateLimiter limit window).acceptedTimes calls k).countP
      fun u => decide (t - window < u ∧ u ≤ t) : Nat) : Int) ≤ limit := by
  cases calls with
  | nil => simp [RateLimiter.acceptedTimes_nil] at ht
  | cons x calls =>
    have hb := RateLimiter.windowBound_run limit window hw hmax k (x :: calls)
      (NewRateLimiter limit window) [] x.1 rfl rfl hmono
      (fun c hc => by
        rcases List.mem_cons.mp hc with h1 | h1
        · rw [h1]
        · exact (List.pairwise_cons.mp hmono).1 c h1)
      (fun u hu => by simp at hu)
      (fun c _ => by simp)
      (fun u hu => by simp at hu)
    rw [List.nil_append] at hb
    exact hb t ht

/-- C24, witness: limit 2, window 60 s, calls for `"k"` at 0 s, 0 s, 0 s and 60 s: the
accepted calls are the first two and the last, and the window of the last accepted call
holds one accepted call. -/
theorem Allow_sliding_window_bound_witness :
    (NewRateLimiter 2 (60 * Second)).acceptedTimes
        [(0, "k"), (0, "k"), (0, "k"), (60 * Second, "k")] "k" = [0, 0, 60 * Second] ∧
    ((((NewRateLimiter 2 (60 * Second)).acceptedTimes
        [(0, "k"), (0, "k"), (0, "k"), (60 * Second, "k")] "k").countP
      fun u => decide (60 * Second - 60 * Second < u ∧ u ≤ 60 * Second) : Nat) : Int) ≤ 2 :=
  ⟨by decide,
    Allow_sliding_window_bound 2 (60 * Second)
      [(0, "k"), (0, "k"), (0, "k"), (60 * Second, "k")] "k" (60 * Second)
      (by decide) (by decide) (by decide) (by decide)⟩

/-- C25: a rejected attempt does not influence later decisions. If `Allow(k)` at `t1`
returns false, then `Allow(k)` at any `t2` at or after `t1` on the state the rejected
call left returns the same boolean and leaves the same entry for `k`, indeed the same
state, as `Allow(k)` at `t2` on the state before the rejected call. Hence after any
number of rejected retries made up to `t2`, the call at `t2` is decided as if none of
them had been made. -/
theorem Allow_rejected_no_influence (s : RateLimiter) (k : String) (t1 t2 : Time)
    (ht : t1 ≤ t2) (hf : (s.Allow t1 k).1 = false) :
    ((s.Allow t1 k).2.Allow t2 k).1 = (s.Allow t2 k).1 ∧
    ((s.Allow t1 k).2.Allow t2 k).2.requests k = (s.Allow t2 k).2.requests k ∧
    (s.Allow t1 k).2.Allow t2 k = s.Allow t2 k ∧
    (∀ retries : List Time, (∀ t ∈ retries, t ≤ t2) →
      (∀ b ∈ (s.run (retries.map fun t => (t, k))).1, b = false) →
      (s.run (retries.map fun t => (t, k))).2.Allow t2 k = s.Allow t2 k) := by
  have e : (s.Allow t1 k).2.Allow t2 k = s.Allow t2 k := by
    rw [RateLimiter.Allow_false_snd s t1 k hf, RateLimiter.Allow_afterPrune s t1 t2 k ht]
  refine ⟨by rw [e], by rw [e], e, ?_⟩
  intro retries hr hb
  exact RateLimiter.run_rejected k t2 retries s hr hb

/-- C25, witness: on `fullLimiter`, whose one slot was taken at 100 s, the retry at
101 s is rejected, and the call at 160 s is accepted after the retry as it is without
it. -/
theorem Allow_rejected_no_influence_witness :
    (fullLimiter.Allow (101 * Second) "k").1 = false ∧
    ((fullLimiter.Allow (101 * Second) "k").2.Allow (160 * Second) "k").1 = true ∧
    (fullLimiter.Allow (160 * Second) "k").1 = true :=
  ⟨by decide,
    ((Allow_rejected_no_influence fullLimiter "k" (101 * Second) (160 * Second) (by decide)
      (by decide)).1).trans (by decide),
    by decide⟩

/-- C26: in every state reachable from `NewRateLimiter(limit, window)` with a limit of
zero or more, by calls of `Allow` with any keys and any instants, the timestamp
sequence of every key has at most `limit` elements; so it is after every sequence of
calls run on the fresh limiter. -/
theorem Reachable_entries_bounded (limit : Int) (window : Duration) (rl : RateLimiter)
    (hl : 0 ≤ limit) (hr : RateLimiter.Reachable limit window rl) :
    (∀ k, ((rl.requests.get k).length : Int) ≤ limit) ∧
    (∀ k ts, rl.requests k = some ts → (ts.length : Int) ≤ limit) ∧
    (∀ (calls : List (Time × String)) (k : String),
      ((((NewRateLimiter limit window).run calls).2.requests.get k).length : Int) ≤ limit) := by
  have hget : ∀ rl0, RateLimiter.Reachable limit window rl0 →
      ∀ k, ((rl0.requests.get k).length : Int) ≤ limit := by
    intro rl0 hr0 k
    have hb := hr0.bounded
    unfold Requests.get
    cases hk : rl0.requests k with
    | none => simpa using hl
    | some ts =>
      have := hb.2.2 k ts hk
      rw [hb.1] at this
      simpa using this
  refine ⟨hget rl hr, ?_, ?_⟩
  · intro k ts hk
    have hb := hr.bounded
    have := hb.2.2 k ts hk
    rwa [hb.1] at this
  · intro calls k
    exact hget _ (RateLimiter.run_reachable limit window calls _ RateLimiter.Reachable.fresh) k

/-- C26, witness: `fullLimiter` is reached by one call on `NewRateLimiter(1, 60s)`, and
its entry for `"k"` holds one timestamp. -/
theorem Reachable_entries_bounded_witness :
    ((fullLimiter.requests.get "k").length : Int) ≤ 1 :=
  (Reachable_entries_bounded 1 (60 * Second) fullLimiter (by decide)
    (RateLimiter.Reachable.step _ _ _ RateLimiter.Reachable.fresh)).1 "k"

/-! ## Authorization gates: identity and the order of the gates -/

theorem setIdentity_keys (c : Context) (claims : Claims) :
    (c.setIdentity claims).Keys "userID" = some (.str claims.UserID) ∧
    (c.setIdentity claims).Keys "username" = some (.str claims.Username) ∧
    (c.setIdentity claims).Keys "email" = some (.str claims.Email) ∧
    (c.setIdentity claims).Keys "role" = some (.str claims.Role) ∧
    (c.setIdentity claims).Keys "isCreator" = some (.bool claims.IsCreator) ∧
    (c.setIdentity claims).Keys "claims" = some (.claims claims) := by
  simp [Context.setIdentity, Keys.Set]

theorem AuthMiddleware_cases (verify : String → Result Claims) (c : Context) :
    (∃ msg, AuthMiddleware verify c = .abort 401 msg c ∧
      msg ∈ ["Authorization header required", "Invalid authorization header format",
        "Invalid or expired token"]) ∨
    (∃ token, Split c.Authorization ' ' = ["Bearer", token] ∧ verify token = .panic ∧
      AuthMiddleware verify c = .panic) ∨
    (∃ token claims, Split c.Authorization ' ' = ["Bearer", token] ∧
      verify token = .ok claims ∧ AuthMiddleware verify c = .next (c.setIdentity claims)) := by
  by_cases hw : ∃ token, Split c.Authorization ' ' = ["Bearer", token]
  · obtain ⟨token, ht⟩ := hw
    have ha := AuthMiddleware_wellFormed verify c token ht
    cases hv : verify token with
    | error e =>
      rw [hv] at ha
      exact Or.inl ⟨_, ha, by simp⟩
    | panic =>
      rw [hv] at ha
      exact Or.inr (Or.inl ⟨token, ht, hv, ha⟩)
    | ok claims =>
      rw [hv] at ha
      exact Or.inr (Or.inr ⟨token, claims, ht, hv, ha⟩)
  · rcases AuthMiddleware_malformed verify c hw with h1 | h1
    · exact Or.inl ⟨_, h1, by simp⟩
    · exact Or.inl ⟨_, h1, by simp⟩

theorem OptionalAuthMiddleware_cases (verify : String → Result Claims) (c : Context) :
    OptionalAuthMiddleware verify c = .next c ∨
    (∃ token, Split c.Authorization ' ' = ["Bearer", token] ∧ verify token = .panic ∧
      OptionalAuthMiddleware verify c = .panic) ∨
    (∃ token claims, Split c.Authorization ' ' = ["Bearer", token] ∧
      verify token = .ok claims ∧
      OptionalAuthMiddleware verify c = .next (c.setIdentity claims)) := by
  by_cases hw : ∃ token, Split c.Authorization ' ' = ["Bearer", token]
  · obtain ⟨token, ht⟩ := hw
    have ha := OptionalAuthMiddleware_wellFormed verify c token ht
    cases hv : verify token with
    | error e =>
      rw [hv] at ha
      exact Or.inl ha
    | panic =>
      rw [hv] at ha
      exact Or.inr (Or.inl ⟨token, ht, hv, ha⟩)
    | ok claims =>
      rw [hv] at ha
      exact Or.inr (Or.inr ⟨token, claims, ht, hv, ha⟩)
  · exact Or.inl (OptionalAuthMiddleware_malformed verify c hw)

/-- C22: the identity is attached all at once or not at all. Whenever `AuthMiddleware`
or `OptionalAuthMiddleware` ends with a context, that context is either the one it
received, with nothing set, or the one with the six values `userID`, `username`,
`email`, `role`, `isCreator` and `claims` set from the claims `Verify` returned on the
token of the header; and `AuthMiddleware` forwards only the latter. -/
theorem identity_all_or_nothing (verify : String → Result Claims) (c : Context) :
    (∀ c', AuthMiddleware verify c = .next c' →
      ∃ token claims, Split c.Authorization ' ' = ["Bearer", token] ∧
        verify token = .ok claims ∧ c' = c.setIdentity claims) ∧
    (∀ status msg c', AuthMiddleware verify c = .abort status msg c' → c' = c) ∧
    (∀ c', OptionalAuthMiddleware verify c = .next c' →
      c' = c ∨ ∃ token claims, Split c.Authorization ' ' = ["Bearer", token] ∧
        verify token = .ok claims ∧ c' = c.setIdentity claims) ∧
    (∀ status msg c', OptionalAuthMiddleware verify c ≠ .abort status msg c') ∧
    (∀ claims : Claims,
      (c.setIdentity claims).Keys "userID" = some (.str claims.UserID) ∧
      (c.setIdentity claims).Keys "username" = some (.str claims.Username) ∧
      (c.setIdentity claims).Keys "email" = some (.str claims.Email) ∧
      (c.setIdentity claims).Keys "role" = some (.str claims.Role) ∧
      (c.setIdentity claims).Keys "isCreator" = some (.bool claims.IsCreator) ∧
      (c.setIdentity claims).Keys "claims" = some (.claims claims)) := by
  refine ⟨?_, ?_, ?_, ?_, setIdentity_keys c⟩
  · intro c' h
    rcases AuthMiddleware_cases verify c with ⟨msg, h1, _⟩ | ⟨token, _, _, h1⟩ |
      ⟨token, claims, ht, hv, h1⟩
    · rw [h1] at h; exact Outcome.noConfusion h
    · rw [h1] at h; exact Outcome.noConfusion h
    · rw [h1] at h
      exact ⟨token, claims, ht, hv, (Outcome.next.inj h).symm⟩
  · intro status msg c' h
    rcases AuthMiddleware_cases verify c with ⟨msg0, h1, _⟩ | ⟨token, _, _, h1⟩ |
      ⟨token, claims, ht, hv, h1⟩
    · rw [h1] at h
      exact (Outcome.abort.inj h).2.2.symm
    · rw [h1] at h; exact Outcome.noConfusion h
    · rw [h1] at h; exact Outcome.noConfusion h
  · intro c' h
    rcases OptionalAuthMiddleware_cases verify c with h1 | ⟨token, _, _, h1⟩ |
      ⟨token, claims, ht, hv, h1⟩
    · rw [h1] at h
      exact Or.inl (Outcome.next.inj h).symm
    · rw [h1] at h; exact Outcome.noConfusion h
    · rw [h1] at h
      exact Or.inr ⟨token, claims, ht, hv, (Outcome.next.inj h).symm⟩
  · intro status msg c' h
    rcases OptionalAuthMiddleware_cases verify c with h1 | ⟨token, _, _, h1⟩ |
      ⟨token, claims, ht, hv, h1⟩ <;> rw [h1] at h <;> exact Outcome.noConfusion h

theorem runChain_AuthMiddleware (verify : String → Result Claims) (gate : Context → Outcome)
    (c : Context) :
    (∃ msg, runChain [AuthMiddleware verify, gate] c = .abort 401 msg c ∧
      msg ∈ ["Authorization header required", "Invalid authorization header format",
        "Invalid or expired token"]) ∨
    (∃ token, Split c.Authorization ' ' = ["Bearer", token] ∧ verify token = .panic ∧
      runChain [AuthMiddleware verify, gate] c = .panic) ∨
    (∃ token claims, Split c.Authorization ' ' = ["Bearer", token] ∧
      verify token = .ok claims ∧
      runChain [AuthMiddleware verify, gate] c = runChain [gate] (c.setIdentity claims)) := by
  rcases AuthMiddleware_cases verify c with ⟨msg, h1, hm⟩ | ⟨token, ht, hv, h1⟩ |
    ⟨token, claims, ht, hv, h1⟩
  · exact Or.inl ⟨msg, by simp only [runChain, h1], hm⟩
  · exact Or.inr (Or.inl ⟨token, ht, hv, by simp only [runChain, h1]⟩)
  · exact Or.inr (Or.inr ⟨token, claims, ht, hv, by simp only [runChain, h1]⟩)

theorem CreatorOnlyMiddleware_setIdentity (c : Context) (claims : Claims) :
    runChain [CreatorOnlyMiddleware] (c.setIdentity claims) = .next (c.setIdentity claims) ∨
    runChain [CreatorOnlyMiddleware] (c.setIdentity claims) =
      .abort 403 "Creator access required" (c.setIdentity claims) := by
  have hk := setIdentity_isCreator c claims
  cases hb : claims.IsCreator <;> rw [hb] at hk <;>
    simp [runChain, CreatorOnlyMiddleware, hk, StatusForbidden]

theorem AdminOnlyMiddleware_setIdentity (c : Context) (claims : Claims) :
    runChain [AdminOnlyMiddleware] (c.setIdentity claims) = .next (c.setIdentity claims) ∨
    runChain [AdminOnlyMiddleware] (c.setIdentity claims) =
      .abort 403 "Admin access required" (c.setIdentity claims) := by
  have hr := setIdentity_role c claims
  by_cases hb : claims.Role = "admin" <;>
    simp [runChain, AdminOnlyMiddleware, hr, hb, StatusForbidden]

theorem runChain_singleton (gate : Context → Outcome) (c : Context) :
    runChain [gate] c = gate c := by
  simp only [runChain]
  cases gate c <;> rfl

theorem route_after_AuthMiddleware (verify : String → Result Claims)
    (gate : Context → Outcome) (msg403 : String)
    (hg : ∀ (c : Context) (claims : Claims),
      runChain [gate] (c.setIdentity claims) = .next (c.setIdentity claims) ∨
      runChain [gate] (c.setIdentity claims) = .abort 403 msg403 (c.setIdentity claims))
    (c0 : Context) :
    (∀ c'', runChain [AuthMiddleware verify, gate] c0 ≠
      .abort 401 "Authentication required" c'') ∧
    (runChain [AuthMiddleware verify, gate] c0 = .panic →
      ∃ token, Split c0.Authorization ' ' = ["Bearer", token] ∧ verify token = .panic) := by
  rcases runChain_AuthMiddleware verify gate c0 with ⟨msg, h1, hm⟩ | ⟨token, ht, hv, h1⟩ |
    ⟨token, claims, ht, hv, h1⟩
  · rw [h1]
    refine ⟨?_, fun h => Outcome.noConfusion h⟩
    intro c'' h3
    have e := (Outcome.abort.inj h3).2.1
    rw [e] at hm
    revert hm
    decide
  · exact ⟨fun c'' h3 => by rw [h1] at h3; exact Outcome.noConfusion h3,
      fun _ => ⟨token, ht, hv⟩⟩
  · rw [h1]
    rcases hg c0 claims with e | e <;> rw [e]
    · exact ⟨fun c'' h3 => Outcome.noConfusion h3, fun h => Outcome.noConfusion h⟩
    · refine ⟨?_, fun h => Outcome.noConfusion h⟩
      intro c'' h3
      have := (Outcome.abort.inj h3).1
      revert this
      decide

/-- C30: when `AuthMiddleware` has forwarded a request, the context holds a boolean
under `isCreator` and a string under `role`. So on the routes where
`CreatorOnlyMiddleware` or `AdminOnlyMiddleware` runs after it, the type assertions of
the two gates do not panic and their branch 401 "Authentication required" is not
taken: each gate forwards the request or aborts it with 403. On these routes no
request is answered 401 "Authentication required", and the handlers panic only when
`Verify` does. -/
theorem gates_after_AuthMiddleware (verify : String → Result Claims) (c c' : Context)
    (h : AuthMiddleware verify c = .next c') :
    (∃ b, c'.Keys "isCreator" = some (.bool b)) ∧
    (∃ role, c'.Keys "role" = some (.str role)) ∧
    (CreatorOnlyMiddleware c' = .next c' ∨
      CreatorOnlyMiddleware c' = .abort 403 "Creator access required" c') ∧
    (AdminOnlyMiddleware c' = .next c' ∨
      AdminOnlyMiddleware c' = .abort 403 "Admin access required" c') ∧
    CreatorOnlyMiddleware c' ≠ .panic ∧ AdminOnlyMiddleware c' ≠ .panic ∧
    (∀ msg c'', CreatorOnlyMiddleware c' ≠ .abort 401 msg c'') ∧
    (∀ msg c'', AdminOnlyMiddleware c' ≠ .abort 401 msg c'') ∧
    (∀ c0 : Context,
      (∀ c'', runChain [AuthMiddleware verify, CreatorOnlyMiddleware] c0 ≠
        .abort 401 "Authentication required" c'') ∧
      (runChain [AuthMiddleware verify, CreatorOnlyMiddleware] c0 = .panic →
        ∃ token, Split c0.Authorization ' ' = ["Bearer", token] ∧ verify token = .panic)) ∧
    (∀ c0 : Context,
      (∀ c'', runChain [AuthMiddleware verify, AdminOnlyMiddleware] c0 ≠
        .abort 401 "Authentication required" c'') ∧
      (runChain [AuthMiddleware verify, AdminOnlyMiddleware] c0 = .panic →
        ∃ token, Split c0.Authorization ' ' = ["Bearer", token] ∧ verify token = .panic)) := by
  have hc : ∃ claims, c' = c.setIdentity claims := by
    rcases AuthMiddleware_cases verify c with ⟨msg, h1, _⟩ | ⟨token, _, _, h1⟩ |
      ⟨token, claims, ht, hv, h1⟩
    · rw [h1] at h; exact Outcome.noConfusion h
    · rw [h1] at h; exact Outcome.noConfusion h
    · rw [h1] at h
      exact ⟨claims, (Outcome.next.inj h).symm⟩
  obtain ⟨claims, rfl⟩ := hc
  have h1 := CreatorOnlyMiddleware_setIdentity c claims
  have h2 := AdminOnlyMiddleware_setIdentity c claims
  rw [runChain_singleton] at h1 h2
  refine ⟨⟨_, setIdentity_isCreator c claims⟩, ⟨_, setIdentity_role c claims⟩, h1, h2,
    ?_, ?_, ?_, ?_,
    route_after_AuthMiddleware verify CreatorOnlyMiddleware _ CreatorOnlyMiddleware_setIdentity,
    route_after_AuthMiddleware verify AdminOnlyMiddleware _ AdminOnlyMiddleware_setIdentity⟩
  · rcases h1 with e | e <;> rw [e] <;> exact Outcome.noConfusion
  · rcases h2 with e | e <;> rw [e] <;> exact Outcome.noConfusion
  · intro msg c''
    rcases h1 with e | e <;> rw [e] <;> intro h3
    · exact Outcome.noConfusion h3
    · have := (Outcome.abort.inj h3).1
      revert this
      decide
  · intro msg c''
    rcases h2 with e | e <;> rw [e] <;> intro h3
    · exact Outcome.noConfusion h3
    · have := (Outcome.abort.inj h3).1
      revert this
      decide

/-- C30, witness: a request with the header `Bearer abc` whose token verifies: the
context `AuthMiddleware` forwards holds a boolean under `isCreator`. -/
theorem gates_after_AuthMiddleware_witness :
    ∃ b, ((requestWith "Bearer abc").setIdentity {}).Keys "isCreator" = some (.bool b) :=
  (gates_after_AuthMiddleware (fun _ => .ok {}) (requestWith "Bearer abc")
    ((requestWith "Bearer abc").setIdentity {})
    (AuthMiddleware_wellFormed (fun _ => .ok {}) (requestWith "Bearer abc") "abc"
      (by decide))).1


/-- C21: in the pipeline as wired the throttle gate runs first, on a context on which
no value is set, so its key is the client address whatever the `Authorization` header
holds: a request with a valid session token and a request without a credential from
one address are metered by the same key and draw on one budget. With the limit 100 and
the window of one minute of `main`, after 100 requests without a credential from
192.0.2.1 a request from that address is answered 429 whatever token it carries. -/
theorem throttle_gate_one_budget (durationString : Duration → String) (limit : Int)
    (window : Duration) (limiter : RateLimiter) (now : Time) (authorization : String)
    (verify : String → Result Claims) :
    rateLimitKey (requestWith authorization) = some "192.0.2.1" ∧
    rateLimitKey (requestWith authorization) = rateLimitKey (requestWith "") ∧
    (RateLimitMiddleware durationString limit window limiter now
        (requestWith authorization)).2 = (limiter.Allow now "192.0.2.1").2 ∧
    ((∃ c', (RateLimitMiddleware durationString limit window limiter now
        (requestWith authorization)).1 = .next c') ↔
      (limiter.Allow now "192.0.2.1").1 = true) ∧
    (runThrottled durationString 100 (60 * Second)
        ((NewRateLimiter 100 (60 * Second)).run (List.replicate 100 (0, "192.0.2.1"))).2 0
        [AuthMiddleware verify] (requestWith authorization)).1 =
      .abort 429 "Rate limit exceeded"
        ((requestWith authorization).setRateLimitHeaders durationString 100 (60 * Second)) := by
  have hk : rateLimitKey (requestWith authorization) = some "192.0.2.1" := rfl
  have e := fun limit window limiter =>
    RateLimitMiddleware_eq durationString limit window limiter now (requestWith authorization)
      "192.0.2.1" hk
  refine ⟨hk, rfl, ?_, ?_, ?_⟩
  · rw [e]
  · rw [e]
    cases hres : (limiter.Allow now "192.0.2.1").1 <;> simp
  · have hrun := RateLimiter.run_same_instant 0 "192.0.2.1" 100
      (NewRateLimiter 100 (60 * Second)) 0 (by decide) rfl (by decide)
    have hp := RateLimiter.pruned_replicate_same _ 0 "192.0.2.1" (0 + 100)
      (by rw [hrun.2.2.2]; decide) hrun.2.1
    have hf : ((((NewRateLimiter 100 (60 * Second)).run
        (List.replicate 100 (0, "192.0.2.1"))).2).Allow 0 "192.0.2.1").1 = false := by
      cases hres : ((((NewRateLimiter 100 (60 * Second)).run
          (List.replicate 100 (0, "192.0.2.1"))).2).Allow 0 "192.0.2.1").1 with
      | false => rfl
      | true =>
        have := (RateLimiter.Allow_fst _ _ _).mp hres
        rw [hp, hrun.2.2.1, List.length_replicate] at this
        exact absurd this (by decide)
    unfold runThrottled
    rw [RateLimitMiddleware_eq durationString 100 (60 * Second) _ 0 (requestWith authorization)
      "192.0.2.1" hk, hf]
    rfl

/-! ## Handlers: the tokens they issue -/

theorem RefreshToken_ok (h : HMAC) (jwtManager : JWTManager) (verifyReads : Time × Time)
    (sessionReads refreshReads : Time × Time × Time) (refreshToken : Token) (s : String)
    (hv : jwtManager.VerifyRefreshToken h verifyReads.1 verifyReads.2 refreshToken = .ok s) :
    AuthHandler.RefreshToken h jwtManager verifyReads sessionReads refreshReads refreshToken =
      .ok (jwtManager.Generate h sessionReads.1 sessionReads.2.1 sessionReads.2.2
          s "johndoe" "john@example.com" "user" true)
        (jwtManager.GenerateRefreshToken h refreshReads.1 refreshReads.2.1 refreshReads.2.2 s) := by
  unfold AuthHandler.RefreshToken
  rw [hv]

theorem RefreshToken_ok_inv (h : HMAC) (jwtManager : JWTManager) (verifyReads : Time × Time)
    (sessionReads refreshReads : Time × Time × Time) (refreshToken token r : Token)
    (hr : AuthHandler.RefreshToken h jwtManager verifyReads sessionReads refreshReads
      refreshToken = .ok token r) :
    ∃ s, token = jwtManager.Generate h sessionReads.1 sessionReads.2.1 sessionReads.2.2
          s "johndoe" "john@example.com" "user" true := by
  unfold AuthHandler.RefreshToken at hr
  cases hv : jwtManager.VerifyRefreshToken h verifyReads.1 verifyReads.2 refreshToken with
  | error e => simp [hv] at hr
  | panic => simp [hv] at hr
  | ok s =>
    simp only [hv, RefreshResponse.ok.injEq] at hr
    exact ⟨s, hr.1.symm⟩

theorem Issued_eq_Generate (h : HMAC) (jwtManager : JWTManager) (tok : Token)
    (hi : AuthHandler.Issued h jwtManager tok) :
    ∃ (nowExp nowIat nowNbf : Time) (userID username email : String) (isCreator : Bool),
      tok = jwtManager.Generate h nowExp nowIat nowNbf userID username email "user"
        isCreator := by
  cases hi with
  | register sr rr userID un em at_ => exact ⟨_, _, _, _, _, _, _, rfl⟩
  | login sr rr user => exact ⟨_, _, _, _, _, _, _, rfl⟩
  | refresh vr sr rr rt _ nrt hr =>
    obtain ⟨s, hs⟩ := RefreshToken_ok_inv h jwtManager vr sr rr rt tok nrt hr
    exact ⟨_, _, _, _, _, _, _, hs⟩
  | google sr user ge => exact ⟨_, _, _, _, _, _, _, rfl⟩
  | googleCallback sr user ge => exact ⟨_, _, _, _, _, _, _, rfl⟩

theorem afterParse_cases {α : Type} (nowLib now exp nbf : Time) (v : α) :
    (∃ e, afterParse nowLib now exp nbf v = .error e) ∨
    afterParse nowLib now exp nbf v = .ok v := by
  unfold afterParse
  cases Validate nowLib (some exp) (some nbf) with
  | some e => exact Or.inl ⟨e, rfl⟩
  | none =>
    by_cases h : exp < now
    · exact Or.inl ⟨.ErrExpiredToken, by simp [h]⟩
    · exact Or.inr (by simp [h])


theorem Verify_ok_expires_at (h : HMAC) (manager : JWTManager) (nowLib now : Time)
    (tok : Token) (claims : Claims) (hv : manager.Verify h nowLib now tok = .ok claims) :
    ∃ e, claims.Registered.ExpiresAt = some e ∧ now ≤ e := by
  unfold JWTManager.Verify at hv
  cases hp : ParseWithClaims h Claims.unmarshal (fun c => c.Registered.ExpiresAt)
      (fun c => c.Registered.NotBefore) manager.keyFunc nowLib tok with
  | error e => simp [hp] at hv
  | panic => simp [hp] at hv
  | ok c0 =>
    simp only [hp] at hv
    cases he : c0.Registered.ExpiresAt with
    | none => simp [he] at hv
    | some e =>
      simp only [he] at hv
      by_cases hlt : e < now
      · simp [hlt] at hv
      · simp only [hlt, if_false, Result.ok.injEq] at hv
        subst hv
        exact ⟨e, he, not_lt.mp hlt⟩

theorem Verify_unexpiring (nowLib now : Time) :
    sampleManager.Verify sampleHMAC nowLib now unexpiringToken = .panic := by
  have hp := ParseWithClaims_SignedString sampleHMAC Claims.unmarshal
    (fun c => c.Registered.ExpiresAt) (fun c => c.Registered.NotBefore) sampleManager.keyFunc
    nowLib [("userId", .str "u1"), ("sub", .str "u1")] sampleManager.secretKey
    { UserID := "u1", Registered := { Subject := "u1" } } (by decide) rfl
  unfold JWTManager.Verify unexpiringToken
  rw [hp]
  rfl

theorem VerifyRefreshToken_unexpiring (nowLib now : Time) :
    sampleManager.VerifyRefreshToken sampleHMAC nowLib now unexpiringToken = .panic := by
  have hp := ParseWithClaims_SignedString sampleHMAC RegisteredClaims.unmarshal
    (fun c => c.ExpiresAt) (fun c => c.NotBefore) (fun _ => .ok sampleManager.secretKey)
    nowLib [("userId", .str "u1"), ("sub", .str "u1")] sampleManager.secretKey
    { Subject := "u1" } (by decide) rfl
  unfold JWTManager.VerifyRefreshToken unexpiringToken
  rw [hp]
  rfl

/-- C27: `Verify` and `VerifyRefreshToken` panic on a token that is signed with the
secret and whose payload has no expires-at member: the library accepts the token and
leaves `ExpiresAt` nil, and both methods read `claims.ExpiresAt.Time`. This holds at
every instant. Whenever `Verify` does return claims, their expires-at is present and
not before the instant `Verify` read. -/
theorem Verify_panics_without_expires_at :
    (∀ nowLib now : Time,
      sampleManager.Verify sampleHMAC nowLib now unexpiringToken = .panic) ∧
    (∀ nowLib now : Time,
      sampleManager.VerifyRefreshToken sampleHMAC nowLib now unexpiringToken = .panic) ∧
    (∀ (h : HMAC) (manager : JWTManager) (nowLib now : Time) (tok : Token) (claims : Claims),
      manager.Verify h nowLib now tok = .ok claims →
      ∃ e, claims.Registered.ExpiresAt = some e ∧ now ≤ e) :=
  ⟨Verify_unexpiring, VerifyRefreshToken_unexpiring, Verify_ok_expires_at⟩

/-- C28: for every renewal token on which `VerifyRefreshToken` returns the subject `s`,
the handler `RefreshToken` answers with the session token
`Generate(s, "johndoe", "john@example.com", "user", true)`: its claims have the user id
`s` and the creator flag true. The flag does not come from the account: `Register` and
`Login` generate the session token with the flag of the account, and the renewal token
they return with it, presented while it is valid, is exchanged for a session token with
the flag true. -/
theorem RefreshToken_mints_creator (h : HMAC) (jwtManager : JWTManager)
    (verifyReads : Time × Time) (sessionReads refreshReads : Time × Time × Time)
    (refreshToken : Token) (s : String)
    (hv : jwtManager.VerifyRefreshToken h verifyReads.1 verifyReads.2 refreshToken = .ok s) :
    AuthHandler.RefreshToken h jwtManager verifyReads sessionReads refreshReads refreshToken =
      .ok (jwtManager.Generate h sessionReads.1 sessionReads.2.1 sessionReads.2.2
          s "johndoe" "john@example.com" "user" true)
        (jwtManager.GenerateRefreshToken h refreshReads.1 refreshReads.2.1 refreshReads.2.2 s) ∧
    (∃ claims, Claims.unmarshal
        (jwtManager.Generate h sessionReads.1 sessionReads.2.1 sessionReads.2.2
          s "johndoe" "john@example.com" "user" true).payload = some claims ∧
      claims.UserID = s ∧ claims.IsCreator = true) ∧
    (∀ (loginSession loginRefresh : Time × Time × Time) (user : User),
      ∃ claims, Claims.unmarshal
          (AuthHandler.Login h jwtManager loginSession loginRefresh user).1.payload =
          some claims ∧
        claims.UserID = user.ID ∧ claims.IsCreator = user.IsCreator) ∧
    (∀ (registerSession registerRefresh : Time × Time × Time)
        (userID reqUsername reqEmail reqAccountType : String),
      ∃ claims, Claims.unmarshal
          (AuthHandler.Register h jwtManager registerSession registerRefresh userID
            reqUsername reqEmail reqAccountType).1.payload = some claims ∧
        claims.UserID = userID ∧
        claims.IsCreator = decide (reqAccountType = "creator")) ∧
    (∀ (loginSession loginRefresh : Time × Time × Time) (user : User) (nowLib now : Time),
      NewNumericDate loginRefresh.2.2 ≤ nowLib → nowLib ≤ now →
      now < NewNumericDate (loginRefresh.1 + refreshDuration) →
      AuthHandler.RefreshToken h jwtManager (nowLib, now) sessionReads refreshReads
          (AuthHandler.Login h jwtManager loginSession loginRefresh user).2 =
        .ok (jwtManager.Generate h sessionReads.1 sessionReads.2.1 sessionReads.2.2
            user.ID "johndoe" "john@example.com" "user" true)
          (jwtManager.GenerateRefreshToken h refreshReads.1 refreshReads.2.1
            refreshReads.2.2 user.ID)) := by
  refine ⟨RefreshToken_ok h jwtManager verifyReads sessionReads refreshReads refreshToken s hv,
    ⟨_, Generate_payload .., rfl, rfl⟩, ?_, ?_, ?_⟩
  · intro ls lr user
    exact ⟨_, Generate_payload .., rfl, rfl⟩
  · intro rs rr userID un em at_
    exact ⟨_, Generate_payload .., rfl, rfl⟩
  · intro ls lr user nowLib now h1 h2 h3
    apply RefreshToken_ok
    show jwtManager.VerifyRefreshToken h nowLib now
      (jwtManager.GenerateRefreshToken h lr.1 lr.2.1 lr.2.2 user.ID) = .ok user.ID
    rw [VerifyRefreshToken_GenerateRefreshToken]
    exact afterParse_ok _ _ _ _ _ h1 (lt_of_le_of_lt h2 h3) (le_of_lt h3)

/-- C28, witness: the account `sampleUser`, which is not a creator, logs in at 1.5 s
and presents the renewal token it received at 2.5 s: the session token of the answer
is the one generated with the creator flag true. -/
theorem RefreshToken_mints_creator_witness :
    AuthHandler.RefreshToken sampleHMAC sampleManager (2500000000, 2500000000)
        (2500000000, 2500000000, 2500000000) (2500000000, 2500000000, 2500000000)
        (AuthHandler.Login sampleHMAC sampleManager (1500000000, 1500000000, 1500000000)
          (1500000000, 1500000000, 1500000000) sampleUser).2 =
      .ok (sampleManager.Generate sampleHMAC 2500000000 2500000000 2500000000
          "u2" "johndoe" "john@example.com" "user" true)
        (sampleManager.GenerateRefreshToken sampleHMAC 2500000000 2500000000 2500000000
          "u2") :=
  (RefreshToken_mints_creator sampleHMAC sampleManager (2500000000, 2500000000)
    (2500000000, 2500000000, 2500000000) (2500000000, 2500000000, 2500000000)
    (AuthHandler.Login sampleHMAC sampleManager (1500000000, 1500000000, 1500000000)
      (1500000000, 1500000000, 1500000000) sampleUser).2 "u2"
    (by set_option maxRecDepth 100000 in decide)).1

/-- C29: every session token a handler issues (`Register`, `Login`, `RefreshToken`,
`GoogleAuth`, `GoogleAuthCallback`) carries the role `"user"`. Hence a request whose
bearer token is such a token is never forwarded by `AuthMiddleware` followed by
`AdminOnlyMiddleware`: whenever `Verify` accepts the token, `AdminOnlyMiddleware`
aborts the request with status 403, whatever the account is. -/
theorem handler_tokens_role_user (wire : String → Option Token) (h : HMAC)
    (jwtManager : JWTManager) (tok : Token) (tokenString : String) (c : Context)
    (hi : AuthHandler.Issued h jwtManager tok)
    (hheader : Split c.Authorization ' ' = ["Bearer", tokenString])
    (hwire : wire tokenString = some tok) :
    (∃ claims, Claims.unmarshal tok.payload = some claims ∧ claims.Role = "user") ∧
    (∀ nowLib now claims, jwtManager.Verify h nowLib now tok = .ok claims →
      claims.Role = "user" ∧
      AuthMiddleware (jwtManager.VerifyString wire h nowLib now) c =
        .next (c.setIdentity claims) ∧
      AdminOnlyMiddleware (c.setIdentity claims) =
        .abort 403 "Admin access required" (c.setIdentity claims) ∧
      runChain [AuthMiddleware (jwtManager.VerifyString wire h nowLib now),
          AdminOnlyMiddleware] c =
        .abort 403 "Admin access required" (c.setIdentity claims)) ∧
    (∀ nowLib now c',
      runChain [AuthMiddleware (jwtManager.VerifyString wire h nowLib now),
        AdminOnlyMiddleware] c ≠ .next c') := by
  obtain ⟨nowExp, nowIat, nowNbf, userID, username, email, isCreator, rfl⟩ :=
    Issued_eq_Generate h jwtManager tok hi
  have hstr : ∀ nowLib now, jwtManager.VerifyString wire h nowLib now tokenString =
      jwtManager.Verify h nowLib now
        (jwtManager.Generate h nowExp nowIat nowNbf userID username email "user"
          isCreator) := by
    intro nowLib now
    unfold JWTManager.VerifyString
    rw [hwire]
  have hadmin : ∀ claims : Claims, claims.Role = "user" →
      AdminOnlyMiddleware (c.setIdentity claims) =
        .abort 403 "Admin access required" (c.setIdentity claims) := by
    intro claims hr
    have hk := setIdentity_role c claims
    rw [hr] at hk
    simp [AdminOnlyMiddleware, hk, StatusForbidden]
  have hrole : ∀ nowLib now claims,
      jwtManager.Verify h nowLib now
        (jwtManager.Generate h nowExp nowIat nowNbf userID username email "user"
          isCreator) = .ok claims → claims.Role = "user" := by
    intro nowLib now claims hv
    rw [Verify_Generate] at hv
    rcases afterParse_cases nowLib now (NewNumericDate (nowExp + jwtManager.tokenDuration))
        (NewNumericDate nowNbf)
        (sessionClaims jwtManager nowExp nowIat nowNbf userID username email "user"
          isCreator) with ⟨e, he⟩ | he
    · rw [he] at hv
      exact Result.noConfusion hv
    · rw [he] at hv
      rw [← Result.ok.inj hv]
      rfl
  refine ⟨⟨_, Generate_payload .., rfl⟩, ?_, ?_⟩
  · intro nowLib now claims hv
    have hr := hrole nowLib now claims hv
    have ha := AuthMiddleware_wellFormed (jwtManager.VerifyString wire h nowLib now) c
      tokenString hheader
    rw [hstr, hv] at ha
    refine ⟨hr, ha, hadmin claims hr, ?_⟩
    simp only [runChain, ha, hadmin claims hr]
  · intro nowLib now c' hn
    have ha := AuthMiddleware_wellFormed (jwtManager.VerifyString wire h nowLib now) c
      tokenString hheader
    rw [hstr] at ha
    cases hv : jwtManager.Verify h nowLib now
        (jwtManager.Generate h nowExp nowIat nowNbf userID username email "user"
          isCreator) with
    | error e =>
      rw [hv] at ha
      simp [runChain, ha] at hn
    | panic =>
      rw [hv] at ha
      simp [runChain, ha] at hn
    | ok claims =>
      rw [hv] at ha
      simp [runChain, ha, hadmin claims (hrole nowLib now claims hv)] at hn

/-- C29, witness: a request with the header `Bearer abc`, where `abc` stands for the
session token `Login` issued at 1.5 s to `sampleUser`, verified at 2.5 s: the two gates
abort with status 403. -/
theorem handler_tokens_role_user_witness :
    runChain
      [AuthMiddleware (sampleManager.VerifyString
        (fun _ => some (AuthHandler.Login sampleHMAC sampleManager
          (1500000000, 1500000000, 1500000000) (1500000000, 1500000000, 1500000000)
          sampleUser).1)
        sampleHMAC 2500000000 2500000000),
       AdminOnlyMiddleware] (requestWith "Bearer abc") =
      .abort 403 "Admin access required" ((requestWith "Bearer abc").setIdentity
        (sessionClaims sampleManager 1500000000 1500000000 1500000000
          "u2" "eve" "eve@example.com" "user" false)) :=
  ((handler_tokens_role_user
    (fun _ => some (AuthHandler.Login sampleHMAC sampleManager
      (1500000000, 1500000000, 1500000000) (1500000000, 1500000000, 1500000000)
      sampleUser).1)
    sampleHMAC sampleManager _ "abc" (requestWith "Bearer abc")
    (AuthHandler.Issued.login _ _ _) (by decide) rfl).2.1 2500000000 2500000000
    (sessionClaims sampleManager 1500000000 1500000000 1500000000
      "u2" "eve" "eve@example.com" "user" false)
    (by set_option maxRecDepth 100000 in decide)).2.2.2

end Viport
